import Mathlib

/-!
The transfer registry of `core/curl_stack.cc`.

A shallow embedding of `core::CurlStack`: the registry that holds the
`CurlGet` transfers, admits at most `m_maxActive` of them to the curl
multi handle, and schedules one timer task.

Pointers to `CurlGet` objects are natural numbers; the objects themselves
live in `CurlStack.objs`, so that a pointer stored twice in the collection
aliases one object, as in the C++ code.  What libcurl answers to a call
(a `CURLMcode`, a completion message) is an argument of the operation that
makes the call; the calls themselves are recorded in `CurlStack.multi`.
An `internal_error` thrown by the code is `Except.error`.

The namespace `rpc` holds the command filter and the dispatcher of
`rpc/rpc_manager.cc` and the Linux `close_all_fds` of `rpc/exec_file.cc`;
the namespace `display` holds `create_name` of `display/window_http_queue.cc`
and the balancing of rows and columns of `display/frame.cc`, with the 32-bit
arithmetic of the code written out.
-/

namespace core

/-- A `CurlGet` object as far as the registry reads and writes it:
`handle()`, `is_active()` / `set_active()`, `is_using_ipv6()`. -/
structure CurlGet where
  handle : Nat
  active : Bool
  ipv6 : Bool
deriving DecidableEq, Repr

/-- A call the registry makes on its multi handle `m_handle`:
`curl_multi_add_handle`, `curl_multi_remove_handle`,
`curl_multi_socket_action` (with the descriptor and the event mask passed),
`curl_multi_cleanup`. -/
inductive MultiCall where
  | add_handle (easy : Nat)
  | remove_handle (easy : Nat)
  | socket_action (fd : Int) (events : Int)
  | cleanup
deriving DecidableEq, Repr

/-- A completion callback the registry invokes on a transfer:
`trigger_done()` or `trigger_failed(msg)`, with the pointer it is invoked on. -/
inductive Trigger where
  | done (get : Nat)
  | failed (get : Nat) (msg : String)
deriving DecidableEq, Repr

/-- The registry `CurlStack`.  `base` is the `std::deque<CurlGet*>` it derives
from (arrival order, front first), `objs` the objects behind the pointers,
`m_taskTimeout` the entries the scheduler `taskScheduler` holds for the timer
task, as the times they are queued at, oldest first (empty: not queued).
`multi` and `fired` record, oldest first, the calls made on the multi handle
and the completion callbacks invoked. -/
structure CurlStack where
  base : List Nat
  objs : Nat → CurlGet
  m_active : Nat
  m_maxActive : Nat
  m_taskTimeout : List Int
  multi : List MultiCall
  fired : List Trigger

/-- A completion message `CURLMsg` as read by `curl_multi_info_read`:
`msg->msg`, `msg->easy_handle`, `msg->data.result`. -/
structure CURLMsg where
  msg : Nat
  easy_handle : Nat
  result : Nat
deriving DecidableEq, Repr

/-- The value of `CURLMSG_DONE` in `curl/multi.h`. -/
def CURLMSG_DONE : Nat := 1

/-- The value of `CURLE_OK` in `curl/curl.h`. -/
def CURLE_OK : Nat := 0

/-- The value of `CURLE_COULDNT_RESOLVE_HOST` in `curl/curl.h`. -/
def CURLE_COULDNT_RESOLVE_HOST : Nat := 6

/-- `g->set_active(b)` on the object behind pointer `get`. -/
def set_active (objs : Nat → CurlGet) (get : Nat) (b : Bool) : Nat → CurlGet :=
  fun p => if p = get then { objs p with active := b } else objs p

/-- `m_active--` on an unsigned 32-bit counter. -/
def dec32 (n : Nat) : Nat := (n + 4294967295) % 4294967296

/-- The freshly constructed registry: empty collection, no transfer active,
timer task not queued; every `CurlGet` object starts inactive and on its
first address family.  `handle p` is the easy handle of object `p`. -/
def CurlStack.init (maxActive : Nat) (handle : Nat → Nat) : CurlStack :=
  { base := [],
    objs := fun p => { handle := handle p, active := false, ipv6 := false },
    m_active := 0,
    m_maxActive := maxActive,
    m_taskTimeout := [],
    multi := [],
    fired := [] }

/-- `CurlStack::add_get(get)`.  The `curl_easy_setopt` calls configure the
easy handle only and are left out.  `rc` is what `curl_multi_add_handle`
returns if it is called.  `m_active++` is reached only below `m_maxActive`,
so it cannot wrap. -/
def add_get (rc : Int) (get : Nat) (s : CurlStack) : Except String CurlStack :=
  let s1 := { s with base := s.base ++ [get] }
  if s1.m_active ≥ s1.m_maxActive then
    .ok s1
  else
    let s2 := { s1 with
      m_active := s1.m_active + 1,
      objs := set_active s1.objs get true,
      multi := s1.multi ++ [MultiCall.add_handle (s1.objs get).handle] }
    if rc > 0 then
      .error "Error calling curl_multi_add_handle."
    else
      .ok s2

/-- `CurlStack::remove_get(get)`.  `rc_remove` and `rc_add` are what
`curl_multi_remove_handle` and `curl_multi_add_handle` return if called. -/
def remove_get (rc_remove rc_add : Int) (get : Nat) (s : CurlStack) :
    Except String CurlStack :=
  if get ∉ s.base then
    .error "Could not find CurlGet when calling CurlStack::remove."
  else
    let s1 := { s with base := s.base.erase get }
    if !(s1.objs get).active then
      .ok s1
    else
      let s2 := { s1 with
        objs := set_active s1.objs get false,
        multi := s1.multi ++ [MultiCall.remove_handle (s1.objs get).handle] }
      if rc_remove > 0 then
        .error "Error calling curl_multi_remove_handle."
      else
        match (if s2.m_active = s2.m_maxActive
               then s2.base.find? (fun p => !(s2.objs p).active) else none) with
        | some q =>
          let s3 := { s2 with
            objs := set_active s2.objs q true,
            multi := s2.multi ++ [MultiCall.add_handle (s2.objs q).handle] }
          if rc_add > 0 then
            .error "Error calling curl_multi_add_handle."
          else
            .ok s3
        | none =>
          .ok { s2 with m_active := dec32 s2.m_active }

/-- A call into the registry, with libcurl's answers to the multi-handle
calls it may make. -/
inductive Call where
  | add_get (rc : Int) (get : Nat)
  | remove_get (rc_remove rc_add : Int) (get : Nat)
deriving DecidableEq, Repr

/-- One call into the registry. -/
def run_call (c : Call) (s : CurlStack) : Except String CurlStack :=
  match c with
  | .add_get rc get => add_get rc get s
  | .remove_get rc_remove rc_add get => remove_get rc_remove rc_add get s

/-- A sequence of calls into the registry, stopping at the first that throws. -/
def run_calls : List Call → CurlStack → Except String CurlStack
  | [], s => .ok s
  | c :: cs, s =>
    match run_call c s with
    | .ok s1 => run_calls cs s1
    | .error e => .error e

/-- Modelled from the spec: `CurlGet::retry_ipv6` (core/curl_get.cc is not
among the sources): it clears transient per-attempt state and flips the
address-family flag. -/
def retry_ipv6 (g : CurlGet) : CurlGet := { g with ipv6 := !g.ipv6 }

/-- `CurlStack::transfer_done(handle, msg)`, with `msg = nullptr` as `none`.
`trigger_done` and `trigger_failed` run the slots the caller connected to the
transfer; `slots get msg` is what those slots call back into the registry. -/
def transfer_done (slots : Nat → Option String → List Call)
    (handle : Nat) (msg : Option String) (s : CurlStack) : Except String CurlStack :=
  match s.base.find? (fun p => handle == (s.objs p).handle) with
  | none => .error "Could not find CurlGet with the right easy_handle."
  | some g =>
    match msg with
    | none => run_calls (slots g none) { s with fired := s.fired ++ [Trigger.done g] }
    | some m => run_calls (slots g (some m)) { s with fired := s.fired ++ [Trigger.failed g m] }

/-- `CurlStack::process_done_handle()`.  `read` is what `curl_multi_info_read`
hands back: the message (`none` for a null pointer) and `remaining_msgs`;
`strerror` is `curl_easy_strerror`; `rc` is what `curl_multi_add_handle`
returns if called. -/
def process_done_handle (slots : Nat → Option String → List Call)
    (strerror : Nat → String) (rc : Int) (read : Option CURLMsg × Int)
    (s : CurlStack) : Except String (Bool × CurlStack) :=
  match read.1 with
  | none => .ok (false, s)
  | some msg =>
    if msg.msg ≠ CURLMSG_DONE then
      .error "CurlStack::receive_action() msg->msg != CURLMSG_DONE."
    else if msg.result = CURLE_COULDNT_RESOLVE_HOST then
      match s.base.find? (fun p => msg.easy_handle == (s.objs p).handle) with
      | none => .error "Could not find CurlGet when calling CurlStack::receive_action."
      | some g =>
        if !(s.objs g).ipv6 then
          let objs1 : Nat → CurlGet := fun p => if p = g then retry_ipv6 (s.objs p) else s.objs p
          let s1 := { s with
            objs := objs1,
            multi := s.multi ++ [MultiCall.add_handle (objs1 g).handle] }
          if rc > 0 then
            .error "Error calling curl_multi_add_handle."
          else
            .ok (decide (read.2 ≠ 0), s1)
        else
          .ok (decide (read.2 ≠ 0), s)
    else
      match transfer_done slots msg.easy_handle
              (if msg.result = CURLE_OK then none else some (strerror msg.result)) s with
      | .error e => .error e
      | .ok s1 => .ok (decide (read.2 ≠ 0), s1)

/-- Modelled from the spec: `priority_queue_erase(&taskScheduler, &m_taskTimeout)`
of the global scheduler (its code is not among the sources), the erase of a
timer task: the scheduler holds no entry for the task afterwards, whether it
held one before or not. -/
def priority_queue_erase (s : CurlStack) : CurlStack :=
  { s with m_taskTimeout := [] }

/-- Modelled from the spec: `priority_queue_insert(&taskScheduler, &m_taskTimeout,
time)` of the global scheduler, the insert at a deadline: the scheduler gets one
more entry for the task, at `time`.  An entry it already holds for the task
stays; taking it out is the work of the erase. -/
def priority_queue_insert (time : Int) (s : CurlStack) : CurlStack :=
  { s with m_taskTimeout := s.m_taskTimeout ++ [time] }

/-- `CurlStack::set_timeout`, the timer hook given to libcurl: erase the timer
task, then insert it at `cachedTime + from_milliseconds(timeout_ms)`.
`from_milliseconds` is libtorrent's `torrent::utils::timer::from_milliseconds`. -/
def set_timeout (cachedTime : Int) (from_milliseconds : Int → Int) (timeout_ms : Int)
    (s : CurlStack) : CurlStack :=
  let s1 := priority_queue_erase s
  priority_queue_insert (cachedTime + from_milliseconds timeout_ms) s1

/-- `m_taskTimeout.is_queued()`. -/
def CurlStack.is_queued (s : CurlStack) : Bool := !s.m_taskTimeout.isEmpty

/-- The number of entries of the collection whose transfer has the active
flag set. -/
def CurlStack.activeCount (s : CurlStack) : Nat :=
  s.base.countP (fun p => (s.objs p).active)

/-- The distinct transfers of the collection whose active flag is set. -/
def CurlStack.activeSet (s : CurlStack) : Finset Nat :=
  s.base.toFinset.filter (fun p => (s.objs p).active = true)

/-- Bookkeeping that every sequence of registry calls keeps, whatever is
registered and however often: an active transfer is in the collection, and
the counter is at least the number of distinct active transfers. -/
def Counted (s : CurlStack) : Prop :=
  (∀ p, (s.objs p).active = true → p ∈ s.base) ∧ s.activeSet.card ≤ s.m_active

/-- The bound on the counter, with the bookkeeping that keeps `m_active--`
from wrapping when the maximum fits the 32-bit counter. -/
def Bounded (s : CurlStack) : Prop :=
  s.m_active ≤ s.m_maxActive ∧ (s.m_maxActive < 4294967296 → Counted s)

/-- The registry states reachable from the freshly constructed registry with
maximum `maxActive` (a 32-bit value) by `add_get`, `remove_get`,
`process_done_handle` and the timer hook `set_timeout`, none of them throwing.
`add_get` registers a transfer that is not in the collection: a transfer is
registered once until it is removed.  What the completion slots call back
into the registry during `process_done_handle` are `add_get` and `remove_get`
steps of their own (`process_done_handle_slots`,
`reachable_process_done_handle_closing`), so the step for
`process_done_handle` is taken with slots that call nothing. -/
inductive Reachable (maxActive : Nat) (handle : Nat → Nat) : CurlStack → Prop where
  | init : maxActive < 4294967296 →
      Reachable maxActive handle (CurlStack.init maxActive handle)
  | add_get {s s' : CurlStack} (rc : Int) (get : Nat) :
      Reachable maxActive handle s → get ∉ s.base → add_get rc get s = .ok s' →
      Reachable maxActive handle s'
  | remove_get {s s' : CurlStack} (rc_remove rc_add : Int) (get : Nat) :
      Reachable maxActive handle s → remove_get rc_remove rc_add get s = .ok s' →
      Reachable maxActive handle s'
  | process_done_handle {s s' : CurlStack} (strerror : Nat → String) (rc : Int)
      (read : Option CURLMsg × Int) (more : Bool) :
      Reachable maxActive handle s →
      process_done_handle (fun _ _ => []) strerror rc read s = .ok (more, s') →
      Reachable maxActive handle s'
  | set_timeout {s : CurlStack} (cachedTime : Int) (from_milliseconds : Int → Int)
      (timeout_ms : Int) :
      Reachable maxActive handle s →
      Reachable maxActive handle (set_timeout cachedTime from_milliseconds timeout_ms s)

/-- The bookkeeping of a reachable registry: no transfer is in the collection
twice, only transfers of the collection are active, `m_active` counts them,
stays within the maximum, and is at the maximum while a transfer is queued. -/
structure Consistent (maxActive : Nat) (s : CurlStack) : Prop where
  nodup : s.base.Nodup
  active_mem : ∀ p, (s.objs p).active = true → p ∈ s.base
  count : s.m_active = s.activeCount
  max_eq : s.m_maxActive = maxActive
  max_lt : maxActive < 4294967296
  le_max : s.m_active ≤ s.m_maxActive
  full : ∀ q ∈ s.base, (s.objs q).active = false → s.m_active = s.m_maxActive

/-- The registry of the scenarios: maximum 2, transfers `1`, `2`, `3` (with
easy handles `101`, `102`, `103`) registered in that order, libcurl accepting
every handle. -/
def three_registered : CurlStack :=
  match run_calls [Call.add_get 0 1, Call.add_get 0 2, Call.add_get 0 3]
      (CurlStack.init 2 (fun p => 100 + p)) with
  | .ok s => s
  | .error _ => CurlStack.init 2 (fun p => 100 + p)

/-- The entries the scheduler `taskScheduler` holds for the timer task of the
registry, each with the time it is queued at. -/
def CurlStack.scheduled (s : CurlStack) : List Int := s.m_taskTimeout

/-- `add_get` together with the registry as the call leaves it when it throws:
the state reached, and the `internal_error` thrown if any. -/
def add_get_outcome (rc : Int) (get : Nat) (s : CurlStack) : CurlStack × Option String :=
  let s1 := { s with base := s.base ++ [get] }
  if s1.m_active ≥ s1.m_maxActive then
    (s1, none)
  else
    let s2 := { s1 with
      m_active := s1.m_active + 1,
      objs := set_active s1.objs get true,
      multi := s1.multi ++ [MultiCall.add_handle (s1.objs get).handle] }
    if rc > 0 then
      (s2, some "Error calling curl_multi_add_handle.")
    else
      (s2, none)

/-- `remove_get` together with the registry as the call leaves it when it
throws: the state reached, and the `internal_error` thrown if any. -/
def remove_get_outcome (rc_remove rc_add : Int) (get : Nat) (s : CurlStack) :
    CurlStack × Option String :=
  if get ∉ s.base then
    (s, some "Could not find CurlGet when calling CurlStack::remove.")
  else
    let s1 := { s with base := s.base.erase get }
    if !(s1.objs get).active then
      (s1, none)
    else
      let s2 := { s1 with
        objs := set_active s1.objs get false,
        multi := s1.multi ++ [MultiCall.remove_handle (s1.objs get).handle] }
      if rc_remove > 0 then
        (s2, some "Error calling curl_multi_remove_handle.")
      else
        match (if s2.m_active = s2.m_maxActive
               then s2.base.find? (fun p => !(s2.objs p).active) else none) with
        | some q =>
          let s3 := { s2 with
            objs := set_active s2.objs q true,
            multi := s2.multi ++ [MultiCall.add_handle (s2.objs q).handle] }
          if rc_add > 0 then
            (s3, some "Error calling curl_multi_add_handle.")
          else
            (s3, none)
        | none =>
          ({ s2 with m_active := dec32 s2.m_active }, none)

/-- One call into the registry with the state it is left in. -/
def run_call_outcome (c : Call) (s : CurlStack) : CurlStack × Option String :=
  match c with
  | .add_get rc get => add_get_outcome rc get s
  | .remove_get rc_remove rc_add get => remove_get_outcome rc_remove rc_add get s

/-- A sequence of calls into the registry with the state it is left in: the
calls stop at the first that throws. -/
def run_calls_outcome : List Call → CurlStack → CurlStack × Option String
  | [], s => (s, none)
  | c :: cs, s =>
    match run_call_outcome c s with
    | (s1, none) => run_calls_outcome cs s1
    | (s1, some e) => (s1, some e)

/-- `transfer_done` together with the registry as the call leaves it when it
throws. -/
def transfer_done_outcome (slots : Nat → Option String → List Call)
    (handle : Nat) (msg : Option String) (s : CurlStack) : CurlStack × Option String :=
  match s.base.find? (fun p => handle == (s.objs p).handle) with
  | none => (s, some "Could not find CurlGet with the right easy_handle.")
  | some g =>
    match msg with
    | none => run_calls_outcome (slots g none) { s with fired := s.fired ++ [Trigger.done g] }
    | some m =>
      run_calls_outcome (slots g (some m)) { s with fired := s.fired ++ [Trigger.failed g m] }

/-- `process_done_handle` together with the registry as the call leaves it when
it throws: the state reached, and the value returned or the `internal_error`
thrown. -/
def process_done_handle_outcome (slots : Nat → Option String → List Call)
    (strerror : Nat → String) (rc : Int) (read : Option CURLMsg × Int)
    (s : CurlStack) : CurlStack × Except String Bool :=
  match read.1 with
  | none => (s, .ok false)
  | some msg =>
    if msg.msg ≠ CURLMSG_DONE then
      (s, .error "CurlStack::receive_action() msg->msg != CURLMSG_DONE.")
    else if msg.result = CURLE_COULDNT_RESOLVE_HOST then
      match s.base.find? (fun p => msg.easy_handle == (s.objs p).handle) with
      | none => (s, .error "Could not find CurlGet when calling CurlStack::receive_action.")
      | some g =>
        if !(s.objs g).ipv6 then
          let objs1 : Nat → CurlGet := fun p => if p = g then retry_ipv6 (s.objs p) else s.objs p
          let s1 := { s with
            objs := objs1,
            multi := s.multi ++ [MultiCall.add_handle (objs1 g).handle] }
          if rc > 0 then
            (s1, .error "Error calling curl_multi_add_handle.")
          else
            (s1, .ok (decide (read.2 ≠ 0)))
        else
          (s, .ok (decide (read.2 ≠ 0)))
    else
      match transfer_done_outcome slots msg.easy_handle
              (if msg.result = CURLE_OK then none else some (strerror msg.result)) s with
      | (s1, some e) => (s1, .error e)
      | (s1, none) => (s1, .ok (decide (read.2 ≠ 0)))

/-- What the caller of a registry call sees of its outcome: the state when the
call returns, the `internal_error` when it throws. -/
def outcome_result (r : CurlStack × Option String) : Except String CurlStack :=
  match r with
  | (s, none) => .ok s
  | (_, some e) => .error e

/-- What the caller of `process_done_handle` sees of its outcome. -/
def outcome_result_bool (r : CurlStack × Except String Bool) :
    Except String (Bool × CurlStack) :=
  match r with
  | (s, .ok b) => .ok (b, s)
  | (_, .error e) => .error e

/-- The value of `CURLM_CALL_MULTI_PERFORM` in `curl/multi.h`. -/
def CURLM_CALL_MULTI_PERFORM : Int := -1

/-- The value of `CURL_SOCKET_TIMEOUT` in `curl/multi.h`. -/
def CURL_SOCKET_TIMEOUT : Int := -1

/-- What libcurl hands to one call of `process_done_handle`: the message and
the remaining count of `curl_multi_info_read`, and the code of
`curl_multi_add_handle` should the retry call it. -/
structure Read where
  msg : Option CURLMsg
  remaining : Int
  rc : Int
deriving DecidableEq, Repr

/-- One call of `curl_multi_socket_action` as the registry sees it: the
timeouts libcurl asks for through the timer hook while the call runs, the code
and the running-handle count it returns, and what the reads of the drain that
may follow hand back. -/
structure Perform where
  timeouts : List Int
  code : Int
  count : Int
  reads : List Read
deriving DecidableEq, Repr

/-- The loop `while (process_done_handle()) ;` of `receive_action`.  When
`reads` is used up libcurl has no message left and `curl_multi_info_read`
returns a null pointer. -/
def drain (slots : Nat → Option String → List Call) (strerror : Nat → String) :
    List Read → CurlStack → Except String CurlStack
  | [], s =>
    match process_done_handle slots strerror 0 (none, 0) s with
    | .error e => .error e
    | .ok (_, s1) => .ok s1
  | r :: rs, s =>
    match process_done_handle slots strerror r.rc (r.msg, r.remaining) s with
    | .error e => .error e
    | .ok (true, s1) => drain slots strerror rs s1
    | .ok (false, s1) => .ok s1

/-- The registry after libcurl has run the timer hook `set_timeout` for each
of `timeouts`, in order. -/
def timer_hooks (cachedTime : Int) (from_milliseconds : Int → Int) (timeouts : List Int)
    (s : CurlStack) : CurlStack :=
  timeouts.foldl (fun st t => set_timeout cachedTime from_milliseconds t st) s

/-- The test `(unsigned int)count != size()` of `receive_action`. -/
def count_differs (count : Int) (s : CurlStack) : Bool :=
  decide ((count % 4294967296).toNat ≠ s.base.length)

/-- The part of the loop body of `receive_action` that follows the call of
`curl_multi_socket_action`: when the count differs from the size of the
collection, drain the completion messages and then erase the timer task if the
collection is empty. -/
def after_perform (slots : Nat → Option String → List Call) (strerror : Nat → String)
    (p : Perform) (s1 : CurlStack) : Except String CurlStack :=
  if count_differs p.count s1 then
    match drain slots strerror p.reads s1 with
    | .error e => .error e
    | .ok s2 =>
      if s2.base.isEmpty then .ok (priority_queue_erase s2)
      else .ok s2
  else
    .ok s1

/-- The registry right after one call of `curl_multi_socket_action` made with
`socket` and `events`: the call is on record and the timer hooks libcurl ran
during the call have been applied. -/
def performed (cachedTime : Int) (from_milliseconds : Int → Int) (socket : Option Int)
    (events : Int) (p : Perform) (s : CurlStack) : CurlStack :=
  { timer_hooks cachedTime from_milliseconds p.timeouts s with
    multi := s.multi ++
      [MultiCall.socket_action (match socket with
                                | some fd => fd
                                | none => CURL_SOCKET_TIMEOUT) events] }

/-- `CurlStack::receive_action(socket, events)`; `socket` is the descriptor of
the `CurlSocket`, `none` for a null pointer.  `performs` are the successive
calls of `curl_multi_socket_action`; the result is `none` when they are used up
while the last code asks for another call. -/
def receive_action (slots : Nat → Option String → List Call) (strerror : Nat → String)
    (cachedTime : Int) (from_milliseconds : Int → Int) :
    Option Int → Int → List Perform → CurlStack → Option (Except String CurlStack)
  | _, _, [], _ => none
  | socket, events, p :: ps, s =>
    let s1 := performed cachedTime from_milliseconds socket events p s
    if p.code > 0 then
      some (.error "Error calling curl_multi_socket_action.")
    else
      match after_perform slots strerror p s1 with
      | .error e => some (.error e)
      | .ok s3 =>
        if p.code = CURLM_CALL_MULTI_PERFORM then
          receive_action slots strerror cachedTime from_milliseconds none 0 ps s3
        else
          some (.ok s3)

/-- `CurlStack::receive_timeout()`.  `timeout` is what `curl_multi_timeout`
stores; `long_bits` is the width of `unsigned long`, the type both arguments
of `std::max<unsigned long>(timeout, 10000)` are converted to. -/
def receive_timeout (slots : Nat → Option String → List Call) (strerror : Nat → String)
    (cachedTime : Int) (from_milliseconds : Int → Int) (long_bits : Nat)
    (performs : List Perform) (timeout : Int) (s : CurlStack) :
    Option (Except String CurlStack) :=
  match receive_action slots strerror cachedTime from_milliseconds none 0 performs s with
  | none => none
  | some (.error e) => some (.error e)
  | some (.ok s1) =>
    if !s1.base.isEmpty && !s1.is_queued then
      some (.ok (priority_queue_insert
        (cachedTime + from_milliseconds (max (timeout % 2 ^ long_bits) 10000)) s1))
    else
      some (.ok s1)

/-- Modelled from the spec: `CurlGet::close` (core/curl_get.cc is not among the
sources): the caller-initiated, idempotent cancellation path; it detaches the
transfer from the registry, so a registered transfer is deregistered with
`remove_get` and any other is left alone. -/
def CurlGet.close (rc_remove rc_add : Int) (get : Nat) (s : CurlStack) :
    Except String CurlStack :=
  if get ∈ s.base then remove_get rc_remove rc_add get s else .ok s

/-- The loop `while (!empty()) front()->close();` of the destructor, run for at
most `fuel` rounds.  `rc get` are the codes libcurl returns while `get` is
closed; `closed` collects the transfers `close()` has been called on.  The
result is `none` when the rounds are used up with the collection not empty. -/
def close_all (rc : Nat → Int × Int) :
    Nat → CurlStack → List Nat → Option (Except String (CurlStack × List Nat))
  | 0, s, closed =>
    match s.base with
    | [] => some (.ok (s, closed))
    | _ :: _ => none
  | fuel + 1, s, closed =>
    match s.base with
    | [] => some (.ok (s, closed))
    | g :: _ =>
      match CurlGet.close (rc g).1 (rc g).2 g s with
      | .error e => some (.error e)
      | .ok s1 => close_all rc fuel s1 (closed ++ [g])

/-- `CurlStack::~CurlStack()`: close every transfer, `curl_multi_cleanup`,
erase the timer task. -/
def CurlStack.destroy (rc : Nat → Int × Int) (fuel : Nat) (s : CurlStack) :
    Option (Except String (CurlStack × List Nat)) :=
  match close_all rc fuel s [] with
  | none => none
  | some (.error e) => some (.error e)
  | some (.ok (s1, closed)) =>
    some (.ok (priority_queue_erase { s1 with multi := s1.multi ++ [MultiCall.cleanup] },
               closed))

end core

namespace rpc

/-- The static list `untrusted_commands` of `rpc/rpc_manager.cc`, in source
order. -/
def untrusted_commands : List String :=
  ["execute", "execute.capture", "execute.capture_nothrow", "execute.nothrow",
   "execute.nothrow.bg", "execute.raw", "execute.raw.bg", "execute.raw_nothrow",
   "execute.raw_nothrow.bg", "execute.throw", "execute.throw.bg", "execute2",
   "method.insert", "method.redirect", "method.set", "method.set_key", "schedule",
   "schedule2", "import", "try_import", "log.open_file", "log.add_output", "log.execute",
   "log.vmmap.dump", "log.xmlrpc", "log.libtorrent", "file.append", "execute_capture",
   "execute_capture_nothrow", "execute_nothrow", "execute_nothrow_bg", "execute_raw",
   "execute_raw_bg", "execute_raw_nothrow", "execute_raw_nothrow_bg", "execute_throw",
   "execute_throw_bg", "system.method.insert", "system.method.redirect",
   "system.method.set", "system.method.set_key", "on_insert", "on_erase", "on_open",
   "on_close", "on_start", "on_stop", "on_hash_queued", "on_hash_removed", "on_hash_done",
   "on_finished"]

/-- `RpcManager::is_command_enabled(methodName)`; `trustedXmlConnection` is the
thread-local flag it reads.  `std::find` compares each entry with the name as
strings, so the search finds exact, case-sensitive matches. -/
def RpcManager.is_command_enabled (trustedXmlConnection : Bool) (methodName : String) :
    Bool :=
  trustedXmlConnection ||
    (untrusted_commands.find? (fun c => c == methodName)).isNone

end rpc

namespace core

/-- Every active transfer of the collection precedes every queued one: of two
transfers in collection order, the later is active only if the earlier is. -/
def CurlStack.active_first (s : CurlStack) : Prop :=
  s.base.Pairwise (fun a b => (s.objs b).active = true → (s.objs a).active = true)

/-- What `curl_multi_info_read` hands back, read after read, while libcurl
holds the completion messages `pending` (each with the code
`curl_multi_add_handle` would return for it): a read pops the first message and
reports how many remain. -/
def queue_reads : List (CURLMsg × Int) → List Read
  | [] => []
  | m :: ms => { msg := some m.1, remaining := ms.length, rc := m.2 } :: queue_reads ms

/-- The `drain_completions()` of the specification: the pending messages are
read one at a time until none remain, and the completion policy
(`process_done_handle`) is applied to each. -/
def drain_completions (slots : Nat → Option String → List Call) (strerror : Nat → String) :
    List (CURLMsg × Int) → CurlStack → Except String CurlStack
  | [], s => .ok s
  | m :: ms, s =>
    match process_done_handle slots strerror m.2 (some m.1, ms.length) s with
    | .error e => .error e
    | .ok (_, s1) => drain_completions slots strerror ms s1

end core

namespace rpc

/-! ## The dispatcher of `rpc/rpc_manager.cc` -/

/-- The protocol of a request, `RPCType`; `other` stands for every value of the
enumeration that is neither `XML` nor `JSON` (the `default:` label of the
switch). -/
inductive RPCType where
  | XML
  | JSON
  | other
  deriving DecidableEq, Repr

/-- `RpcManager::set_trusted_connection(enabled)`: the first component is the
value returned (the old flag), the second the thread-local flag afterwards. -/
def RpcManager.set_trusted_connection (enabled : Bool) (trustedXmlConnection : Bool) :
    Bool × Bool :=
  let ret := trustedXmlConnection
  (ret, enabled)

/-- The response `dispatch` hands to the callback when the XML processor is
not valid. -/
def xml_not_supported : String :=
  "<?xml version=\"1.0\"?><methodResponse><fault><value><string>XMLRPC " ++
    "not supported</string></value></fault></methodResponse>"

/-- The response `dispatch` hands to the callback when the JSON processor is
not valid. -/
def json_not_supported : String :=
  "\x7b\"jsonrpc\":\"2.0\",\"error\":\x7b\"code\":-32601,\"message\":\"JSON-" ++
    "RPC not supported\"\x7d,\"id\":\"1\"\x7d"

/-- `RpcManager::dispatch(type, inBuffer, length, callback, trusted)`.  The
result is the value returned together with the thread-local flag
`trustedXmlConnection` as the call leaves it; the exception of the `default:`
label is an `error`.  The first statement stores `trusted` in the flag, whatever
it held before; every label of the switch returns or throws, so the assignment
`trustedXmlConnection = true` that follows the switch is never executed.
`is_valid` and `process` are the members of the processor registered for the
type, `callback` is the caller's response callback: their code is outside this
file and they are taken as functions that answer without writing the flag. -/
def RpcManager.dispatch (is_valid : RPCType → Bool)
    (process : RPCType → String → Bool → Bool) (callback : String → Bool)
    (type : RPCType) (inBuffer : String) (trusted : Bool) (_trustedXmlConnection : Bool) :
    Except String (Bool × Bool) :=
  let trustedXmlConnection := trusted
  match type with
  | .XML =>
    if is_valid .XML then .ok (process .XML inBuffer trusted, trustedXmlConnection)
    else .ok (callback xml_not_supported, trustedXmlConnection)
  | .JSON =>
    if is_valid .JSON then .ok (process .JSON inBuffer trusted, trustedXmlConnection)
    else .ok (callback json_not_supported, trustedXmlConnection)
  | .other => .error "Invalid RPC type."

/-! ## Closing the inherited descriptors, `rpc/exec_file.cc` (Linux) -/

/-- A value of type `int` after an arithmetic step: the result reduced to the
32-bit two's complement range. -/
def to_int (z : Int) : Int :=
  (z + 2 ^ 31) % 2 ^ 32 - 2 ^ 31

/-- The test `*s >= '0' && *s <= '9'` on one character of an entry name. -/
def is_digit (c : Char) : Bool :=
  decide ('0'.toNat ≤ c.toNat) && decide (c.toNat ≤ '9'.toNat)

/-- The loop `for (x = 0; *s >= '0' && *s <= '9'; s++) x = x * 10 + (*s - '0');`
started with `x` at the characters `s` of a name (the terminating NUL is the end
of the list): the final `x` and the characters from where `s` stops. -/
def scan_digits : Int → List Char → Int × List Char
  | x, [] => (x, [])
  | x, c :: cs =>
    if is_digit c then scan_digits (to_int (x * 10 + ((c.toNat : Int) - ('0'.toNat : Int)))) cs
    else (x, c :: cs)

/-- The body of the loop over the directory entries for one entry with name
`d_name`: the descriptor passed to `::close`, if any. -/
def close_entry (dir_fd : Int) (d_name : List Char) : Option Int :=
  match d_name with
  | [] => none
  | c :: _ =>
    if !(is_digit c) then none
    else
      let r := scan_digits 0 d_name
      if r.2 = [] ∧ r.1 > 2 ∧ r.1 ≠ dir_fd then some r.1 else none

/-- The Linux `close_all_fds()`: the descriptors passed to `::close`, in order.
`dir_fd` is what `open("/proc/self/fd", ...)` returned and `names` are the
names of the entries that the successive `getdents` calls deliver, in order.
The entries come first, the directory's own descriptor is closed last; nothing
happens when the directory could not be opened. -/
def close_all_fds (dir_fd : Int) (names : List (List Char)) : List Int :=
  if dir_fd ≠ -1 then names.filterMap (close_entry dir_fd) ++ [dir_fd] else []

/-- The number that a name made of decimal digits denotes. -/
def decimal (name : List Char) : Nat :=
  name.foldl (fun v c => v * 10 + (c.toNat - '0'.toNat)) 0

end rpc

namespace display

/-! ## Names of the transfers, `display/window_http_queue.cc` -/

/-- The conversion of an integer value to `int` (32 bits, two's complement). -/
def to_int (z : Int) : Int :=
  (z + 2 ^ 31) % 2 ^ 32 - 2 ^ 31

/-- The conversion of an integer value to `uint32_t`. -/
def to_uint32 (z : Int) : Nat :=
  (z % 2 ^ 32).toNat

/-- The conversion of an integer value to `size_t` (64 bits). -/
def to_size (z : Int) : Nat :=
  (z % 2 ^ 64).toNat

/-- `std::string::rfind(ch, pos)`: the last index that is at most `pos` and
holds `ch`, `none` for `npos`. -/
def rfind (s : List Char) (ch : Char) (pos : Nat) : Option Nat :=
  (List.range (min (pos + 1) s.length)).reverse.find? (fun i => s.get? i == some ch)

/-- `WindowHttpQueue::create_name(h)` on the URL of the transfer, a string of
characters; the `std::logic_error` is an `error`.  The position handed to
`rfind` is `size() - std::min<int>(10, size())`: the size is converted to `int`
for the minimum and the difference is taken in `size_t`. -/
def WindowHttpQueue.create_name (url : List Char) : Except String (List Char) :=
  let p := rfind url '/' (to_size ((url.length : Int) - min 10 (to_int url.length)))
  let n := match p with
    | some i => url.drop i
    | none => url
  if n.isEmpty then .error "WindowHttpQueue::create_name(...) made a bad string"
  else
    let n := if n.length > 2 ∧ n.head? = some '/' then n.drop 1 else n
    let n :=
      if n.length > 9 ∧ (n.drop (n.length - 8) = ".torrent".toList ∨
          n.drop (n.length - 8) = ".TORRENT".toList) then n.take (n.length - 8)
      else n
    let n := if n.length > 30 then n.take 30 else n
    .ok n

/-! ## Balancing the children of a row or a column, `display/frame.cc`

`Frame::balance_row` and `Frame::balance_column` are the same text up to the
direction: the row reads `minHeight`, `maxHeight`, `is_height_dynamic()`,
`has_bottom_frame()` and `m_height` where the column reads `minWidth`,
`maxWidth`, `is_width_dynamic()`, `has_left_frame()` and `m_width`.  The code
is translated once, over what it reads of a child in its direction (`Side`), and
the two functions select the direction. -/

/-- The value `bounds_type` that `preferred_size()` returns. -/
structure bounds_type where
  minWidth : Nat
  minHeight : Nat
  maxWidth : Nat
  maxHeight : Nat
  deriving DecidableEq, Repr

/-- A child `Frame` as the balancing code of its parent reads it: the value of
`preferred_size()` and of the four tests.  The extents are `uint32_t`. -/
structure Frame where
  preferred_size : bounds_type
  is_width_dynamic : Bool
  is_height_dynamic : Bool
  has_left_frame : Bool
  has_bottom_frame : Bool
  deriving DecidableEq, Repr

/-- What the balancing code reads of a child in its direction. -/
structure Side where
  minExtent : Nat
  maxExtent : Nat
  dynamic : Bool
  far_frame : Bool
  deriving DecidableEq, Repr

/-- The direction of a row: heights, and the bottom frame. -/
def Frame.row_side (f : Frame) : Side :=
  { minExtent := f.preferred_size.minHeight, maxExtent := f.preferred_size.maxHeight,
    dynamic := f.is_height_dynamic, far_frame := f.has_bottom_frame }

/-- The direction of a column: widths, and the left frame. -/
def Frame.column_side (f : Frame) : Side :=
  { minExtent := f.preferred_size.minWidth, maxExtent := f.preferred_size.maxWidth,
    dynamic := f.is_width_dynamic, far_frame := f.has_left_frame }

/-- An entry of `dynamicFrames`, the pair of a child and its bounds: the child
is named by its index in the container, `extent` is the child's `m_height`
(`m_width` in a column), which the redistribution reads and writes through the
pointer.  The children of a container are distinct objects, so each entry owns
its extent. -/
structure dynamic_type where
  index : Nat
  minExtent : Nat
  maxExtent : Nat
  extent : Nat
  deriving DecidableEq, Repr

/-- The first loop, for `remaining`: every child that is not dynamic takes its
minimum from it (`remaining -= bounds.minHeight`, an `int` minus a
`uint32_t`). -/
def static_remaining : Int → List Side → Int
  | remaining, [] => remaining
  | remaining, c :: cs =>
    if c.dynamic then static_remaining remaining cs
    else static_remaining (to_int (remaining - c.minExtent)) cs

/-- The first loop, for `dynamicFrames`: the dynamic children in container
order, their extent set to 0; `i` is the index of the first child of the
list. -/
def dynamic_frames : Nat → List Side → List dynamic_type
  | _, [] => []
  | i, c :: cs =>
    if c.dynamic then
      { index := i, minExtent := c.minExtent, maxExtent := c.maxExtent, extent := 0 } ::
        dynamic_frames (i + 1) cs
    else dynamic_frames (i + 1) cs

/-- The call of `std::stable_sort` with the comparison
`dynamic_min_height(l) > dynamic_min_height(r)`: decreasing minimum, entries of
equal minimum in their former order. -/
def stable_sort (ds : List dynamic_type) : List dynamic_type :=
  ds.insertionSort (fun l r => r.minExtent ≤ l.minExtent)

/-- The value of `adjust` for one entry: the share
`(std::max(remaining, 0) + distance - 1) / distance` as a `uint32_t`, plus the
present extent, raised to the minimum and then cut at the maximum. -/
def adjust_of (remaining : Int) (distance : Nat) (d : dynamic_type) : Nat :=
  let adjust := to_uint32 ((((max remaining 0).toNat + distance - 1) / distance : Nat) : Int)
  let adjust := to_uint32 ((adjust : Int) + d.extent)
  let adjust := max adjust d.minExtent
  min adjust d.maxExtent

/-- One run of the `for` loop inside the `do`-`while` over the entries from
`itr` on (`std::distance(itr, last)` is the length of the list): the final
`remaining`, the final `retry` and the entries with their new extents. -/
def pass : Int → Bool → List dynamic_type → Int × Bool × List dynamic_type
  | remaining, retry, [] => (remaining, retry, [])
  | remaining, retry, d :: ds =>
    let adjust := adjust_of remaining (ds.length + 1) d
    let r := pass (to_int (remaining - to_uint32 ((adjust : Int) - d.extent)))
      (retry || decide (d.extent ≠ adjust)) ds
    (r.1, r.2.1, { d with extent := adjust } :: r.2.2)

/-- The `do`-`while` loop: passes are made until one ends with `retry` false or
`remaining` not above 0.  `fuel` bounds the number of passes; `none` means it
ran out. -/
def redistribute : Nat → Int → List dynamic_type → Option (Int × List dynamic_type)
  | 0, _, _ => none
  | fuel + 1, remaining, ds =>
    let r := pass remaining false ds
    if r.2.1 = true ∧ r.1 > 0 then redistribute fuel r.1 r.2.2
    else some (r.1, r.2.2)

/-- The extent (`m_height`, `m_width`) of the child of index `i` after the
first two phases: a dynamic child has the extent of its entry, any other child
its minimum. -/
def m_extent (ds : List dynamic_type) (i : Nat) (c : Side) : Nat :=
  if c.dynamic then
    match ds.find? (fun d => d.index == i) with
    | some d => d.extent
    | none => 0
  else c.minExtent

/-- The extents of the children in container order, from index `i` on. -/
def m_extents (ds : List dynamic_type) : Nat → List Side → List Nat
  | _, [] => []
  | i, c :: cs => m_extent ds i c :: m_extents ds (i + 1) cs

/-- The first two phases: `remaining` and the extent of every child, in
container order, when the third loop starts. -/
def assigned (fuel : Nat) (extent : Nat) (children : List Side) : Option (Int × List Nat) :=
  match redistribute fuel (static_remaining (to_int extent) children)
      (stable_sort (dynamic_frames 0 children)) with
  | none => none
  | some r => some (r.1, m_extents r.2 0 children)

/-- The last loop over the children with their extents: the pairs of the
position and the extent handed to `balance` for each child.  `extent` is the
parameter `height` (`width` in a column), a `uint32_t`.  The call
`balance(x, y, m_width, std::min(m_height, height))` stores the extent it is
handed in the child's own `m_height` (the first lines of `Frame::balance`), so
`y += m_height` and `height -= m_height` that follow advance by the extent
handed. -/
def place : Int → Nat → Nat → List (Side × Nat) → List (Nat × Nat)
  | _, _, _, [] => []
  | remaining, position, extent, (c, m) :: cs =>
    let shift := decide (remaining > 0) && c.far_frame
    let m1 := if shift then to_uint32 ((m : Int) + remaining) else m
    let remaining1 := if shift then 0 else remaining
    let handed := min m1 extent
    (position, handed) ::
      place remaining1 (to_uint32 ((position : Int) + handed))
        (to_uint32 ((extent : Int) - handed)) cs

/-- The three phases in one direction. -/
def balance_side (fuel : Nat) (position extent : Nat) (children : List Side) :
    Option (List (Nat × Nat)) :=
  match assigned fuel extent children with
  | none => none
  | some r => some (place r.1 position extent (children.zip r.2))

/-- The arguments of one call of `Frame::balance`. -/
structure Balance where
  x : Nat
  y : Nat
  width : Nat
  height : Nat
  deriving DecidableEq, Repr

/-- `Frame::balance_row(x, y, _, height)` of a row whose own `m_width` is
`m_width`: the calls `balance(x, y, m_width, std::min(m_height, height))` made
for the children, in order. -/
def Frame.balance_row (fuel : Nat) (x y m_width height : Nat) (children : List Frame) :
    Option (List Balance) :=
  (balance_side fuel y height (children.map Frame.row_side)).map
    (fun calls => calls.map
      (fun c => { x := x, y := c.1, width := m_width, height := c.2 }))

/-- `Frame::balance_column(x, y, width, _)` of a column whose own `m_height` is
`m_height`: the calls `balance(x, y, std::min(m_width, width), m_height)` made
for the children, in order. -/
def Frame.balance_column (fuel : Nat) (x y width m_height : Nat) (children : List Frame) :
    Option (List Balance) :=
  (balance_side fuel x width (children.map Frame.column_side)).map
    (fun calls => calls.map
      (fun c => { x := c.1, y := y, width := c.2, height := m_height }))

/-- The first test of `Frame::balance_window(x, y, width, height)`: whether the
window is set offscreen. -/
def balance_window_offscreen (width height : Nat) (is_active : Bool) : Bool :=
  width == 0 || height == 0 || !is_active


/-! ## Quantities of the redistribution -/

/-- The sum of the extents of the entries. -/
def extent_sum (ds : List dynamic_type) : Nat :=
  (ds.map (fun d => d.extent)).sum

/-- The sum over the entries of the larger of the extent and the minimum. -/
def claimed (ds : List dynamic_type) : Nat :=
  (ds.map (fun d => max d.extent d.minExtent)).sum

/-- The sum over the entries of what the extent lacks to the minimum. -/
def lacking (ds : List dynamic_type) : Nat :=
  (ds.map (fun d => d.minExtent - d.extent)).sum

/-- A bound on the values at the start of a pass under which no step of the
redistribution leaves the 32-bit ranges: no extent is above its maximum, the
space that is left (if positive) plus the extents and minima stay below `2^31`,
and the space that is left (if negative) minus what the entries lack to their
minima stays at or above `-2^31`. -/
def no_overflow (remaining : Int) (ds : List dynamic_type) : Prop :=
  (∀ d ∈ ds, d.extent ≤ d.maxExtent) ∧
  (max remaining 0).toNat + claimed ds < 2 ^ 31 ∧
  -(2 ^ 31 : Int) ≤ min remaining 0 - lacking ds

/-- An entry `d1` is the entry `d0` after some steps of the redistribution: the
same child and bounds, the extent not smaller and not above the maximum. -/
def grown (d0 d1 : dynamic_type) : Prop :=
  d1.index = d0.index ∧ d1.minExtent = d0.minExtent ∧ d1.maxExtent = d0.maxExtent ∧
    d0.extent ≤ d1.extent ∧ d1.extent ≤ d1.maxExtent

/-- The sum over the dynamic children of the minimum cut at the maximum. -/
def required : List Side → Nat
  | [] => 0
  | c :: cs => (if c.dynamic then min c.minExtent c.maxExtent else 0) + required cs

/-- A container of three children used as an example: one of fixed extent 3
and two dynamic ones with bounds 2 to 999 and 5 to 8, the last at the far
side. -/
def three_children : List Side :=
  [⟨3, 3, false, false⟩, ⟨2, 999, true, false⟩, ⟨5, 8, true, true⟩]

/-- The extent a child is given when the space is short: a dynamic child its
minimum cut at its maximum, any other child its minimum. -/
def short_extent (c : Side) : Nat :=
  if c.dynamic then min c.minExtent c.maxExtent else c.minExtent

end display

namespace core
/-! ## Case analysis of the two registry calls -/

theorem dec32_of_pos {n : Nat} (h1 : 1 ≤ n) (h2 : n < 4294967296) : dec32 n = n - 1 := by
  unfold dec32; omega

theorem dec32_lt (n : Nat) : dec32 n < 4294967296 := by
  unfold dec32; omega

theorem set_active_active (objs : Nat → CurlGet) (g p : Nat) (b : Bool) :
    (set_active objs g b p).active = if p = g then b else (objs p).active := by
  unfold set_active; split <;> rfl

theorem set_active_other (objs : Nat → CurlGet) {g p : Nat} (b : Bool) (h : p ≠ g) :
    set_active objs g b p = objs p := by
  simp [set_active, h]

theorem set_active_handle (objs : Nat → CurlGet) (g p : Nat) (b : Bool) :
    (set_active objs g b p).handle = (objs p).handle := by
  unfold set_active; split <;> rfl

theorem add_get_cases {rc : Int} {get : Nat} {s s' : CurlStack}
    (h : add_get rc get s = .ok s') :
    (s.m_maxActive ≤ s.m_active ∧ s' = { s with base := s.base ++ [get] }) ∨
    (s.m_active < s.m_maxActive ∧ rc ≤ 0 ∧
      s' = { s with
        base := s.base ++ [get],
        m_active := s.m_active + 1,
        objs := set_active s.objs get true,
        multi := s.multi ++ [MultiCall.add_handle (s.objs get).handle] }) := by
  unfold add_get at h
  simp only at h
  split at h
  · left; cases h; exact ⟨by assumption, rfl⟩
  · split at h
    · cases h
    · right; cases h; exact ⟨by omega, by omega, rfl⟩

theorem remove_get_cases {r1 r2 : Int} {get : Nat} {s s' : CurlStack}
    (h : remove_get r1 r2 get s = .ok s') :
    get ∈ s.base ∧
    (((s.objs get).active = false ∧ s' = { s with base := s.base.erase get }) ∨
     ((s.objs get).active = true ∧ r1 ≤ 0 ∧
      ((∃ q, s.m_active = s.m_maxActive ∧
          (s.base.erase get).find? (fun p => !(set_active s.objs get false p).active) = some q ∧
          r2 ≤ 0 ∧
          s' = { s with
            base := s.base.erase get,
            objs := set_active (set_active s.objs get false) q true,
            multi := s.multi ++ [MultiCall.remove_handle (s.objs get).handle] ++
              [MultiCall.add_handle (set_active s.objs get false q).handle] }) ∨
       ((s.m_active = s.m_maxActive →
          (s.base.erase get).find? (fun p => !(set_active s.objs get false p).active) = none) ∧
          s' = { s with
            base := s.base.erase get,
            objs := set_active s.objs get false,
            multi := s.multi ++ [MultiCall.remove_handle (s.objs get).handle],
            m_active := dec32 s.m_active })))) := by
  unfold remove_get at h
  simp only at h
  split at h
  · cases h
  · rename_i hmem
    refine ⟨by simpa using hmem, ?_⟩
    split at h
    · rename_i hact
      left; cases h
      exact ⟨by simpa using hact, rfl⟩
    · rename_i hact
      right
      refine ⟨by simpa using hact, ?_⟩
      split at h
      · cases h
      · rename_i hr1
        refine ⟨by omega, ?_⟩
        split at h
        · rename_i q hq
          split at h
          · cases h
          · rename_i hr2
            left
            cases h
            split at hq
            · rename_i hm
              exact ⟨q, hm, hq, by omega, rfl⟩
            · cases hq
        · rename_i hq
          right
          cases h
          refine ⟨?_, rfl⟩
          intro hm
          simpa [hm] using hq

/-! ## The counter never exceeds the maximum -/

theorem mem_activeSet {s : CurlStack} {p : Nat} :
    p ∈ s.activeSet ↔ p ∈ s.base ∧ (s.objs p).active = true := by
  simp [CurlStack.activeSet]

theorem Counted_init (maxActive : Nat) (handle : Nat → Nat) :
    Counted (CurlStack.init maxActive handle) := by
  constructor
  · intro p hp; simp [CurlStack.init] at hp
  · simp [CurlStack.activeSet, CurlStack.init]

theorem Counted_add_get {rc : Int} {get : Nat} {s s' : CurlStack}
    (hs : Counted s) (h : add_get rc get s = .ok s') : Counted s' := by
  obtain ⟨hmem, hcard⟩ := hs
  rcases add_get_cases h with ⟨_, rfl⟩ | ⟨_, _, rfl⟩
  · refine ⟨fun p hp => List.mem_append_left _ (hmem p hp), ?_⟩
    refine le_trans (Finset.card_le_card ?_) hcard
    intro p hp
    rw [mem_activeSet] at hp ⊢
    exact ⟨hmem p hp.2, hp.2⟩
  · constructor
    · intro p hp
      simp only [set_active_active] at hp
      by_cases hpg : p = get
      · subst hpg; simp
      · simp only [hpg, if_false] at hp
        exact List.mem_append_left _ (hmem p hp)
    · have hsub : CurlStack.activeSet
          { s with base := s.base ++ [get], m_active := s.m_active + 1,
                   objs := set_active s.objs get true,
                   multi := s.multi ++ [MultiCall.add_handle (s.objs get).handle] }
          ⊆ insert get s.activeSet := by
        intro p hp
        rw [mem_activeSet] at hp
        simp only [set_active_active] at hp
        by_cases hpg : p = get
        · subst hpg; exact Finset.mem_insert_self _ _
        · simp only [hpg, if_false] at hp
          exact Finset.mem_insert_of_mem (mem_activeSet.2 ⟨hmem p hp.2, hp.2⟩)
      have h1 := Finset.card_le_card hsub
      have h2 := Finset.card_insert_le get s.activeSet
      show _ ≤ s.m_active + 1
      omega

theorem Counted_remove_get {r1 r2 : Int} {get : Nat} {s s' : CurlStack}
    (hs : Counted s) (hlt : s.m_active < 4294967296)
    (h : remove_get r1 r2 get s = .ok s') : Counted s' ∧ s'.m_active ≤ s.m_active := by
  obtain ⟨hmem, hcard⟩ := hs
  obtain ⟨hg, hcase⟩ := remove_get_cases h
  rcases hcase with ⟨hina, rfl⟩ | ⟨hact, _, hcase⟩
  · refine ⟨⟨?_, ?_⟩, le_refl _⟩
    · intro p hp
      have hpg : p ≠ get := by
        rintro rfl
        simp only at hp; rw [hina] at hp; cases hp
      exact (List.mem_erase_of_ne hpg).2 (hmem p hp)
    · refine le_trans (Finset.card_le_card ?_) hcard
      intro p hp
      rw [mem_activeSet] at hp ⊢
      exact ⟨List.mem_of_mem_erase hp.1, hp.2⟩
  · have hgA : get ∈ s.activeSet := mem_activeSet.2 ⟨hg, hact⟩
    have hpos : 1 ≤ s.activeSet.card := Finset.card_pos.2 ⟨get, hgA⟩
    have hcardE : (s.activeSet.erase get).card = s.activeSet.card - 1 :=
      Finset.card_erase_of_mem hgA
    rcases hcase with ⟨q, _, hq, _, rfl⟩ | ⟨_, rfl⟩
    · have hqmem : q ∈ s.base.erase get := List.mem_of_find?_eq_some hq
      refine ⟨⟨?_, ?_⟩, le_refl _⟩
      · intro p hp
        simp only [set_active_active] at hp
        by_cases hpq : p = q
        · subst hpq; exact hqmem
        · simp only [hpq, if_false] at hp
          by_cases hpg : p = get
          · simp [hpg] at hp
          · simp only [hpg, if_false] at hp
            exact (List.mem_erase_of_ne hpg).2 (hmem p hp)
      · have hsub : CurlStack.activeSet
            { s with base := s.base.erase get,
                     objs := set_active (set_active s.objs get false) q true,
                     multi := s.multi ++ [MultiCall.remove_handle (s.objs get).handle] ++
                       [MultiCall.add_handle (set_active s.objs get false q).handle] }
            ⊆ insert q (s.activeSet.erase get) := by
          intro p hp
          rw [mem_activeSet] at hp
          simp only [set_active_active] at hp
          by_cases hpq : p = q
          · subst hpq; exact Finset.mem_insert_self _ _
          · simp only [hpq, if_false] at hp
            by_cases hpg : p = get
            · simp [hpg] at hp
            · simp only [hpg, if_false] at hp
              refine Finset.mem_insert_of_mem (Finset.mem_erase.2 ⟨hpg, ?_⟩)
              exact mem_activeSet.2 ⟨hmem p hp.2, hp.2⟩
        have h1 := Finset.card_le_card hsub
        have h2 := Finset.card_insert_le q (s.activeSet.erase get)
        show _ ≤ s.m_active
        omega
    · have hdec : dec32 s.m_active = s.m_active - 1 := dec32_of_pos (by omega) hlt
      refine ⟨⟨?_, ?_⟩, ?_⟩
      · intro p hp
        simp only [set_active_active] at hp
        by_cases hpg : p = get
        · simp [hpg] at hp
        · simp only [hpg, if_false] at hp
          exact (List.mem_erase_of_ne hpg).2 (hmem p hp)
      · have hsub : CurlStack.activeSet
            { s with base := s.base.erase get,
                     objs := set_active s.objs get false,
                     multi := s.multi ++ [MultiCall.remove_handle (s.objs get).handle],
                     m_active := dec32 s.m_active }
            ⊆ s.activeSet.erase get := by
          intro p hp
          rw [mem_activeSet] at hp
          simp only [set_active_active] at hp
          by_cases hpg : p = get
          · simp [hpg] at hp
          · simp only [hpg, if_false] at hp
            exact Finset.mem_erase.2 ⟨hpg, mem_activeSet.2 ⟨hmem p hp.2, hp.2⟩⟩
        have h1 := Finset.card_le_card hsub
        show _ ≤ dec32 s.m_active
        omega
      · show dec32 s.m_active ≤ s.m_active
        omega

theorem Bounded_run_call {c : Call} {s s' : CurlStack}
    (hs : Bounded s) (h : run_call c s = .ok s') :
    Bounded s' ∧ s'.m_maxActive = s.m_maxActive := by
  obtain ⟨hle, hcnt⟩ := hs
  cases c with
  | add_get rc get =>
    have h : add_get rc get s = .ok s' := h
    refine ⟨⟨?_, fun hm => Counted_add_get (hcnt ?_) h⟩, ?_⟩
    · rcases add_get_cases h with ⟨_, rfl⟩ | ⟨hlt, _, rfl⟩
      · exact hle
      · exact hlt
    · rcases add_get_cases h with ⟨_, rfl⟩ | ⟨hlt, _, rfl⟩ <;> exact hm
    · rcases add_get_cases h with ⟨_, rfl⟩ | ⟨hlt, _, rfl⟩ <;> rfl
  | remove_get r1 r2 get =>
    have h : remove_get r1 r2 get s = .ok s' := h
    have hmax : s'.m_maxActive = s.m_maxActive := by
      obtain ⟨_, hc⟩ := remove_get_cases h
      rcases hc with ⟨_, rfl⟩ | ⟨_, _, ⟨q, _, _, _, rfl⟩ | ⟨_, rfl⟩⟩ <;> rfl
    refine ⟨⟨?_, fun hm => ?_⟩, hmax⟩
    · by_cases hm : s.m_maxActive < 4294967296
      · have := (Counted_remove_get (hcnt hm) (by omega) h).2
        omega
      · obtain ⟨_, hc⟩ := remove_get_cases h
        rcases hc with ⟨_, rfl⟩ | ⟨_, _, ⟨q, _, _, _, rfl⟩ | ⟨_, rfl⟩⟩
        · exact hle
        · exact hle
        · have := dec32_lt s.m_active
          show dec32 s.m_active ≤ s.m_maxActive
          omega
    · rw [hmax] at hm
      exact (Counted_remove_get (hcnt hm) (by omega) h).1

theorem Bounded_run_calls (cs : List Call) : ∀ {s s' : CurlStack},
    Bounded s → run_calls cs s = .ok s' →
    Bounded s' ∧ s'.m_maxActive = s.m_maxActive := by
  induction cs with
  | nil =>
    intro s s' hs h
    cases h
    exact ⟨hs, rfl⟩
  | cons c cs ih =>
    intro s s' hs h
    unfold run_calls at h
    split at h
    · rename_i s1 h1
      obtain ⟨hb, hm⟩ := Bounded_run_call hs h1
      obtain ⟨hb', hm'⟩ := ih hb h
      exact ⟨hb', hm'.trans hm⟩
    · cases h

/-- C1: starting from the empty registry, after every finite sequence of
add_get and remove_get calls that do not throw (whatever is registered,
however often, whatever libcurl answers), the active count is at most the
maximum, which is still the one fixed at the start. -/
theorem active_le_max_after_calls (maxActive : Nat) (handle : Nat → Nat)
    (cs : List Call) (s : CurlStack)
    (h : run_calls cs (CurlStack.init maxActive handle) = .ok s) :
    s.m_active ≤ s.m_maxActive ∧ s.m_maxActive = maxActive := by
  have h0 : Bounded (CurlStack.init maxActive handle) :=
    ⟨Nat.zero_le _, fun _ => Counted_init maxActive handle⟩
  obtain ⟨hb, hm⟩ := Bounded_run_calls cs h0 h
  exact ⟨hb.1, hm⟩

theorem active_le_max_after_calls_witness :
    ∃ s, run_calls [Call.add_get 0 1, Call.add_get 0 2, Call.add_get 0 1,
                    Call.remove_get 0 0 1, Call.remove_get 0 0 2]
          (CurlStack.init 1 (fun p => 100 + p)) = .ok s ∧
      s.m_active ≤ s.m_maxActive ∧ s.m_maxActive = 1 :=
  ⟨_, rfl, active_le_max_after_calls 1 (fun p => 100 + p)
    [Call.add_get 0 1, Call.add_get 0 2, Call.add_get 0 1,
     Call.remove_get 0 0 1, Call.remove_get 0 0 2] _ rfl⟩

/-! ## The bookkeeping of reachable registries -/

theorem countP_set_active_of_not_mem (objs : Nat → CurlGet) (g : Nat) (b : Bool)
    {l : List Nat} (h : g ∉ l) :
    l.countP (fun p => (set_active objs g b p).active) = l.countP (fun p => (objs p).active) := by
  apply List.countP_congr
  intro x hx
  have hxg : x ≠ g := fun e => h (e ▸ hx)
  simp [set_active_active, hxg]

theorem countP_set_active_true (objs : Nat → CurlGet) {g : Nat} {l : List Nat}
    (hnd : l.Nodup) (hg : g ∈ l) (hina : (objs g).active = false) :
    l.countP (fun p => (set_active objs g true p).active) =
      l.countP (fun p => (objs p).active) + 1 := by
  have hperm := List.perm_cons_erase hg
  have hnot : g ∉ l.erase g := fun h => (List.Nodup.mem_erase_iff hnd).1 h |>.1 rfl
  rw [hperm.countP_eq, hperm.countP_eq (fun p => (objs p).active)]
  rw [List.countP_cons, List.countP_cons, countP_set_active_of_not_mem objs g true hnot]
  simp [set_active_active, hina]

theorem countP_erase_active (objs : Nat → CurlGet) {g : Nat} {l : List Nat}
    (hg : g ∈ l) :
    l.countP (fun p => (objs p).active) =
      (l.erase g).countP (fun p => (objs p).active) + (if (objs g).active then 1 else 0) := by
  rw [(List.perm_cons_erase hg).countP_eq, List.countP_cons]

theorem Consistent_init {maxActive : Nat} (handle : Nat → Nat) (h : maxActive < 4294967296) :
    Consistent maxActive (CurlStack.init maxActive handle) where
  nodup := List.nodup_nil
  active_mem := by intro p hp; simp [CurlStack.init] at hp
  count := rfl
  max_eq := rfl
  max_lt := h
  le_max := Nat.zero_le _
  full := by intro q hq; simp [CurlStack.init] at hq

theorem Consistent_add_get {maxActive : Nat} {rc : Int} {get : Nat} {s s' : CurlStack}
    (hs : Consistent maxActive s) (hfresh : get ∉ s.base)
    (h : add_get rc get s = .ok s') : Consistent maxActive s' := by
  have hina : (s.objs get).active = false := by
    cases hg : (s.objs get).active
    · rfl
    · exact absurd (hs.active_mem get hg) hfresh
  have hnd : (s.base ++ [get]).Nodup := by
    rw [List.nodup_append]
    exact ⟨hs.nodup, List.nodup_singleton _, by
      intro a ha hb
      rw [List.mem_singleton] at hb
      exact hfresh (hb ▸ ha)⟩
  rcases add_get_cases h with ⟨hfull, rfl⟩ | ⟨hlt, _, rfl⟩
  · have hm : s.m_active = s.m_maxActive := le_antisymm hs.le_max hfull
    exact {
      nodup := hnd
      active_mem := fun p hp => List.mem_append_left _ (hs.active_mem p hp)
      count := by
        show s.m_active = (s.base ++ [get]).countP (fun p => (s.objs p).active)
        rw [List.countP_append, hs.count]
        simp [CurlStack.activeCount, hina]
      max_eq := hs.max_eq
      max_lt := hs.max_lt
      le_max := hs.le_max
      full := fun _ _ _ => hm }
  · have hnoq : ∀ q ∈ s.base, (s.objs q).active = true := by
      intro q hq
      cases hqa : (s.objs q).active
      · have := hs.full q hq hqa
        omega
      · rfl
    exact {
      nodup := hnd
      active_mem := by
        intro p hp
        simp only [set_active_active] at hp
        by_cases hpg : p = get
        · subst hpg; simp
        · simp only [hpg, if_false] at hp
          exact List.mem_append_left _ (hs.active_mem p hp)
      count := by
        show s.m_active + 1 =
          (s.base ++ [get]).countP (fun p => (set_active s.objs get true p).active)
        rw [countP_set_active_true s.objs hnd (by simp) hina, List.countP_append, hs.count]
        simp [CurlStack.activeCount, hina]
      max_eq := hs.max_eq
      max_lt := hs.max_lt
      le_max := hlt
      full := by
        intro q hq hqa
        simp only [set_active_active] at hqa
        by_cases hqg : q = get
        · simp [hqg] at hqa
        · simp only [hqg, if_false] at hqa
          have hq' : q ∈ s.base := by
            rcases List.mem_append.1 hq with h1 | h1
            · exact h1
            · exact absurd (List.mem_singleton.1 h1) hqg
          rw [hnoq q hq'] at hqa
          cases hqa }

theorem Consistent_remove_get {maxActive : Nat} {r1 r2 : Int} {get : Nat} {s s' : CurlStack}
    (hs : Consistent maxActive s)
    (h : remove_get r1 r2 get s = .ok s') : Consistent maxActive s' := by
  obtain ⟨hg, hcase⟩ := remove_get_cases h
  have hnd : (s.base.erase get).Nodup := hs.nodup.erase get
  have hnot : get ∉ s.base.erase get := fun h => (List.Nodup.mem_erase_iff hs.nodup).1 h |>.1 rfl
  have hcnt := countP_erase_active s.objs hg
  have hcount : s.m_active = s.base.countP (fun p => (s.objs p).active) := hs.count
  rcases hcase with ⟨hina, rfl⟩ | ⟨hact, _, hcase⟩
  · exact {
      nodup := hnd
      active_mem := by
        intro p hp
        have hpg : p ≠ get := by
          rintro rfl
          simp only at hp; rw [hina] at hp; cases hp
        exact (List.mem_erase_of_ne hpg).2 (hs.active_mem p hp)
      count := by
        show s.m_active = (s.base.erase get).countP (fun p => (s.objs p).active)
        rw [hcount, hcnt, hina]; simp
      max_eq := hs.max_eq
      max_lt := hs.max_lt
      le_max := hs.le_max
      full := fun q hq hqa => hs.full q (List.mem_of_mem_erase hq) hqa }
  · rw [hact] at hcnt
    simp only [if_true] at hcnt
    have hcnt1 := countP_set_active_of_not_mem s.objs get false hnot
    rcases hcase with ⟨q, hm, hq, _, rfl⟩ | ⟨hnone, rfl⟩
    · have hqmem : q ∈ s.base.erase get := List.mem_of_find?_eq_some hq
      have hqina : (set_active s.objs get false q).active = false := by
        have := List.find?_some hq
        simpa using this
      exact {
        nodup := hnd
        active_mem := by
          intro p hp
          simp only [set_active_active] at hp
          by_cases hpq : p = q
          · subst hpq; exact hqmem
          · simp only [hpq, if_false] at hp
            by_cases hpg : p = get
            · simp [hpg] at hp
            · simp only [hpg, if_false] at hp
              exact (List.mem_erase_of_ne hpg).2 (hs.active_mem p hp)
        count := by
          show s.m_active = (s.base.erase get).countP
            (fun p => (set_active (set_active s.objs get false) q true p).active)
          rw [countP_set_active_true (set_active s.objs get false) hnd hqmem hqina, hcnt1,
            hcount, hcnt]
        max_eq := hs.max_eq
        max_lt := hs.max_lt
        le_max := hs.le_max
        full := fun _ _ _ => hm }
    · have hle := hs.le_max
      have hmax := hs.max_eq
      have hlt := hs.max_lt
      have hdec : dec32 s.m_active = s.m_active - 1 := dec32_of_pos (by omega) (by omega)
      exact {
        nodup := hnd
        active_mem := by
          intro p hp
          simp only [set_active_active] at hp
          by_cases hpg : p = get
          · simp [hpg] at hp
          · simp only [hpg, if_false] at hp
            exact (List.mem_erase_of_ne hpg).2 (hs.active_mem p hp)
        count := by
          show dec32 s.m_active = (s.base.erase get).countP
            (fun p => (set_active s.objs get false p).active)
          rw [hcnt1, hdec]; omega
        max_eq := hs.max_eq
        max_lt := hs.max_lt
        le_max := by
          show dec32 s.m_active ≤ s.m_maxActive
          omega
        full := by
          intro q hq hqa
          exfalso
          have hqg : q ≠ get := fun e => hnot (e ▸ hq)
          have hqa' : (s.objs q).active = false := by
            simpa [set_active_active, hqg] using hqa
          have hm := hs.full q (List.mem_of_mem_erase hq) hqa'
          have hall := List.find?_eq_none.1 (hnone hm) q hq
          simp only at hqa
          simp [hqa] at hall }

/-! ## Completion processing -/

theorem run_calls_fired (cs : List Call) : ∀ {s s' : CurlStack},
    run_calls cs s = .ok s' → s'.fired = s.fired := by
  induction cs with
  | nil => intro s s' h; cases h; rfl
  | cons c cs ih =>
    intro s s' h
    unfold run_calls at h
    split at h
    · rename_i s1 h1
      rw [ih h]
      cases c with
      | add_get rc get =>
        rcases add_get_cases (show add_get rc get s = .ok s1 from h1) with
          ⟨_, rfl⟩ | ⟨_, _, rfl⟩ <;> rfl
      | remove_get r1 r2 get =>
        obtain ⟨_, hc⟩ := remove_get_cases (show remove_get r1 r2 get s = .ok s1 from h1)
        rcases hc with ⟨_, rfl⟩ | ⟨_, _, ⟨q, _, _, _, rfl⟩ | ⟨_, rfl⟩⟩ <;> rfl
    · cases h

theorem process_done_handle_cases {slots : Nat → Option String → List Call}
    {strerror : Nat → String} {rc : Int} {read : Option CURLMsg × Int}
    {s s' : CurlStack} {more : Bool}
    (h : process_done_handle slots strerror rc read s = .ok (more, s')) :
    (read.1 = none ∧ more = false ∧ s' = s) ∨
    (∃ msg g, read.1 = some msg ∧ msg.msg = CURLMSG_DONE ∧
      s.base.find? (fun p => msg.easy_handle == (s.objs p).handle) = some g ∧
      more = decide (read.2 ≠ 0) ∧
      ((msg.result = CURLE_COULDNT_RESOLVE_HOST ∧ (s.objs g).ipv6 = false ∧ rc ≤ 0 ∧
          s' = { s with
            objs := fun p => if p = g then retry_ipv6 (s.objs p) else s.objs p,
            multi := s.multi ++ [MultiCall.add_handle (retry_ipv6 (s.objs g)).handle] }) ∨
       (msg.result = CURLE_COULDNT_RESOLVE_HOST ∧ (s.objs g).ipv6 = true ∧ s' = s) ∨
       (msg.result ≠ CURLE_COULDNT_RESOLVE_HOST ∧ msg.result = CURLE_OK ∧
          run_calls (slots g none) { s with fired := s.fired ++ [Trigger.done g] } = .ok s') ∨
       (msg.result ≠ CURLE_COULDNT_RESOLVE_HOST ∧ msg.result ≠ CURLE_OK ∧
          run_calls (slots g (some (strerror msg.result)))
            { s with fired := s.fired ++ [Trigger.failed g (strerror msg.result)] } = .ok s'))) := by
  unfold process_done_handle at h
  split at h
  · rename_i hread
    left
    cases h
    exact ⟨hread, rfl, rfl⟩
  · rename_i msg hread
    right
    split at h
    · cases h
    · rename_i hdone
      have hdone : msg.msg = CURLMSG_DONE := by simpa using hdone
      split at h
      · rename_i hres
        split at h
        · cases h
        · rename_i g hfind
          refine ⟨msg, g, hread, hdone, hfind, ?_⟩
          split at h
          · rename_i hv6
            split at h
            · cases h
            · rename_i hrc
              cases h
              refine ⟨rfl, Or.inl ⟨hres, by simpa using hv6, by omega, ?_⟩⟩
              simp
          · rename_i hv6
            cases h
            exact ⟨rfl, Or.inr (Or.inl ⟨hres, by simpa using hv6, rfl⟩)⟩
      · rename_i hres
        split at h
        · cases h
        · rename_i s1 htd
          cases h
          unfold transfer_done at htd
          split at htd
          · cases htd
          · rename_i g hfind
            refine ⟨msg, g, hread, hdone, hfind, rfl, ?_⟩
            by_cases hok : msg.result = CURLE_OK
            · simp only [hok, if_true] at htd
              exact Or.inr (Or.inr (Or.inl ⟨hres, hok, htd⟩))
            · simp only [hok, if_false] at htd
              exact Or.inr (Or.inr (Or.inr ⟨hres, hok, htd⟩))

theorem Consistent_of_same {maxActive : Nat} {s s' : CurlStack}
    (hs : Consistent maxActive s) (hb : s'.base = s.base) (hm : s'.m_active = s.m_active)
    (hx : s'.m_maxActive = s.m_maxActive)
    (ha : ∀ p, (s'.objs p).active = (s.objs p).active) : Consistent maxActive s' where
  nodup := hb ▸ hs.nodup
  active_mem := by
    intro p hp
    rw [ha p] at hp
    rw [hb]; exact hs.active_mem p hp
  count := by
    rw [hm, hs.count]
    unfold CurlStack.activeCount
    rw [hb]
    exact List.countP_congr (fun x _ => by rw [ha x])
  max_eq := hx ▸ hs.max_eq
  max_lt := hs.max_lt
  le_max := by rw [hm, hx]; exact hs.le_max
  full := by
    intro q hq hqa
    rw [hm, hx]
    rw [hb] at hq
    rw [ha q] at hqa
    exact hs.full q hq hqa

theorem Consistent_process_done_handle {maxActive : Nat} {strerror : Nat → String} {rc : Int}
    {read : Option CURLMsg × Int} {s s' : CurlStack} {more : Bool}
    (hs : Consistent maxActive s)
    (h : process_done_handle (fun _ _ => []) strerror rc read s = .ok (more, s')) :
    Consistent maxActive s' := by
  rcases process_done_handle_cases h with ⟨_, _, rfl⟩ | ⟨msg, g, _, _, _, _, hc⟩
  · exact hs
  · rcases hc with ⟨_, _, _, rfl⟩ | ⟨_, _, rfl⟩ | ⟨_, _, hr⟩ | ⟨_, _, hr⟩
    · refine Consistent_of_same hs rfl rfl rfl ?_
      intro p
      show (if p = g then retry_ipv6 (s.objs p) else s.objs p).active = _
      split <;> rfl
    · exact hs
    · cases hr
      exact Consistent_of_same hs rfl rfl rfl (fun _ => rfl)
    · cases hr
      exact Consistent_of_same hs rfl rfl rfl (fun _ => rfl)

theorem Reachable.consistent {maxActive : Nat} {handle : Nat → Nat} {s : CurlStack}
    (h : Reachable maxActive handle s) : Consistent maxActive s := by
  induction h with
  | init hlt => exact Consistent_init handle hlt
  | add_get rc get _ hfresh hadd ih => exact Consistent_add_get ih hfresh hadd
  | remove_get r1 r2 get _ hrem ih => exact Consistent_remove_get ih hrem
  | process_done_handle strerror rc read more _ hp ih =>
    exact Consistent_process_done_handle ih hp
  | set_timeout cachedTime fm t _ ih =>
    exact Consistent_of_same ih rfl rfl rfl (fun _ => rfl)

/-- The registry of the scenarios is reachable. -/
theorem reachable_three_registered :
    Reachable 2 (fun p => 100 + p) three_registered :=
  Reachable.add_get 0 3
    (Reachable.add_get 0 2
      (Reachable.add_get 0 1 (Reachable.init (by decide)) (by decide) rfl)
      (by decide) rfl)
    (by decide) rfl

/-- C3: add_get(t) appends t at the end of the collection.  Below the maximum
(and libcurl accepting the handle) t is marked active, its handle is attached
to the multi handle and m_active grows by exactly one; at the maximum t is
left as it was (not active when it was not), no handle is attached and
m_active is unchanged.  No other transfer is touched. -/
theorem add_get_admits_or_queues (rc : Int) (t : Nat) (s : CurlStack) :
    (s.m_active < s.m_maxActive → rc ≤ 0 →
      ∃ s', add_get rc t s = .ok s' ∧ s'.base = s.base ++ [t] ∧
        (s'.objs t).active = true ∧ (∀ p, p ≠ t → s'.objs p = s.objs p) ∧
        s'.multi = s.multi ++ [MultiCall.add_handle (s.objs t).handle] ∧
        s'.m_active = s.m_active + 1) ∧
    (s.m_maxActive ≤ s.m_active →
      ∃ s', add_get rc t s = .ok s' ∧ s'.base = s.base ++ [t] ∧
        s'.objs = s.objs ∧ ((s.objs t).active = false → (s'.objs t).active = false) ∧
        s'.multi = s.multi ∧ s'.m_active = s.m_active) := by
  constructor
  · intro hlt hrc
    refine ⟨{ s with
        base := s.base ++ [t],
        m_active := s.m_active + 1,
        objs := set_active s.objs t true,
        multi := s.multi ++ [MultiCall.add_handle (s.objs t).handle] }, ?_, rfl, ?_, ?_, rfl, rfl⟩
    · unfold add_get
      simp only
      rw [if_neg (by omega), if_neg (by omega)]
    · simp [set_active_active]
    · intro p hp
      exact set_active_other s.objs true hp
  · intro hfull
    refine ⟨{ s with base := s.base ++ [t] }, ?_, rfl, rfl, fun h => h, rfl, rfl⟩
    unfold add_get
    simp only
    rw [if_pos hfull]

theorem add_get_admits_or_queues_witness :
    (∃ s', add_get 0 1 (CurlStack.init 1 (fun p => 100 + p)) = .ok s' ∧ s'.base = [] ++ [1] ∧
        (s'.objs 1).active = true ∧
        (∀ p, p ≠ 1 → s'.objs p = (CurlStack.init 1 (fun p => 100 + p)).objs p) ∧
        s'.multi = [] ++ [MultiCall.add_handle 101] ∧ s'.m_active = 0 + 1) ∧
    (∃ s', add_get 0 4 three_registered = .ok s' ∧ s'.base = [1, 2, 3] ++ [4] ∧
        s'.objs = three_registered.objs ∧
        ((three_registered.objs 4).active = false → (s'.objs 4).active = false) ∧
        s'.multi = three_registered.multi ∧ s'.m_active = 2) :=
  ⟨(add_get_admits_or_queues 0 1 (CurlStack.init 1 (fun p => 100 + p))).1
      (by decide) (by decide),
   (add_get_admits_or_queues 0 4 three_registered).2 (by decide)⟩

theorem find_erase_of_neg {p : Nat → Bool} {a : Nat} (ha : p a = false) :
    ∀ l : List Nat, (l.erase a).find? p = l.find? p := by
  intro l
  induction l with
  | nil => rfl
  | cons x xs ih =>
    by_cases hx : x = a
    · subst hx
      rw [List.erase_cons_head, List.find?_cons_of_neg _ (by simp [ha])]
    · rw [List.erase_cons_tail (by simpa using hx)]
      cases hpx : p x
      · rw [List.find?_cons_of_neg _ (by simp [hpx]), List.find?_cons_of_neg _ (by simp [hpx]), ih]
      · rw [List.find?_cons_of_pos _ hpx, List.find?_cons_of_pos _ hpx]

theorem find_congr_mem {p q : Nat → Bool} :
    ∀ {l : List Nat}, (∀ x ∈ l, p x = q x) → l.find? p = l.find? q := by
  intro l
  induction l with
  | nil => intro _; rfl
  | cons x xs ih =>
    intro h
    have hx := h x (List.mem_cons_self _ _)
    have hxs := ih (fun y hy => h y (List.mem_cons_of_mem _ hy))
    rw [List.find?_cons, List.find?_cons, hx, hxs]

/-- Of a reachable registry with an active transfer `t`, the scan of
`remove_get` over the collection without `t` finds what a scan of the whole
collection for the first transfer that is not active finds. -/
theorem scan_after_erase {maxActive : Nat} {s : CurlStack} (hs : Consistent maxActive s)
    {t : Nat} (hact : (s.objs t).active = true) :
    (s.base.erase t).find? (fun p => !(set_active s.objs t false p).active) =
      s.base.find? (fun p => !(s.objs p).active) := by
  have hnot : t ∉ s.base.erase t := fun h => (List.Nodup.mem_erase_iff hs.nodup).1 h |>.1 rfl
  rw [← find_erase_of_neg (p := fun p => !(s.objs p).active) (a := t) (by simp [hact]) s.base]
  apply find_congr_mem
  intro x hx
  have hxt : x ≠ t := fun e => hnot (e ▸ hx)
  simp [set_active_active, hxt]

theorem remove_get_promote_eq {r1 r2 : Int} {get q : Nat} {s : CurlStack}
    (hg : get ∈ s.base) (hact : (s.objs get).active = true) (h1 : r1 ≤ 0) (h2 : r2 ≤ 0)
    (hm : s.m_active = s.m_maxActive)
    (hq : (s.base.erase get).find? (fun p => !(set_active s.objs get false p).active) = some q) :
    remove_get r1 r2 get s = .ok { s with
      base := s.base.erase get,
      objs := set_active (set_active s.objs get false) q true,
      multi := s.multi ++ [MultiCall.remove_handle (s.objs get).handle] ++
        [MultiCall.add_handle (set_active s.objs get false q).handle] } := by
  unfold remove_get
  simp only
  rw [if_neg (by simpa using hg), if_neg (by simp [hact]), if_neg (by omega), if_pos hm, hq]
  simp only
  rw [if_neg (by omega)]

theorem remove_get_release_eq {r1 r2 : Int} {get : Nat} {s : CurlStack}
    (hg : get ∈ s.base) (hact : (s.objs get).active = true) (h1 : r1 ≤ 0)
    (hq : s.m_active = s.m_maxActive →
      (s.base.erase get).find? (fun p => !(set_active s.objs get false p).active) = none) :
    remove_get r1 r2 get s = .ok { s with
      base := s.base.erase get,
      objs := set_active s.objs get false,
      multi := s.multi ++ [MultiCall.remove_handle (s.objs get).handle],
      m_active := dec32 s.m_active } := by
  unfold remove_get
  simp only
  rw [if_neg (by simpa using hg), if_neg (by simp [hact]), if_neg (by omega)]
  by_cases hm : s.m_active = s.m_maxActive
  · rw [if_pos hm, hq hm]
  · rw [if_neg hm]

theorem remove_get_queued_eq (r1 r2 : Int) {get : Nat} {s : CurlStack}
    (hg : get ∈ s.base) (hina : (s.objs get).active = false) :
    remove_get r1 r2 get s = .ok { s with base := s.base.erase get } := by
  unfold remove_get
  simp only
  rw [if_neg (by simpa using hg), if_pos (by simp [hina])]

/-- Deregistering an active transfer of a consistent registry while a transfer
is queued hands the slot to the earliest queued transfer. -/
theorem remove_get_hands_over {maxActive : Nat} (rc_remove rc_add : Int) {t : Nat}
    {s : CurlStack} (hs : Consistent maxActive s) (ht : t ∈ s.base)
    (hact : (s.objs t).active = true)
    (hqueued : ∃ x ∈ s.base, (s.objs x).active = false)
    (h1 : rc_remove ≤ 0) (h2 : rc_add ≤ 0) :
    ∃ s' q pre post, remove_get rc_remove rc_add t s = .ok s' ∧
      s.base = pre ++ q :: post ∧ (∀ x ∈ pre, (s.objs x).active = true) ∧
      (s.objs q).active = false ∧ (s'.objs q).active = true ∧
      (s'.objs t).active = false ∧
      (∀ p, p ≠ q → p ≠ t → s'.objs p = s.objs p) ∧
      s'.base = s.base.erase t ∧
      s'.m_active = s.m_active ∧
      s'.multi = s.multi ++ [MultiCall.remove_handle (s.objs t).handle,
                             MultiCall.add_handle (s.objs q).handle] := by
  obtain ⟨x, hx, hxa⟩ := hqueued
  have hm : s.m_active = s.m_maxActive := hs.full x hx hxa
  have hscan := scan_after_erase hs hact
  have hsome : ∃ q, s.base.find? (fun p => !(s.objs p).active) = some q := by
    cases hf : s.base.find? (fun p => !(s.objs p).active) with
    | some q => exact ⟨q, rfl⟩
    | none =>
      have := List.find?_eq_none.1 hf x hx
      simp [hxa] at this
  obtain ⟨q, hq⟩ := hsome
  obtain ⟨hqp, pre, post, hsplit, hpre⟩ := List.find?_eq_some.1 hq
  have hqa : (s.objs q).active = false := by simpa using hqp
  have hqt : q ≠ t := by
    rintro rfl
    rw [hact] at hqa; cases hqa
  refine ⟨_, q, pre, post, remove_get_promote_eq ht hact h1 h2 hm (hscan.trans hq),
    hsplit, ?_, hqa, ?_, ?_, ?_, rfl, rfl, ?_⟩
  · intro y hy
    have := hpre y hy
    simpa using this
  · simp [set_active_active]
  · simp [set_active_active, Ne.symm hqt]
  · intro p hpq hpt
    show set_active (set_active s.objs t false) q true p = s.objs p
    rw [set_active_other _ true hpq, set_active_other _ false hpt]
  · show s.multi ++ [MultiCall.remove_handle (s.objs t).handle] ++
        [MultiCall.add_handle (set_active s.objs t false q).handle] = _
    rw [set_active_handle]
    simp

/-- Deregistering an active transfer of a consistent registry in which no
transfer is queued releases the slot: the counter goes down by one. -/
theorem remove_get_releases {maxActive : Nat} (rc_remove rc_add : Int) {t : Nat}
    {s : CurlStack} (hs : Consistent maxActive s) (ht : t ∈ s.base)
    (hact : (s.objs t).active = true)
    (hall : ∀ x ∈ s.base, (s.objs x).active = true)
    (h1 : rc_remove ≤ 0) :
    ∃ s', remove_get rc_remove rc_add t s = .ok s' ∧
      (s'.objs t).active = false ∧ (∀ p, p ≠ t → s'.objs p = s.objs p) ∧
      s'.base = s.base.erase t ∧ s'.m_active + 1 = s.m_active ∧
      s'.multi = s.multi ++ [MultiCall.remove_handle (s.objs t).handle] := by
  have hscan := scan_after_erase hs hact
  have hnone : s.base.find? (fun p => !(s.objs p).active) = none := by
    rw [List.find?_eq_none]
    intro x hx
    simp [hall x hx]
  have hcnt := countP_erase_active s.objs ht
  rw [hact] at hcnt
  have hcount : s.m_active = s.base.countP (fun p => (s.objs p).active) := hs.count
  have hle := hs.le_max
  have hmax := hs.max_eq
  have hlt := hs.max_lt
  have hdec : dec32 s.m_active = s.m_active - 1 := dec32_of_pos (by simp at hcnt; omega) (by omega)
  refine ⟨_, remove_get_release_eq ht hact h1 (fun _ => hscan.trans hnone), ?_, ?_, rfl, ?_, rfl⟩
  · simp [set_active_active]
  · intro p hpt
    exact set_active_other _ false hpt
  · show dec32 s.m_active + 1 = s.m_active
    simp at hcnt
    omega

/-- C4, amended: in a registry reached with add_get only called on transfers
that are not in the collection, remove_get on an active transfer `t` while
some transfer of the collection is queued (libcurl accepting both calls)
returns; exactly one queued transfer `q` becomes active, the one earliest in
the collection (every transfer before it is active); `t` loses its flag and
its place; every other transfer is as before; m_active is as before; the
multi handle saw `t` detached and `q` attached. -/
theorem remove_get_promotes_earliest_queued (maxActive : Nat) (handle : Nat → Nat)
    (rc_remove rc_add : Int) (t : Nat) (s : CurlStack)
    (hr : Reachable maxActive handle s) (ht : t ∈ s.base)
    (hact : (s.objs t).active = true)
    (hqueued : ∃ x ∈ s.base, (s.objs x).active = false)
    (h1 : rc_remove ≤ 0) (h2 : rc_add ≤ 0) :
    ∃ s' q pre post, remove_get rc_remove rc_add t s = .ok s' ∧
      s.base = pre ++ q :: post ∧ (∀ x ∈ pre, (s.objs x).active = true) ∧
      (s.objs q).active = false ∧ (s'.objs q).active = true ∧
      (s'.objs t).active = false ∧
      (∀ p, p ≠ q → p ≠ t → s'.objs p = s.objs p) ∧
      s'.base = s.base.erase t ∧
      s'.m_active = s.m_active ∧
      s'.multi = s.multi ++ [MultiCall.remove_handle (s.objs t).handle,
                             MultiCall.add_handle (s.objs q).handle] :=
  remove_get_hands_over rc_remove rc_add hr.consistent ht hact hqueued h1 h2

theorem remove_get_promotes_earliest_queued_witness :
    ∃ s' q pre post, remove_get 0 0 1 three_registered = .ok s' ∧
      three_registered.base = pre ++ q :: post ∧
      (∀ x ∈ pre, (three_registered.objs x).active = true) ∧
      (three_registered.objs q).active = false ∧ (s'.objs q).active = true ∧
      (s'.objs 1).active = false ∧
      (∀ p, p ≠ q → p ≠ 1 → s'.objs p = three_registered.objs p) ∧
      s'.base = three_registered.base.erase 1 ∧
      s'.m_active = three_registered.m_active ∧
      s'.multi = three_registered.multi ++
        [MultiCall.remove_handle (three_registered.objs 1).handle,
         MultiCall.add_handle (three_registered.objs q).handle] :=
  remove_get_promotes_earliest_queued 2 (fun p => 100 + p) 0 0 1 three_registered
    reachable_three_registered (by decide) (by decide) ⟨3, by decide, by decide⟩
    (by decide) (by decide)

/-! ## What one completion message does -/

theorem process_done_handle_retry_eq {slots : Nat → Option String → List Call}
    {strerror : Nat → String} {rc remaining : Int} {msg : CURLMsg} {g : Nat} {s : CurlStack}
    (hdone : msg.msg = CURLMSG_DONE) (hres : msg.result = CURLE_COULDNT_RESOLVE_HOST)
    (hfind : s.base.find? (fun p => msg.easy_handle == (s.objs p).handle) = some g)
    (hv6 : (s.objs g).ipv6 = false) (hrc : rc ≤ 0) :
    process_done_handle slots strerror rc (some msg, remaining) s =
      .ok (decide (remaining ≠ 0), { s with
        objs := fun p => if p = g then retry_ipv6 (s.objs p) else s.objs p,
        multi := s.multi ++ [MultiCall.add_handle (retry_ipv6 (s.objs g)).handle] }) := by
  unfold process_done_handle
  simp only
  rw [if_neg (by simp [hdone]), if_pos hres, hfind]
  simp only
  rw [if_pos (by simp [hv6]), if_neg (by omega)]
  simp

theorem process_done_handle_second_eq {slots : Nat → Option String → List Call}
    {strerror : Nat → String} {rc remaining : Int} {msg : CURLMsg} {g : Nat} {s : CurlStack}
    (hdone : msg.msg = CURLMSG_DONE) (hres : msg.result = CURLE_COULDNT_RESOLVE_HOST)
    (hfind : s.base.find? (fun p => msg.easy_handle == (s.objs p).handle) = some g)
    (hv6 : (s.objs g).ipv6 = true) :
    process_done_handle slots strerror rc (some msg, remaining) s =
      .ok (decide (remaining ≠ 0), s) := by
  unfold process_done_handle
  simp only
  rw [if_neg (by simp [hdone]), if_pos hres, hfind]
  simp only
  rw [if_neg (by simp [hv6])]

theorem process_done_handle_finish_eq (slots : Nat → Option String → List Call)
    (strerror : Nat → String) (rc remaining : Int) {msg : CURLMsg} {g : Nat} {s : CurlStack}
    (hdone : msg.msg = CURLMSG_DONE) (hres : msg.result ≠ CURLE_COULDNT_RESOLVE_HOST)
    (hfind : s.base.find? (fun p => msg.easy_handle == (s.objs p).handle) = some g) :
    process_done_handle slots strerror rc (some msg, remaining) s =
      (run_calls
        (slots g (if msg.result = CURLE_OK then none else some (strerror msg.result)))
        { s with fired := s.fired ++
            [if msg.result = CURLE_OK then Trigger.done g
             else Trigger.failed g (strerror msg.result)] }).map
        (fun s' => (decide (remaining ≠ 0), s')) := by
  unfold process_done_handle
  simp only
  rw [if_neg (by simp [hdone]), if_neg hres]
  unfold transfer_done
  rw [hfind]
  by_cases hok : msg.result = CURLE_OK
  · simp only [hok, if_true]
    cases run_calls (slots g none) { s with fired := s.fired ++ [Trigger.done g] } <;> rfl
  · simp only [hok, if_false]
    cases run_calls (slots g (some (strerror msg.result)))
      { s with fired := s.fired ++ [Trigger.failed g (strerror msg.result)] } <;> rfl

/-- What the slots of a transfer call back into the registry during
`process_done_handle` is a sequence of registry calls made on what
`process_done_handle` leaves without them. -/
theorem process_done_handle_slots {slots : Nat → Option String → List Call}
    {strerror : Nat → String} {rc : Int} {read : Option CURLMsg × Int}
    {s s' : CurlStack} {more : Bool}
    (h : process_done_handle slots strerror rc read s = .ok (more, s')) :
    ∃ s1 cs, process_done_handle (fun _ _ => []) strerror rc read s = .ok (more, s1) ∧
      run_calls cs s1 = .ok s' ∧ (cs = [] ∨ ∃ g o, cs = slots g o) := by
  obtain ⟨r1, r2⟩ := read
  rcases process_done_handle_cases h with ⟨hn, rfl, rfl⟩ | ⟨msg, g, hread, hdone, hfind, rfl, hc⟩
  · simp only at hn
    subst hn
    exact ⟨_, [], rfl, rfl, Or.inl rfl⟩
  · simp only at hread
    subst hread
    rcases hc with ⟨hres, hv6, hrc, rfl⟩ | ⟨hres, hv6, rfl⟩ | ⟨hres, hok, hr⟩ | ⟨hres, hok, hr⟩
    · exact ⟨_, [], process_done_handle_retry_eq hdone hres hfind hv6 hrc, rfl, Or.inl rfl⟩
    · exact ⟨_, [], process_done_handle_second_eq hdone hres hfind hv6, rfl, Or.inl rfl⟩
    · refine ⟨_, _, ?_, hr, Or.inr ⟨_, _, rfl⟩⟩
      rw [process_done_handle_finish_eq _ _ _ _ hdone hres hfind]
      simp [hok, run_calls, Except.map]
    · refine ⟨_, _, ?_, hr, Or.inr ⟨_, _, rfl⟩⟩
      rw [process_done_handle_finish_eq _ _ _ _ hdone hres hfind]
      simp [hok, run_calls, Except.map]

/-- Removals made one after the other from a reachable registry leave it
reachable. -/
theorem reachable_run_removes {maxActive : Nat} {handle : Nat → Nat} (cs : List Call) :
    ∀ {s s' : CurlStack}, Reachable maxActive handle s →
      (∀ c ∈ cs, ∃ r1 r2 t, c = Call.remove_get r1 r2 t) →
      run_calls cs s = .ok s' → Reachable maxActive handle s' := by
  induction cs with
  | nil =>
    intro s s' hr _ h
    cases h
    exact hr
  | cons c cs ih =>
    intro s s' hr hall h
    unfold run_calls at h
    split at h
    · rename_i s1 h1
      obtain ⟨r1, r2, t, rfl⟩ := hall c (List.mem_cons_self _ _)
      exact ih (Reachable.remove_get r1 r2 t hr h1)
        (fun c hc => hall c (List.mem_cons_of_mem _ hc)) h
    · cases h

/-- Completion processing whose slots close transfers (the slots call
`remove_get` only) leads from a reachable registry to a reachable one. -/
theorem reachable_process_done_handle_closing {maxActive : Nat} {handle : Nat → Nat}
    {slots : Nat → Option String → List Call} {strerror : Nat → String} {rc : Int}
    {read : Option CURLMsg × Int} {s s' : CurlStack} {more : Bool}
    (hr : Reachable maxActive handle s)
    (hslots : ∀ g o, ∀ c ∈ slots g o, ∃ r1 r2 t, c = Call.remove_get r1 r2 t)
    (h : process_done_handle slots strerror rc read s = .ok (more, s')) :
    Reachable maxActive handle s' := by
  obtain ⟨s1, cs, h1, h2, hcs⟩ := process_done_handle_slots h
  have hr1 := Reachable.process_done_handle strerror rc read more hr h1
  refine reachable_run_removes cs hr1 ?_ h2
  rcases hcs with rfl | ⟨g, o, rfl⟩
  · intro c hc; cases hc
  · exact hslots g o

/-! ## The claims about completion processing -/

/-- C5 as stated fails: in the scenario (maximum 2; transfers 1, 2, 3
registered in that order), processing the success message of transfer 1 fires
its success callback once, and when that callback does not close the transfer
nothing else happens: transfer 3 is still queued and transfer 1 still holds
its slot. -/
theorem scenario_success_without_close_keeps_third_queued :
    ∃ s', process_done_handle (fun _ _ => []) (fun _ => "failed") 0
        (some { msg := CURLMSG_DONE, easy_handle := 101, result := CURLE_OK }, 0)
        three_registered = .ok (false, s') ∧
      s'.fired = [Trigger.done 1] ∧ (s'.objs 3).active = false ∧
      s'.base = [1, 2, 3] ∧ (s'.objs 1).active = true ∧ s'.m_active = 2 :=
  ⟨_, rfl, rfl, rfl, rfl, rfl, rfl⟩

/-- C5, amended: with maximum 2 and an empty registry, registering transfers
1, 2, 3 in that order leaves 1 and 2 active, 3 queued and m_active 2; when a
success message for transfer 1 is then processed and the success callback of
transfer 1 closes it (remove_get), that callback is the one callback fired,
transfer 3 becomes active and m_active is still 2. -/
theorem scenario_success_with_close_promotes_third (strerror : Nat → String) :
    run_calls [Call.add_get 0 1, Call.add_get 0 2, Call.add_get 0 3]
        (CurlStack.init 2 (fun p => 100 + p)) = .ok three_registered ∧
    three_registered.base = [1, 2, 3] ∧
    (three_registered.objs 1).active = true ∧ (three_registered.objs 2).active = true ∧
    (three_registered.objs 3).active = false ∧ three_registered.m_active = 2 ∧
    ∃ s', process_done_handle (fun g _ => [Call.remove_get 0 0 g]) strerror 0
        (some { msg := CURLMSG_DONE, easy_handle := 101, result := CURLE_OK }, 0)
        three_registered = .ok (false, s') ∧
      s'.fired = [Trigger.done 1] ∧ (s'.objs 3).active = true ∧ s'.m_active = 2 ∧
      s'.base = [2, 3] ∧ (s'.objs 2).active = true ∧ (s'.objs 1).active = false :=
  ⟨rfl, rfl, rfl, rfl, rfl, rfl, _, rfl, rfl, rfl, rfl, rfl, rfl, rfl⟩

/-- C6 at the failing input: transfer 1 is registered and active, its first
"could not resolve host" message has been answered by the retry, and a second
such message is read.  process_done_handle returns without invoking any
callback (although the slots would close the transfer), without any call on
the multi handle, and leaves the transfer registered and active. -/
theorem second_resolve_failure_fires_no_callback (strerror : Nat → String) :
    ∃ s1 s2,
      process_done_handle (fun g _ => [Call.remove_get 0 0 g]) strerror 0
        (some { msg := CURLMSG_DONE, easy_handle := 101,
                result := CURLE_COULDNT_RESOLVE_HOST }, 0)
        three_registered = .ok (false, s1) ∧
      (s1.objs 1).ipv6 = true ∧
      process_done_handle (fun g _ => [Call.remove_get 0 0 g]) strerror 0
        (some { msg := CURLMSG_DONE, easy_handle := 101,
                result := CURLE_COULDNT_RESOLVE_HOST }, 0)
        s1 = .ok (false, s2) ∧
      s2.fired = [] ∧ s2.multi = s1.multi ∧ s2.base = [1, 2, 3] ∧
      (s2.objs 1).active = true ∧ s2.m_active = 2 :=
  ⟨_, _, rfl, rfl, rfl, rfl, rfl, rfl, rfl, rfl⟩

/-- C7: when process_done_handle reads a "could not resolve host" message for
a registered transfer `g` that has not retried yet (and libcurl accepts the
handle), it returns; retry_ipv6 has run on `g` (its flag is set), the handle
of `g` has been added to the multi handle once, no callback has been invoked,
and the collection, every active flag, m_active, every other transfer and the
timer task are as before. -/
theorem first_resolve_failure_retries (slots : Nat → Option String → List Call)
    (strerror : Nat → String) (rc remaining : Int) (msg : CURLMsg) (g : Nat) (s : CurlStack)
    (hdone : msg.msg = CURLMSG_DONE) (hres : msg.result = CURLE_COULDNT_RESOLVE_HOST)
    (hfind : s.base.find? (fun p => msg.easy_handle == (s.objs p).handle) = some g)
    (hv6 : (s.objs g).ipv6 = false) (hrc : rc ≤ 0) :
    ∃ s', process_done_handle slots strerror rc (some msg, remaining) s =
        .ok (decide (remaining ≠ 0), s') ∧
      (s'.objs g).ipv6 = true ∧
      s'.multi = s.multi ++ [MultiCall.add_handle (s.objs g).handle] ∧
      s'.fired = s.fired ∧ s'.base = s.base ∧
      (∀ p, (s'.objs p).active = (s.objs p).active) ∧
      (∀ p, p ≠ g → s'.objs p = s.objs p) ∧
      s'.m_active = s.m_active ∧ s'.m_maxActive = s.m_maxActive ∧
      s'.m_taskTimeout = s.m_taskTimeout := by
  refine ⟨_, process_done_handle_retry_eq hdone hres hfind hv6 hrc, ?_, rfl, rfl, rfl, ?_, ?_,
    rfl, rfl, rfl⟩
  · simp [retry_ipv6, hv6]
  · intro p
    show (if p = g then retry_ipv6 (s.objs p) else s.objs p).active = _
    split <;> rfl
  · intro p hp
    show (if p = g then retry_ipv6 (s.objs p) else s.objs p) = _
    rw [if_neg hp]

theorem first_resolve_failure_retries_witness :
    ∃ s', process_done_handle (fun g _ => [Call.remove_get 0 0 g]) (fun _ => "failed") 0
        (some { msg := CURLMSG_DONE, easy_handle := 102,
                result := CURLE_COULDNT_RESOLVE_HOST }, 1)
        three_registered = .ok (decide ((1 : Int) ≠ 0), s') ∧
      (s'.objs 2).ipv6 = true ∧
      s'.multi = three_registered.multi ++
        [MultiCall.add_handle (three_registered.objs 2).handle] ∧
      s'.fired = three_registered.fired ∧ s'.base = three_registered.base ∧
      (∀ p, (s'.objs p).active = (three_registered.objs p).active) ∧
      (∀ p, p ≠ 2 → s'.objs p = three_registered.objs p) ∧
      s'.m_active = three_registered.m_active ∧
      s'.m_maxActive = three_registered.m_maxActive ∧
      s'.m_taskTimeout = three_registered.m_taskTimeout :=
  first_resolve_failure_retries (fun g _ => [Call.remove_get 0 0 g]) (fun _ => "failed") 0 1
    { msg := CURLMSG_DONE, easy_handle := 102, result := CURLE_COULDNT_RESOLVE_HOST }
    2 three_registered rfl rfl rfl rfl (by decide)

/-- C8: for a completion message whose status is not "could not resolve host"
and whose handle belongs to a registered transfer `g`, process_done_handle
invokes exactly one callback, on `g`: trigger_done when the status is OK,
otherwise trigger_failed with curl_easy_strerror of the status.  It then runs
what the slots of `g` call back into the registry, and throws only if they do;
whenever it returns, that one callback is all that has been fired. -/
theorem completion_fires_exactly_one_callback (slots : Nat → Option String → List Call)
    (strerror : Nat → String) (rc remaining : Int) (msg : CURLMsg) (g : Nat) (s : CurlStack)
    (hdone : msg.msg = CURLMSG_DONE) (hres : msg.result ≠ CURLE_COULDNT_RESOLVE_HOST)
    (hfind : s.base.find? (fun p => msg.easy_handle == (s.objs p).handle) = some g) :
    process_done_handle slots strerror rc (some msg, remaining) s =
      (run_calls
        (slots g (if msg.result = CURLE_OK then none else some (strerror msg.result)))
        { s with fired := s.fired ++
            [if msg.result = CURLE_OK then Trigger.done g
             else Trigger.failed g (strerror msg.result)] }).map
        (fun s' => (decide (remaining ≠ 0), s')) ∧
    (∀ more s', process_done_handle slots strerror rc (some msg, remaining) s = .ok (more, s') →
      s'.fired = s.fired ++
        [if msg.result = CURLE_OK then Trigger.done g
         else Trigger.failed g (strerror msg.result)]) ∧
    ((∀ o, slots g o = []) →
      process_done_handle slots strerror rc (some msg, remaining) s =
        .ok (decide (remaining ≠ 0), { s with fired := s.fired ++
          [if msg.result = CURLE_OK then Trigger.done g
           else Trigger.failed g (strerror msg.result)] })) := by
  have heq := process_done_handle_finish_eq slots strerror rc remaining hdone hres hfind
  refine ⟨heq, ?_, ?_⟩
  · intro more s' h
    rw [heq] at h
    cases hr : run_calls
        (slots g (if msg.result = CURLE_OK then none else some (strerror msg.result)))
        { s with fired := s.fired ++
            [if msg.result = CURLE_OK then Trigger.done g
             else Trigger.failed g (strerror msg.result)] } with
    | error e => rw [hr] at h; cases h
    | ok s1 =>
      rw [hr] at h
      cases h
      exact run_calls_fired _ hr
  · intro hno
    rw [heq, hno]
    rfl

theorem completion_fires_exactly_one_callback_witness :
    process_done_handle (fun _ _ => []) (fun _ => "failed") 0
        (some { msg := CURLMSG_DONE, easy_handle := 102, result := 7 }, 0)
        three_registered =
      .ok (decide ((0 : Int) ≠ 0), { three_registered with fired :=
        three_registered.fired ++
          [if (7 : Nat) = CURLE_OK then Trigger.done 2 else Trigger.failed 2 "failed"] }) :=
  (completion_fires_exactly_one_callback (fun _ _ => []) (fun _ => "failed") 0 0
    { msg := CURLMSG_DONE, easy_handle := 102, result := 7 } 2 three_registered
    rfl (by decide) rfl).2.2 (fun _ => rfl)

/-- C10 at the failing input: a transfer is registered, libcurl asks for a
timeout through the hook set_timeout, and the transfer is removed again.
remove_get returns with the collection empty and the timer task still
queued. -/
theorem remove_get_leaves_timer_task_queued :
    ∃ s1 s2, add_get 0 1 (CurlStack.init 1 (fun p => 100 + p)) = .ok s1 ∧
      remove_get 0 0 1 (set_timeout 5000000 (fun ms => ms * 1000) 0 s1) = .ok s2 ∧
      s2.base = [] ∧ s2.m_active = 0 ∧ s2.is_queued = true ∧
      s2.m_taskTimeout = [5000000] :=
  ⟨_, _, rfl, rfl, rfl, rfl, rfl, rfl⟩

/-! ## The calls with the state they leave when they throw -/

theorem add_get_outcome_result (rc : Int) (get : Nat) (s : CurlStack) :
    outcome_result (add_get_outcome rc get s) = add_get rc get s := by
  unfold add_get_outcome add_get
  simp only
  split_ifs <;> rfl

theorem remove_get_outcome_result (r1 r2 : Int) (get : Nat) (s : CurlStack) :
    outcome_result (remove_get_outcome r1 r2 get s) = remove_get r1 r2 get s := by
  unfold remove_get_outcome remove_get
  simp only
  by_cases hmem : get ∉ s.base
  · rw [if_pos hmem, if_pos hmem]; rfl
  · rw [if_neg hmem, if_neg hmem]
    by_cases hact : (!(s.objs get).active) = true
    · rw [if_pos hact, if_pos hact]; rfl
    · rw [if_neg hact, if_neg hact]
      by_cases hr1 : r1 > 0
      · rw [if_pos hr1, if_pos hr1]; rfl
      · rw [if_neg hr1, if_neg hr1]
        by_cases hm : s.m_active = s.m_maxActive
        · rw [if_pos hm]
          cases (s.base.erase get).find? (fun p => !(set_active s.objs get false p).active) with
          | none => rfl
          | some q =>
            simp only
            split_ifs <;> rfl
        · rw [if_neg hm]; rfl

theorem run_call_outcome_result (c : Call) (s : CurlStack) :
    outcome_result (run_call_outcome c s) = run_call c s := by
  cases c with
  | add_get rc get => exact add_get_outcome_result rc get s
  | remove_get r1 r2 get => exact remove_get_outcome_result r1 r2 get s

theorem run_calls_outcome_result (cs : List Call) : ∀ s : CurlStack,
    outcome_result (run_calls_outcome cs s) = run_calls cs s := by
  induction cs with
  | nil => intro s; rfl
  | cons c cs ih =>
    intro s
    unfold run_calls_outcome run_calls
    rw [← run_call_outcome_result]
    rcases run_call_outcome c s with ⟨s1, _ | e⟩
    · exact ih s1
    · rfl

theorem transfer_done_outcome_result (slots : Nat → Option String → List Call)
    (handle : Nat) (msg : Option String) (s : CurlStack) :
    outcome_result (transfer_done_outcome slots handle msg s) =
      transfer_done slots handle msg s := by
  unfold transfer_done_outcome transfer_done
  cases s.base.find? (fun p => handle == (s.objs p).handle) with
  | none => rfl
  | some g =>
    cases msg with
    | none => exact run_calls_outcome_result _ _
    | some m => exact run_calls_outcome_result _ _

theorem process_done_handle_outcome_result (slots : Nat → Option String → List Call)
    (strerror : Nat → String) (rc : Int) (read : Option CURLMsg × Int) (s : CurlStack) :
    outcome_result_bool (process_done_handle_outcome slots strerror rc read s) =
      process_done_handle slots strerror rc read s := by
  unfold process_done_handle_outcome process_done_handle
  cases read.1 with
  | none => rfl
  | some msg =>
    simp only
    by_cases hdone : msg.msg ≠ CURLMSG_DONE
    · rw [if_pos hdone, if_pos hdone]; rfl
    · rw [if_neg hdone, if_neg hdone]
      by_cases hres : msg.result = CURLE_COULDNT_RESOLVE_HOST
      · rw [if_pos hres, if_pos hres]
        cases s.base.find? (fun p => msg.easy_handle == (s.objs p).handle) with
        | none => rfl
        | some g =>
          simp only
          split_ifs <;> rfl
      · rw [if_neg hres, if_neg hres, ← transfer_done_outcome_result]
        rcases transfer_done_outcome slots msg.easy_handle
          (if msg.result = CURLE_OK then none else some (strerror msg.result)) s with ⟨s1, _ | e⟩
        · rfl
        · rfl

/-! ## The timer hook -/

/-- C11: whatever the prior state (timer task not queued, queued once, or held
by the scheduler any number of times) and whatever timeout libcurl asks for,
after the hook set_timeout the scheduler holds exactly one entry for the timer
task of the registry, at the current time plus the requested milliseconds;
every entry queued before is gone, and nothing else of the registry has
changed.  The hook is the erase followed by the insert; the insert alone is
additive (it keeps the entries queued before and adds one), so it is the erase
that leaves a single entry. -/
theorem set_timeout_erases_then_inserts (cachedTime : Int) (from_milliseconds : Int → Int)
    (timeout_ms : Int) (s : CurlStack) :
    (set_timeout cachedTime from_milliseconds timeout_ms s).scheduled =
      [cachedTime + from_milliseconds timeout_ms] ∧
    (set_timeout cachedTime from_milliseconds timeout_ms s).is_queued = true ∧
    (set_timeout cachedTime from_milliseconds timeout_ms s).scheduled.length = 1 ∧
    set_timeout cachedTime from_milliseconds timeout_ms s =
      { s with m_taskTimeout := [cachedTime + from_milliseconds timeout_ms] } ∧
    set_timeout cachedTime from_milliseconds timeout_ms s =
      priority_queue_insert (cachedTime + from_milliseconds timeout_ms)
        (priority_queue_erase s) ∧
    (priority_queue_erase s).scheduled = [] ∧
    (priority_queue_insert (cachedTime + from_milliseconds timeout_ms) s).scheduled =
      s.scheduled ++ [cachedTime + from_milliseconds timeout_ms] ∧
    (priority_queue_insert (cachedTime + from_milliseconds timeout_ms) s).scheduled.length =
      s.scheduled.length + 1 :=
  ⟨rfl, rfl, rfl, rfl, rfl, rfl, rfl, by
    show (s.m_taskTimeout ++ [cachedTime + from_milliseconds timeout_ms]).length = _
    rw [List.length_append]
    rfl⟩

/-- The hook on a registry whose timer task is already queued: the entry at
7000000 is replaced by the one entry at 5250000, where the insert alone would
leave two entries. -/
theorem set_timeout_replaces_queued_entry :
    (set_timeout 5000000 (fun ms => ms * 1000) 250
      (set_timeout 5000000 (fun ms => ms * 1000) 2000 three_registered)).scheduled =
      [5250000] ∧
    (priority_queue_insert 5250000
      (set_timeout 5000000 (fun ms => ms * 1000) 2000 three_registered)).scheduled =
      [7000000, 5250000] := by
  decide

/-! ## Deregistration of a queued or unknown transfer, double registration -/

/-- C14: remove_get on a transfer that is in the collection and not active
returns and only takes it out of the collection: the remaining transfers keep
their order, m_active and every transfer object (so every active flag) are as
before, and no call is made on the multi handle. -/
theorem remove_get_queued_only_erases (r1 r2 : Int) (get : Nat) (s : CurlStack)
    (hmem : get ∈ s.base) (hq : (s.objs get).active = false) :
    ∃ s', remove_get r1 r2 get s = .ok s' ∧
      s'.base = s.base.erase get ∧ s'.base.Sublist s.base ∧
      s'.base.length + 1 = s.base.length ∧
      s'.m_active = s.m_active ∧ s'.objs = s.objs ∧ s'.multi = s.multi ∧
      s'.fired = s.fired ∧ s'.m_taskTimeout = s.m_taskTimeout ∧
      s'.m_maxActive = s.m_maxActive := by
  refine ⟨{ s with base := s.base.erase get }, remove_get_queued_eq r1 r2 hmem hq, rfl,
    List.erase_sublist get s.base, ?_, rfl, rfl, rfl, rfl, rfl, rfl⟩
  show (s.base.erase get).length + 1 = s.base.length
  rw [List.length_erase_of_mem hmem]
  have : 0 < s.base.length := List.length_pos_of_mem hmem
  omega

theorem remove_get_queued_only_erases_witness :
    ∃ s', remove_get 0 0 3 three_registered = .ok s' ∧
      s'.base = three_registered.base.erase 3 ∧ s'.base.Sublist three_registered.base ∧
      s'.base.length + 1 = three_registered.base.length ∧
      s'.m_active = three_registered.m_active ∧ s'.objs = three_registered.objs ∧
      s'.multi = three_registered.multi ∧
      s'.fired = three_registered.fired ∧
      s'.m_taskTimeout = three_registered.m_taskTimeout ∧
      s'.m_maxActive = three_registered.m_maxActive :=
  remove_get_queued_only_erases 0 0 3 three_registered (by decide) rfl

/-- C16: remove_get on a transfer that is not in the collection throws the
internal error of the failed lookup and leaves the registry exactly as it was:
same collection, same transfers, same m_active, no call on the multi
handle. -/
theorem remove_get_unknown_throws (r1 r2 : Int) (get : Nat) (s : CurlStack)
    (h : get ∉ s.base) :
    remove_get r1 r2 get s =
      .error "Could not find CurlGet when calling CurlStack::remove." ∧
    remove_get_outcome r1 r2 get s =
      (s, some "Could not find CurlGet when calling CurlStack::remove.") := by
  constructor
  · unfold remove_get
    rw [if_pos h]
  · unfold remove_get_outcome
    rw [if_pos h]

/-- A second deregistration of the same transfer: transfer 3 of the scenario
registry is removed, then removed again. -/
theorem remove_get_unknown_throws_witness :
    ∃ s1, remove_get 0 0 3 three_registered = .ok s1 ∧
      remove_get 0 0 3 s1 =
        .error "Could not find CurlGet when calling CurlStack::remove." ∧
      remove_get_outcome 0 0 3 s1 =
        (s1, some "Could not find CurlGet when calling CurlStack::remove.") :=
  ⟨_, rfl, remove_get_unknown_throws 0 0 3 _ (by decide)⟩

/-- C17 as stated fails: with maximum 1, add_get on transfer 1 and then
add_get on transfer 1 again both return; nothing is thrown and the collection
holds the transfer twice. -/
theorem add_get_twice_registers_twice :
    ∃ s1 s2, add_get 0 1 (CurlStack.init 1 (fun p => 100 + p)) = .ok s1 ∧
      add_get_outcome 0 1 s1 = (s2, none) ∧ add_get 0 1 s1 = .ok s2 ∧
      s2.base = [1, 1] ∧ s2.m_active = 1 :=
  ⟨_, _, rfl, rfl, rfl, rfl, rfl⟩

/-- C17, amended: add_get does not look the transfer up.  On a transfer that is
already in the collection it appends it a second time and returns: always at
the maximum, and below the maximum whenever libcurl accepts the handle; it has
no internal error of its own for a double registration.  No transfer appears
twice in the collection as long as callers register only transfers that are
not in it (the reachable registries). -/
theorem add_get_appends_registered_transfer (maxActive : Nat) (handle : Nat → Nat)
    (rc : Int) (t : Nat) (s : CurlStack) :
    (t ∈ s.base → s.m_maxActive ≤ s.m_active →
      add_get rc t s = .ok { s with base := s.base ++ [t] }) ∧
    (t ∈ s.base → s.m_active < s.m_maxActive → rc ≤ 0 →
      ∃ s', add_get rc t s = .ok s' ∧ s'.base = s.base ++ [t]) ∧
    (∀ s', add_get rc t s = .ok s' → s'.base = s.base ++ [t]) ∧
    (Reachable maxActive handle s → s.base.Nodup) := by
  refine ⟨?_, ?_, ?_, fun hr => hr.consistent.nodup⟩
  · intro _ hfull
    unfold add_get
    simp only
    rw [if_pos hfull]
  · intro _ hlt hrc
    refine ⟨{ s with
        base := s.base ++ [t],
        m_active := s.m_active + 1,
        objs := set_active s.objs t true,
        multi := s.multi ++ [MultiCall.add_handle (s.objs t).handle] }, ?_, rfl⟩
    unfold add_get
    simp only
    rw [if_neg (by omega), if_neg (by omega)]
  · intro s' h
    rcases add_get_cases h with ⟨_, rfl⟩ | ⟨_, _, rfl⟩ <;> rfl

theorem add_get_appends_registered_transfer_witness :
    add_get 0 3 three_registered =
      .ok { three_registered with base := three_registered.base ++ [3] } ∧
    three_registered.base.Nodup :=
  ⟨(add_get_appends_registered_transfer 2 (fun p => 100 + p) 0 3 three_registered).1
      (by decide) (by decide),
   (add_get_appends_registered_transfer 2 (fun p => 100 + p) 0 3 three_registered).2.2.2
      reachable_three_registered⟩

/-- C20, amended: in every registry state reachable from the empty registry
with a fixed maximum, provided add_get is only called on transfers that are not
in the collection (each transfer registered once until it is removed), a
transfer of the collection that is not active means that m_active is at the
maximum. -/
theorem queued_only_at_capacity (maxActive : Nat) (handle : Nat → Nat) (s : CurlStack)
    (q : Nat) (hr : Reachable maxActive handle s) (hq : q ∈ s.base)
    (hqa : (s.objs q).active = false) :
    s.m_active = maxActive ∧ s.m_maxActive = maxActive :=
  ⟨(hr.consistent.full q hq hqa).trans hr.consistent.max_eq, hr.consistent.max_eq⟩

theorem queued_only_at_capacity_witness :
    three_registered.m_active = 2 ∧ three_registered.m_maxActive = 2 :=
  queued_only_at_capacity 2 (fun p => 100 + p) three_registered 3
    reachable_three_registered (by decide) rfl

/-! ## A completion message for an unknown handle -/

/-- C15: when the completion message names an easy handle that belongs to no
transfer of the collection, process_done_handle throws an internal error and
leaves the registry as it was, so that no callback has been fired: the error
of its own lookup when the status is "could not resolve host", the error of
the lookup of transfer_done for every other status. -/
theorem unknown_handle_throws (slots : Nat → Option String → List Call)
    (strerror : Nat → String) (rc remaining : Int) (msg : CURLMsg) (s : CurlStack)
    (hnone : s.base.find? (fun p => msg.easy_handle == (s.objs p).handle) = none) :
    ∃ e, process_done_handle slots strerror rc (some msg, remaining) s = .error e ∧
      process_done_handle_outcome slots strerror rc (some msg, remaining) s = (s, .error e) ∧
      (msg.msg = CURLMSG_DONE → msg.result = CURLE_COULDNT_RESOLVE_HOST →
        e = "Could not find CurlGet when calling CurlStack::receive_action.") ∧
      (msg.msg = CURLMSG_DONE → msg.result ≠ CURLE_COULDNT_RESOLVE_HOST →
        e = "Could not find CurlGet with the right easy_handle.") := by
  have key : ∃ e, process_done_handle_outcome slots strerror rc (some msg, remaining) s =
        (s, .error e) ∧
      (msg.msg = CURLMSG_DONE → msg.result = CURLE_COULDNT_RESOLVE_HOST →
        e = "Could not find CurlGet when calling CurlStack::receive_action.") ∧
      (msg.msg = CURLMSG_DONE → msg.result ≠ CURLE_COULDNT_RESOLVE_HOST →
        e = "Could not find CurlGet with the right easy_handle.") := by
    unfold process_done_handle_outcome
    simp only
    by_cases hdone : msg.msg ≠ CURLMSG_DONE
    · rw [if_pos hdone]
      exact ⟨_, rfl, fun h => absurd h hdone, fun h => absurd h hdone⟩
    · rw [if_neg hdone]
      by_cases hres : msg.result = CURLE_COULDNT_RESOLVE_HOST
      · rw [if_pos hres, hnone]
        exact ⟨_, rfl, fun _ _ => rfl, fun _ h => absurd hres h⟩
      · rw [if_neg hres]
        unfold transfer_done_outcome
        rw [hnone]
        exact ⟨_, rfl, fun _ h => absurd h hres, fun _ _ => rfl⟩
  obtain ⟨e, ho, h1, h2⟩ := key
  refine ⟨e, ?_, ho, h1, h2⟩
  rw [← process_done_handle_outcome_result, ho]
  rfl

theorem unknown_handle_throws_witness :
    ∃ e, process_done_handle (fun g _ => [Call.remove_get 0 0 g]) (fun _ => "failed") 0
        (some { msg := CURLMSG_DONE, easy_handle := 999, result := 7 }, 0)
        three_registered = .error e ∧
      process_done_handle_outcome (fun g _ => [Call.remove_get 0 0 g]) (fun _ => "failed") 0
        (some { msg := CURLMSG_DONE, easy_handle := 999, result := 7 }, 0)
        three_registered = (three_registered, .error e) ∧
      e = "Could not find CurlGet with the right easy_handle." :=
  match unknown_handle_throws (fun g _ => [Call.remove_get 0 0 g]) (fun _ => "failed") 0 0
      { msg := CURLMSG_DONE, easy_handle := 999, result := 7 } three_registered rfl with
  | ⟨e, h1, h2, _, h4⟩ => ⟨e, h1, h2, h4 rfl (by decide)⟩

/-! ## The drive step -/

theorem receive_action_cons (slots : Nat → Option String → List Call)
    (strerror : Nat → String) (cachedTime : Int) (from_milliseconds : Int → Int)
    (socket : Option Int) (events : Int) (p : Perform) (ps : List Perform) (s : CurlStack) :
    receive_action slots strerror cachedTime from_milliseconds socket events (p :: ps) s =
      if p.code > 0 then
        some (.error "Error calling curl_multi_socket_action.")
      else
        match after_perform slots strerror p
            (performed cachedTime from_milliseconds socket events p s) with
        | .error e => some (.error e)
        | .ok s3 =>
          if p.code = CURLM_CALL_MULTI_PERFORM then
            receive_action slots strerror cachedTime from_milliseconds none 0 ps s3
          else
            some (.ok s3) := by
  rfl

theorem timer_hooks_frame (cachedTime : Int) (from_milliseconds : Int → Int)
    (timeouts : List Int) : ∀ s : CurlStack,
    (timer_hooks cachedTime from_milliseconds timeouts s).base = s.base ∧
    (timer_hooks cachedTime from_milliseconds timeouts s).objs = s.objs ∧
    (timer_hooks cachedTime from_milliseconds timeouts s).m_active = s.m_active ∧
    (timer_hooks cachedTime from_milliseconds timeouts s).m_maxActive = s.m_maxActive ∧
    (timer_hooks cachedTime from_milliseconds timeouts s).multi = s.multi ∧
    (timer_hooks cachedTime from_milliseconds timeouts s).fired = s.fired := by
  induction timeouts with
  | nil => intro s; exact ⟨rfl, rfl, rfl, rfl, rfl, rfl⟩
  | cons t ts ih =>
    intro s
    exact ih (set_timeout cachedTime from_milliseconds t s)

theorem performed_base (cachedTime : Int) (from_milliseconds : Int → Int)
    (socket : Option Int) (events : Int) (p : Perform) (s : CurlStack) :
    (performed cachedTime from_milliseconds socket events p s).base = s.base :=
  (timer_hooks_frame cachedTime from_milliseconds p.timeouts s).1

/-- C18 as stated fails.  In the scenario registry two transfers are active
and one is queued.  When libcurl reports 2 running handles, the active count,
receive_action still drains: the pending success message of transfer 1 is
processed.  When it reports 3, the size of the collection, the pending message
is left unread although 3 differs from the active count. -/
theorem drain_ignores_active_count :
    three_registered.m_active = 2 ∧ three_registered.base.length = 3 ∧
    (∃ s', receive_action (fun _ _ => []) (fun _ => "failed") 0 (fun ms => ms * 1000) none 0
        [{ timeouts := [], code := 0, count := 2,
           reads := [{ msg := some { msg := CURLMSG_DONE, easy_handle := 101,
                                     result := CURLE_OK },
                       remaining := 0, rc := 0 }] }]
        three_registered = some (.ok s') ∧ s'.fired = [Trigger.done 1]) ∧
    (∃ s', receive_action (fun _ _ => []) (fun _ => "failed") 0 (fun ms => ms * 1000) none 0
        [{ timeouts := [], code := 0, count := 3,
           reads := [{ msg := some { msg := CURLMSG_DONE, easy_handle := 101,
                                     result := CURLE_OK },
                       remaining := 0, rc := 0 }] }]
        three_registered = some (.ok s') ∧ s'.fired = []) :=
  ⟨rfl, rfl, ⟨_, rfl, rfl⟩, ⟨_, rfl, rfl⟩⟩

/-- C18, amended: after each call of curl_multi_socket_action in
receive_action that returns no error code, the completion messages are drained
exactly when the reported count, read as an unsigned 32-bit value, differs
from the size of the collection (all registered transfers, active and
queued).  When it equals the size the step goes on with the registry as the
call left it, no message read; when it differs the step goes on with the
registry as the drain left it, the timer task erased if the collection is
empty. -/
theorem drain_iff_count_differs_from_size (slots : Nat → Option String → List Call)
    (strerror : Nat → String) (cachedTime : Int) (from_milliseconds : Int → Int)
    (socket : Option Int) (events : Int) (p : Perform) (ps : List Perform) (s : CurlStack)
    (hcode : p.code ≤ 0) :
    ((p.count % 4294967296).toNat = s.base.length →
      receive_action slots strerror cachedTime from_milliseconds socket events (p :: ps) s =
        if p.code = CURLM_CALL_MULTI_PERFORM then
          receive_action slots strerror cachedTime from_milliseconds none 0 ps
            (performed cachedTime from_milliseconds socket events p s)
        else
          some (.ok (performed cachedTime from_milliseconds socket events p s))) ∧
    ((p.count % 4294967296).toNat ≠ s.base.length →
      receive_action slots strerror cachedTime from_milliseconds socket events (p :: ps) s =
        match drain slots strerror p.reads
            (performed cachedTime from_milliseconds socket events p s) with
        | .error e => some (.error e)
        | .ok s2 =>
          if p.code = CURLM_CALL_MULTI_PERFORM then
            receive_action slots strerror cachedTime from_milliseconds none 0 ps
              (if s2.base.isEmpty then { s2 with m_taskTimeout := [] } else s2)
          else
            some (.ok (if s2.base.isEmpty then { s2 with m_taskTimeout := [] } else s2))) := by
  have hb := performed_base cachedTime from_milliseconds socket events p s
  constructor
  · intro heq
    rw [receive_action_cons, if_neg (by omega)]
    have : after_perform slots strerror p
        (performed cachedTime from_milliseconds socket events p s) =
        .ok (performed cachedTime from_milliseconds socket events p s) := by
      unfold after_perform count_differs
      rw [hb, if_neg (by simp [heq])]
    rw [this]
  · intro hne
    rw [receive_action_cons, if_neg (by omega)]
    have : after_perform slots strerror p
        (performed cachedTime from_milliseconds socket events p s) =
        match drain slots strerror p.reads
            (performed cachedTime from_milliseconds socket events p s) with
        | .error e => .error e
        | .ok s2 => .ok (if s2.base.isEmpty then { s2 with m_taskTimeout := [] } else s2) := by
      unfold after_perform count_differs
      rw [hb, if_pos (by simp [hne])]
      cases drain slots strerror p.reads
        (performed cachedTime from_milliseconds socket events p s) with
      | error e => rfl
      | ok s2 =>
        simp only
        split_ifs <;> rfl
    rw [this]
    cases drain slots strerror p.reads
      (performed cachedTime from_milliseconds socket events p s) with
    | error e => rfl
    | ok s2 => rfl

theorem drain_iff_count_differs_from_size_witness :
    receive_action (fun _ _ => []) (fun _ => "failed") 0 (fun ms => ms * 1000) none 0
        [{ timeouts := [], code := 0, count := 2, reads := [] }] three_registered =
      match drain (fun _ _ => []) (fun _ => "failed")
          ({ timeouts := [], code := 0, count := 2, reads := [] } : Perform).reads
          (performed 0 (fun ms => ms * 1000) none 0
            { timeouts := [], code := 0, count := 2, reads := [] } three_registered) with
      | .error e => some (.error e)
      | .ok s2 =>
        if ({ timeouts := [], code := 0, count := 2, reads := [] } : Perform).code =
            CURLM_CALL_MULTI_PERFORM then
          receive_action (fun _ _ => []) (fun _ => "failed") 0 (fun ms => ms * 1000) none 0 []
            (if s2.base.isEmpty then { s2 with m_taskTimeout := [] } else s2)
        else
          some (.ok (if s2.base.isEmpty then { s2 with m_taskTimeout := [] } else s2)) :=
  (drain_iff_count_differs_from_size (fun _ _ => []) (fun _ => "failed") 0
    (fun ms => ms * 1000) none 0 { timeouts := [], code := 0, count := 2, reads := [] } []
    three_registered (by decide)).2 (by decide)

/-! ## The timer-driven drive step -/

/-- C12 at the failing input: the timer fires on the scenario registry (three
transfers, no timer task queued), the drive step changes nothing, and
curl_multi_timeout stores -1.  With a 64-bit unsigned long,
std::max<unsigned long>(-1, 10000) is 18446744073709551615, and the timer task
is inserted that many milliseconds after the current time, not 10000. -/
theorem receive_timeout_without_offer_misses_default :
    ∃ s', receive_timeout (fun _ _ => []) (fun _ => "failed") 5000000 (fun ms => ms * 1000) 64
        [{ timeouts := [], code := 0, count := 2, reads := [] }] (-1) three_registered =
        some (.ok s') ∧
      s'.base = [1, 2, 3] ∧
      s'.m_taskTimeout = [5000000 + 18446744073709551615 * 1000] ∧
      s'.m_taskTimeout ≠ [5000000 + 10000 * 1000] :=
  ⟨_, rfl, rfl, by decide, by decide⟩

/-! ## Teardown -/

/-- In a consistent registry, remove_get on a registered transfer returns when
libcurl accepts the calls, and the transfer has left the collection. -/
theorem remove_get_returns {maxActive : Nat} (r1 r2 : Int) {g : Nat} {s : CurlStack}
    (hs : Consistent maxActive s) (hg : g ∈ s.base) (h1 : r1 ≤ 0) (h2 : r2 ≤ 0) :
    ∃ s', remove_get r1 r2 g s = .ok s' ∧ s'.base = s.base.erase g := by
  rcases Bool.eq_false_or_eq_true (s.objs g).active with hga | hga
  · by_cases hq : ∃ x ∈ s.base, (s.objs x).active = false
    · obtain ⟨s', _, _, _, hrem, _, _, _, _, _, _, hbase, _⟩ :=
        remove_get_hands_over r1 r2 hs hg hga hq h1 h2
      exact ⟨s', hrem, hbase⟩
    · have hall : ∀ x ∈ s.base, (s.objs x).active = true := by
        intro x hx
        cases hxa : (s.objs x).active
        · exact absurd ⟨x, hx, hxa⟩ hq
        · rfl
      obtain ⟨s', hrem, _, _, hbase, _⟩ := remove_get_releases r1 r2 hs hg hga hall h1
      exact ⟨s', hrem, hbase⟩
  · exact ⟨_, remove_get_queued_eq r1 r2 hg hga, rfl⟩

theorem close_all_closes_in_order {maxActive : Nat} (rc : Nat → Int × Int)
    (hrc : ∀ g, (rc g).1 ≤ 0 ∧ (rc g).2 ≤ 0) :
    ∀ (fuel : Nat) (s : CurlStack) (closed : List Nat), Consistent maxActive s →
      s.base.length ≤ fuel →
      ∃ s', close_all rc fuel s closed = some (.ok (s', closed ++ s.base)) ∧
        s'.base = [] ∧ Consistent maxActive s' := by
  intro fuel
  induction fuel with
  | zero =>
    intro s closed hs hlen
    have hnil : s.base = [] := List.length_eq_zero.1 (Nat.le_zero.1 hlen)
    refine ⟨s, ?_, hnil, hs⟩
    unfold close_all
    rw [hnil]
    simp
  | succ fuel ih =>
    intro s closed hs hlen
    cases hb : s.base with
    | nil =>
      refine ⟨s, ?_, hb, hs⟩
      unfold close_all
      rw [hb]
      simp
    | cons g rest =>
      have hg : g ∈ s.base := by rw [hb]; exact List.mem_cons_self _ _
      obtain ⟨s1, hrem, hbase⟩ := remove_get_returns (rc g).1 (rc g).2 hs hg (hrc g).1 (hrc g).2
      have hbase1 : s1.base = rest := by
        rw [hbase, hb, List.erase_cons_head]
      have hs1 : Consistent maxActive s1 := Consistent_remove_get hs hrem
      have hlen1 : s1.base.length ≤ fuel := by
        rw [hbase1]
        rw [hb] at hlen
        simp at hlen
        omega
      obtain ⟨s', hclose, hnil, hs'⟩ := ih s1 (closed ++ [g]) hs1 hlen1
      refine ⟨s', ?_, hnil, hs'⟩
      unfold close_all
      rw [hb]
      simp only
      have hcl : CurlGet.close (rc g).1 (rc g).2 g s = .ok s1 := by
        unfold CurlGet.close
        rw [if_pos hg, hrem]
      rw [hcl]
      simp only
      rw [hclose, hbase1]
      simp

/-- What remove_get does on a transfer of the collection when libcurl accepts
the calls, in any registry state: it returns, the first entry of the transfer
has left the collection, the transfer is detached from the multi handle if it
was active, and only active flags of transfers of the collection change. -/
theorem remove_get_effects (r1 r2 : Int) {g : Nat} {s : CurlStack} (hg : g ∈ s.base)
    (h1 : r1 ≤ 0) (h2 : r2 ≤ 0) :
    ∃ s1 calls, remove_get r1 r2 g s = .ok s1 ∧ s1.base = s.base.erase g ∧
      s1.fired = s.fired ∧ s1.m_taskTimeout = s.m_taskTimeout ∧
      (∀ p, (s1.objs p).handle = (s.objs p).handle) ∧
      (g ∉ s.base.erase g → (s1.objs g).active = false) ∧
      (∀ p, p ≠ g → (s.objs p).active = true → (s1.objs p).active = true) ∧
      (∀ p, p ∉ s.base → s1.objs p = s.objs p) ∧
      s1.multi = s.multi ++ calls ∧ MultiCall.cleanup ∉ calls ∧
      ((s.objs g).active = true → MultiCall.remove_handle (s.objs g).handle ∈ calls) := by
  rcases Bool.eq_false_or_eq_true (s.objs g).active with hact | hina
  · by_cases hq : s.m_active = s.m_maxActive ∧
        ∃ q, (s.base.erase g).find? (fun p => !(set_active s.objs g false p).active) = some q
    · obtain ⟨hm, q, hf⟩ := hq
      have hqm : q ∈ s.base.erase g := List.mem_of_find?_eq_some hf
      refine ⟨_, [MultiCall.remove_handle (s.objs g).handle,
          MultiCall.add_handle (set_active s.objs g false q).handle],
        remove_get_promote_eq hg hact h1 h2 hm hf, rfl, rfl, rfl, ?_, ?_, ?_, ?_, ?_, ?_, ?_⟩
      · intro p
        show (set_active (set_active s.objs g false) q true p).handle = _
        rw [set_active_handle, set_active_handle]
      · intro hng
        have hgq : g ≠ q := fun e => hng (e ▸ hqm)
        show (set_active (set_active s.objs g false) q true g).active = false
        rw [set_active_active, if_neg hgq, set_active_active, if_pos rfl]
      · intro p hp hpa
        show (set_active (set_active s.objs g false) q true p).active = true
        rw [set_active_active]
        split
        · rfl
        · rw [set_active_active, if_neg hp]
          exact hpa
      · intro p hp
        have hpg : p ≠ g := fun e => hp (e ▸ hg)
        have hpq : p ≠ q := fun e => hp (e ▸ List.mem_of_mem_erase hqm)
        show set_active (set_active s.objs g false) q true p = _
        rw [set_active_other _ _ hpq, set_active_other _ _ hpg]
      · show s.multi ++ [MultiCall.remove_handle (s.objs g).handle] ++
            [MultiCall.add_handle (set_active s.objs g false q).handle] = _
        rw [List.append_assoc]
        rfl
      · intro hc
        simp at hc
      · intro _
        exact List.mem_cons_self _ _
    · have hnone : s.m_active = s.m_maxActive →
          (s.base.erase g).find? (fun p => !(set_active s.objs g false p).active) = none := by
        intro hm
        cases hf : (s.base.erase g).find? (fun p => !(set_active s.objs g false p).active) with
        | none => rfl
        | some q => exact absurd ⟨hm, q, hf⟩ hq
      refine ⟨_, [MultiCall.remove_handle (s.objs g).handle],
        remove_get_release_eq hg hact h1 hnone, rfl, rfl, rfl, ?_, ?_, ?_, ?_, rfl, ?_, ?_⟩
      · intro p
        show (set_active s.objs g false p).handle = _
        rw [set_active_handle]
      · intro _
        show (set_active s.objs g false g).active = false
        rw [set_active_active, if_pos rfl]
      · intro p hp hpa
        show (set_active s.objs g false p).active = true
        rw [set_active_active, if_neg hp]
        exact hpa
      · intro p hp
        have hpg : p ≠ g := fun e => hp (e ▸ hg)
        show set_active s.objs g false p = _
        rw [set_active_other _ _ hpg]
      · intro hc
        simp at hc
      · intro _
        exact List.mem_cons_self _ _
  · refine ⟨_, [], remove_get_queued_eq r1 r2 hg hina, rfl, rfl, rfl, fun _ => rfl,
      fun _ => hina, fun _ _ h => h, fun _ _ => rfl, (List.append_nil _).symm, ?_, ?_⟩
    · intro hc
      cases hc
    · intro h
      rw [hina] at h
      cases h

/-- The loop of the destructor on any registry state, libcurl accepting every
call: as many rounds as the collection has entries suffice; close() is called
on the entries in their order; every transfer of the collection ends detached
and no other object is touched; the multi handle sees a remove_handle for
every transfer that was active. -/
theorem close_all_effects (rc : Nat → Int × Int)
    (hrc : ∀ g, (rc g).1 ≤ 0 ∧ (rc g).2 ≤ 0) :
    ∀ (fuel : Nat) (s : CurlStack) (closed : List Nat), s.base.length ≤ fuel →
      ∃ s' calls, close_all rc fuel s closed = some (.ok (s', closed ++ s.base)) ∧
        s'.base = [] ∧ s'.fired = s.fired ∧ s'.m_taskTimeout = s.m_taskTimeout ∧
        (∀ p, (s'.objs p).handle = (s.objs p).handle) ∧
        (∀ g ∈ s.base, (s'.objs g).active = false) ∧
        (∀ p, p ∉ s.base → s'.objs p = s.objs p) ∧
        s'.multi = s.multi ++ calls ∧ MultiCall.cleanup ∉ calls ∧
        (∀ g ∈ s.base, (s.objs g).active = true →
          MultiCall.remove_handle (s.objs g).handle ∈ calls) := by
  intro fuel
  induction fuel with
  | zero =>
    intro s closed hlen
    have hnil : s.base = [] := List.length_eq_zero.1 (Nat.le_zero.1 hlen)
    refine ⟨s, [], ?_, hnil, rfl, rfl, fun _ => rfl, ?_, fun _ _ => rfl,
      (List.append_nil _).symm, (fun hc => by cases hc), ?_⟩
    · unfold close_all
      rw [hnil]
      simp
    · intro g hg
      rw [hnil] at hg
      cases hg
    · intro g hg
      rw [hnil] at hg
      cases hg
  | succ fuel ih =>
    intro s closed hlen
    cases hb : s.base with
    | nil =>
      refine ⟨s, [], ?_, hb, rfl, rfl, fun _ => rfl, ?_, fun _ _ => rfl,
        (List.append_nil _).symm, (fun hc => by cases hc), ?_⟩
      · unfold close_all
        rw [hb]
        simp
      · intro g hg
        cases hg
      · intro g hg
        cases hg
    | cons g rest =>
      have hg : g ∈ s.base := by rw [hb]; exact List.mem_cons_self _ _
      obtain ⟨s1, calls1, hrem, hbase, hfired, htask, hhandle, hgone, hkeep, hframe, hmulti,
        hclean, hlog⟩ := remove_get_effects (rc g).1 (rc g).2 hg (hrc g).1 (hrc g).2
      have hbase1 : s1.base = rest := by
        rw [hbase, hb, List.erase_cons_head]
      have hlen1 : s1.base.length ≤ fuel := by
        rw [hbase1]
        rw [hb] at hlen
        simp at hlen
        omega
      obtain ⟨s', calls2, hclose, hnil, hfired2, htask2, hhandle2, hoff2, hframe2, hmulti2,
        hclean2, hlog2⟩ := ih s1 (closed ++ [g]) hlen1
      rw [hbase1] at hoff2 hframe2 hlog2 hclose
      refine ⟨s', calls1 ++ calls2, ?_, hnil, hfired2.trans hfired, htask2.trans htask,
        fun p => (hhandle2 p).trans (hhandle p), ?_, ?_, ?_, ?_, ?_⟩
      · unfold close_all
        rw [hb]
        simp only
        have hcl : CurlGet.close (rc g).1 (rc g).2 g s = .ok s1 := by
          unfold CurlGet.close
          rw [if_pos hg, hrem]
        rw [hcl]
        simp only
        rw [hclose]
        simp
      · intro x hx
        by_cases hxr : x ∈ rest
        · exact hoff2 x hxr
        · have hxg : x = g := by
            rcases List.mem_cons.1 hx with h | h
            · exact h
            · exact absurd h hxr
          subst hxg
          rw [hframe2 x hxr]
          apply hgone
          rw [hb, List.erase_cons_head]
          exact hxr
      · intro p hp
        have hpr : p ∉ rest := fun h => hp (List.mem_cons_of_mem _ h)
        rw [hframe2 p hpr]
        exact hframe p (by rw [hb]; exact hp)
      · rw [hmulti2, hmulti, List.append_assoc]
      · intro hc
        rcases List.mem_append.1 hc with h | h
        · exact hclean h
        · exact hclean2 h
      · intro x hx hxa
        by_cases hxg : x = g
        · subst hxg
          exact List.mem_append_left _ (hlog hxa)
        · have hxr : x ∈ rest := by
            rcases List.mem_cons.1 hx with h | h
            · exact absurd h hxg
            · exact h
          have := hlog2 x hxr (hkeep x hxg hxa)
          rw [hhandle x] at this
          exact List.mem_append_right _ this

/-- C13: destroying a registry, libcurl accepting every call and close()
deregistering the transfer it is called on, terminates (as many rounds as the
collection has entries suffice).  close() has been called on the entries of the
collection in their order, once per entry, hence exactly once on each transfer
of a collection that holds no transfer twice.  Each close() took effect: every
transfer of the collection ends with its active flag cleared, the multi handle
saw a remove_handle for every transfer that was active and then, last, the
cleanup; no completion callback fired and no other transfer object changed.
The collection is empty and the timer task is not queued; m_active is 0 when
the bookkeeping of the registry was consistent at the start. -/
theorem destroy_closes_every_transfer_once (maxActive : Nat) (rc : Nat → Int × Int)
    (fuel : Nat) (s : CurlStack) (hrc : ∀ g, (rc g).1 ≤ 0 ∧ (rc g).2 ≤ 0)
    (hfuel : s.base.length ≤ fuel) :
    ∃ s' calls, CurlStack.destroy rc fuel s = some (.ok (s', s.base)) ∧
      s'.base = [] ∧ s'.is_queued = false ∧ s'.scheduled = [] ∧ s'.fired = s.fired ∧
      s'.multi = s.multi ++ calls ++ [MultiCall.cleanup] ∧ MultiCall.cleanup ∉ calls ∧
      (∀ g ∈ s.base, (s'.objs g).active = false) ∧
      (∀ g ∈ s.base, (s.objs g).active = true →
        MultiCall.remove_handle (s.objs g).handle ∈ calls) ∧
      (∀ p, p ∉ s.base → s'.objs p = s.objs p) ∧
      (s.base.Nodup → ∀ g ∈ s.base, s.base.count g = 1) ∧
      (Consistent maxActive s → s'.m_active = 0) := by
  obtain ⟨s1, calls, hclose, hnil, hfired, _, _, hoff, hframe, hmulti, hclean, hlog⟩ :=
    close_all_effects rc hrc fuel s [] hfuel
  rw [List.nil_append] at hclose
  refine ⟨priority_queue_erase { s1 with multi := s1.multi ++ [MultiCall.cleanup] }, calls,
    ?_, hnil, rfl, rfl, hfired, ?_, hclean, hoff, hlog, hframe, ?_, ?_⟩
  · unfold CurlStack.destroy
    rw [hclose]
  · show s1.multi ++ [MultiCall.cleanup] = _
    rw [hmulti]
  · intro hnd g hg
    exact List.count_eq_one_of_mem hnd hg
  · intro hs
    obtain ⟨s2, hclose2, hnil2, hs2⟩ := close_all_closes_in_order rc hrc fuel s [] hs hfuel
    rw [hclose] at hclose2
    have hs12 : s1 = s2 := by
      have := Option.some.inj hclose2
      injection this with h
      exact (Prod.mk.inj h).1
    show s1.m_active = 0
    rw [hs12, hs2.count]
    unfold CurlStack.activeCount
    rw [hnil2]
    rfl

theorem destroy_closes_every_transfer_once_witness :
    ∃ s' calls, CurlStack.destroy (fun _ => (0, 0)) 3 three_registered =
        some (.ok (s', three_registered.base)) ∧
      s'.base = [] ∧ s'.is_queued = false ∧ s'.scheduled = [] ∧
      s'.fired = three_registered.fired ∧
      s'.multi = three_registered.multi ++ calls ++ [MultiCall.cleanup] ∧
      MultiCall.cleanup ∉ calls ∧
      (∀ g ∈ three_registered.base, (s'.objs g).active = false) ∧
      (∀ g ∈ three_registered.base, (three_registered.objs g).active = true →
        MultiCall.remove_handle (three_registered.objs g).handle ∈ calls) ∧
      (∀ p, p ∉ three_registered.base → s'.objs p = three_registered.objs p) ∧
      (three_registered.base.Nodup →
        ∀ g ∈ three_registered.base, three_registered.base.count g = 1) ∧
      (Consistent 2 three_registered → s'.m_active = 0) :=
  destroy_closes_every_transfer_once 2 (fun _ => (0, 0)) 3 three_registered
    (fun _ => ⟨le_refl 0, le_refl 0⟩) (by decide)

/-- The teardown of the scenario registry, computed: close() on the transfers
1, 2 and 3 in this order; the multi handle sees transfer 1 detached and
transfer 3 attached in its place, then 2 and 3 detached, then the cleanup;
m_active ends at 0 with no transfer active. -/
theorem destroy_three_registered :
    ∃ s', CurlStack.destroy (fun _ => (0, 0)) 3 three_registered =
        some (.ok (s', [1, 2, 3])) ∧
      s'.base = [] ∧ s'.m_active = 0 ∧ s'.scheduled = [] ∧
      s'.multi = three_registered.multi ++
        [MultiCall.remove_handle 101, MultiCall.add_handle 103, MultiCall.remove_handle 102,
         MultiCall.remove_handle 103, MultiCall.cleanup] ∧
      (s'.objs 1).active = false ∧ (s'.objs 2).active = false ∧
      (s'.objs 3).active = false :=
  ⟨_, rfl, rfl, rfl, rfl, rfl, rfl, rfl, rfl⟩
theorem active_first_of_same {s s' : CurlStack} (h : s.active_first)
    (hb : s'.base = s.base) (ha : ∀ p, (s'.objs p).active = (s.objs p).active) :
    s'.active_first := by
  unfold CurlStack.active_first at h ⊢
  rw [hb]
  refine h.imp ?_
  intro a b hab
  rw [ha a, ha b]
  exact hab

theorem active_first_add_get {maxActive : Nat} {rc : Int} {get : Nat} {s s' : CurlStack}
    (hs : Consistent maxActive s) (hf : s.active_first) (hfresh : get ∉ s.base)
    (h : add_get rc get s = .ok s') : s'.active_first := by
  have hina : (s.objs get).active = false := by
    cases hg : (s.objs get).active
    · rfl
    · exact absurd (hs.active_mem get hg) hfresh
  rcases add_get_cases h with ⟨_, rfl⟩ | ⟨hlt, _, rfl⟩
  · show (s.base ++ [get]).Pairwise
      (fun a b => (s.objs b).active = true → (s.objs a).active = true)
    rw [List.pairwise_append]
    refine ⟨hf, List.pairwise_singleton _ _, ?_⟩
    intro a _ b hb hba
    rw [List.mem_singleton] at hb
    rw [hb, hina] at hba
    cases hba
  · show (s.base ++ [get]).Pairwise
      (fun a b => (set_active s.objs get true b).active = true →
        (set_active s.objs get true a).active = true)
    apply List.pairwise_of_forall_mem_list
    intro a ha b _ _
    rw [set_active_active]
    by_cases hag : a = get
    · simp [hag]
    · rw [if_neg hag]
      have ha' : a ∈ s.base := by
        rcases List.mem_append.1 ha with h1 | h1
        · exact h1
        · exact absurd (List.mem_singleton.1 h1) hag
      cases haa : (s.objs a).active
      · have := hs.full a ha' haa
        omega
      · rfl

theorem active_first_remove_get {maxActive : Nat} {r1 r2 : Int} {get : Nat} {s s' : CurlStack}
    (hs : Consistent maxActive s) (hf : s.active_first)
    (h : remove_get r1 r2 get s = .ok s') : s'.active_first := by
  obtain ⟨_, hcase⟩ := remove_get_cases h
  have hnd : (s.base.erase get).Nodup := hs.nodup.erase get
  have hnot : get ∉ s.base.erase get := fun h => (List.Nodup.mem_erase_iff hs.nodup).1 h |>.1 rfl
  have hsub : (s.base.erase get).Pairwise
      (fun a b => (s.objs b).active = true → (s.objs a).active = true) :=
    List.Pairwise.sublist (List.erase_sublist get s.base) hf
  rcases hcase with ⟨_, rfl⟩ | ⟨_, _, ⟨q, _, hq, _, rfl⟩ | ⟨_, rfl⟩⟩
  · exact hsub
  · obtain ⟨_, pre, post, hsplit, hpre⟩ := List.find?_eq_some.1 hq
    have hnd' : (pre ++ q :: post).Nodup := hsplit ▸ hnd
    have hqpre : q ∉ pre := by
      intro hmem
      have := (List.nodup_append.1 hnd').2.2
      exact this hmem (List.mem_cons_self _ _) 
    have hqpost : q ∉ post := by
      have := (List.nodup_append.1 hnd').2.1
      exact (List.nodup_cons.1 this).1
    show (s.base.erase get).Pairwise
      (fun a b => (set_active (set_active s.objs get false) q true b).active = true →
        (set_active (set_active s.objs get false) q true a).active = true)
    have hpost_sub : post.Sublist (s.base.erase get) := by
      rw [hsplit]
      exact (List.sublist_cons_self q post).trans (List.sublist_append_right pre _)
    have hgpost : get ∉ post := fun hm => hnot (hpost_sub.subset hm)
    rw [hsplit, List.pairwise_append]
    refine ⟨?_, ?_, ?_⟩
    · apply List.pairwise_of_forall_mem_list
      intro a ha b _ _
      have haq : a ≠ q := fun e => hqpre (e ▸ ha)
      rw [set_active_other _ true haq]
      have := hpre a ha
      simpa using this
    · rw [List.pairwise_cons]
      refine ⟨fun b _ _ => by simp [set_active_active], ?_⟩
      refine List.Pairwise.imp_of_mem ?_ (List.Pairwise.sublist hpost_sub hsub)
      intro a b ha hb hab
      have haq : a ≠ q := fun e => hqpost (e ▸ ha)
      have hbq : b ≠ q := fun e => hqpost (e ▸ hb)
      have hag : a ≠ get := fun e => hgpost (e ▸ ha)
      have hbg : b ≠ get := fun e => hgpost (e ▸ hb)
      rw [set_active_other _ true haq, set_active_other _ true hbq,
        set_active_other _ false hag, set_active_other _ false hbg]
      exact hab
    · intro a ha b _ _
      have haq : a ≠ q := fun e => hqpre (e ▸ ha)
      rw [set_active_other _ true haq]
      have := hpre a ha
      simpa using this
  · show (s.base.erase get).Pairwise
      (fun a b => (set_active s.objs get false b).active = true →
        (set_active s.objs get false a).active = true)
    refine List.Pairwise.imp_of_mem ?_ hsub
    intro a b ha hb hab
    have hag : a ≠ get := fun e => hnot (e ▸ ha)
    have hbg : b ≠ get := fun e => hnot (e ▸ hb)
    rw [set_active_other _ false hag, set_active_other _ false hbg]
    exact hab

theorem active_first_process_done_handle {strerror : Nat → String} {rc : Int}
    {read : Option CURLMsg × Int} {s s' : CurlStack} {more : Bool}
    (hf : s.active_first)
    (h : process_done_handle (fun _ _ => []) strerror rc read s = .ok (more, s')) :
    s'.active_first := by
  rcases process_done_handle_cases h with ⟨_, _, rfl⟩ | ⟨msg, g, _, _, _, _, hc⟩
  · exact hf
  · rcases hc with ⟨_, _, _, rfl⟩ | ⟨_, _, rfl⟩ | ⟨_, _, hr⟩ | ⟨_, _, hr⟩
    · refine active_first_of_same hf rfl ?_
      intro p
      show (if p = g then retry_ipv6 (s.objs p) else s.objs p).active = _
      split <;> rfl
    · exact hf
    · cases hr
      exact active_first_of_same hf rfl (fun _ => rfl)
    · cases hr
      exact active_first_of_same hf rfl (fun _ => rfl)

theorem reachable_active_first {maxActive : Nat} {handle : Nat → Nat} {s : CurlStack}
    (h : Reachable maxActive handle s) : s.active_first := by
  induction h with
  | init _ => exact List.Pairwise.nil
  | add_get rc get hr hfresh hadd ih => exact active_first_add_get hr.consistent ih hfresh hadd
  | remove_get r1 r2 get hr hrem ih => exact active_first_remove_get hr.consistent ih hrem
  | process_done_handle strerror rc read more _ hp ih =>
    exact active_first_process_done_handle ih hp
  | set_timeout cachedTime fm t _ ih =>
    exact active_first_of_same ih rfl (fun _ => rfl)

/-- C26, amended: in every registry state reachable from the empty registry by
add_get, remove_get and completion processing with a fixed maximum, provided
add_get is only called on transfers that are not in the collection (each
transfer registered once until it is removed), every active transfer precedes every
queued transfer in collection order: of two transfers the later is active only
if the earlier is, so behind a queued transfer every transfer is queued. -/
theorem active_transfers_precede_queued (maxActive : Nat) (handle : Nat → Nat)
    (s : CurlStack) (hr : Reachable maxActive handle s) :
    s.base.Pairwise (fun a b => (s.objs b).active = true → (s.objs a).active = true) ∧
    (∀ pre q post, s.base = pre ++ q :: post → (s.objs q).active = false →
      ∀ b ∈ post, (s.objs b).active = false) := by
  have hf : s.active_first := reachable_active_first hr
  refine ⟨hf, ?_⟩
  intro pre q post hsplit hq b hb
  unfold CurlStack.active_first at hf
  rw [hsplit, List.pairwise_append] at hf
  have := (List.pairwise_cons.1 hf.2.1).1 b hb
  cases hba : (s.objs b).active
  · rfl
  · rw [this hba] at hq
    cases hq

theorem active_transfers_precede_queued_witness :
    three_registered.base.Pairwise
      (fun a b => (three_registered.objs b).active = true →
        (three_registered.objs a).active = true) ∧
    (∀ pre q post, three_registered.base = pre ++ q :: post →
      (three_registered.objs q).active = false →
      ∀ b ∈ post, (three_registered.objs b).active = false) :=
  active_transfers_precede_queued 2 (fun p => 100 + p) three_registered
    reachable_three_registered

/-! ## Draining -/

theorem process_done_handle_more {slots : Nat → Option String → List Call}
    {strerror : Nat → String} {rc : Int} {msg : CURLMsg} {remaining : Int}
    {s s' : CurlStack} {more : Bool}
    (h : process_done_handle slots strerror rc (some msg, remaining) s = .ok (more, s')) :
    more = decide (remaining ≠ 0) := by
  rcases process_done_handle_cases h with ⟨hn, _, _⟩ | ⟨_, _, _, _, _, hm, _⟩
  · cases hn
  · exact hm

theorem drain_cons (slots : Nat → Option String → List Call) (strerror : Nat → String)
    (r : Read) (rs : List Read) (s : CurlStack) :
    drain slots strerror (r :: rs) s =
      match process_done_handle slots strerror r.rc (r.msg, r.remaining) s with
      | .error e => .error e
      | .ok (true, s1) => drain slots strerror rs s1
      | .ok (false, s1) => .ok s1 := by
  rfl

theorem drain_queue_reads (slots : Nat → Option String → List Call)
    (strerror : Nat → String) : ∀ (pending : List (CURLMsg × Int)) (s : CurlStack),
    drain slots strerror (queue_reads pending) s =
      drain_completions slots strerror pending s := by
  intro pending
  induction pending with
  | nil => intro s; rfl
  | cons m ms ih =>
    intro s
    show drain slots strerror
      ({ msg := some m.1, remaining := ms.length, rc := m.2 } :: queue_reads ms) s = _
    rw [drain_cons]
    unfold drain_completions
    simp only
    cases hp : process_done_handle slots strerror m.2 (some m.1, (ms.length : Int)) s with
    | error e => rfl
    | ok r =>
      obtain ⟨more, s1⟩ := r
      have hmore := process_done_handle_more hp
      cases more with
      | true => exact ih s1
      | false =>
        have hnil : ms = [] := by
          have : ¬ ((ms.length : Int) ≠ 0) := by simpa using hmore.symm
          have h0 : ms.length = 0 := by omega
          exact List.length_eq_zero.1 h0
        subst hnil
        rfl

/-- C22: the loop `while (process_done_handle())` terminates on every queue of
pending completion messages and processes each message exactly once, in the
order libcurl returns them, as the drain_completions of the specification
does: nothing pending is left unread.  After a read the loop goes on exactly
when the read returned a message and reported a remaining count other than
zero. -/
theorem drain_processes_every_pending_message (slots : Nat → Option String → List Call)
    (strerror : Nat → String) :
    (∀ (pending : List (CURLMsg × Int)) (s : CurlStack),
      drain slots strerror (queue_reads pending) s =
        drain_completions slots strerror pending s) ∧
    (∀ (r : Read) (rs : List Read) (s s1 : CurlStack) (more : Bool),
      process_done_handle slots strerror r.rc (r.msg, r.remaining) s = .ok (more, s1) →
      drain slots strerror (r :: rs) s =
        (if more then drain slots strerror rs s1 else .ok s1) ∧
      (more = true ↔ (r.msg.isSome = true ∧ r.remaining ≠ 0))) ∧
    (∀ s : CurlStack, drain slots strerror [] s = .ok s) := by
  refine ⟨drain_queue_reads slots strerror, ?_, fun s => rfl⟩
  intro r rs s s1 more hp
  constructor
  · rw [drain_cons, hp]
    cases more <;> rfl
  · cases hmsg : r.msg with
    | none =>
      rw [hmsg] at hp
      have : more = false := by
        rcases process_done_handle_cases hp with ⟨_, hm, _⟩ | ⟨_, _, hr, _⟩
        · exact hm
        · cases hr
      simp [this]
    | some msg =>
      rw [hmsg] at hp
      have := process_done_handle_more hp
      simp [this]

/-! ## The calls of one drive step -/

/-- Two pending messages, for transfers 1 and 2 of the scenario registry, are
both processed, in that order. -/
theorem drain_processes_every_pending_message_witness :
    drain (fun _ _ => []) (fun _ => "failed")
        (queue_reads
          [({ msg := CURLMSG_DONE, easy_handle := 101, result := CURLE_OK }, 0),
           ({ msg := CURLMSG_DONE, easy_handle := 102, result := 7 }, 0)])
        three_registered =
      drain_completions (fun _ _ => []) (fun _ => "failed")
        [({ msg := CURLMSG_DONE, easy_handle := 101, result := CURLE_OK }, 0),
         ({ msg := CURLMSG_DONE, easy_handle := 102, result := 7 }, 0)]
        three_registered ∧
    ∃ s', drain_completions (fun _ _ => []) (fun _ => "failed")
        [({ msg := CURLMSG_DONE, easy_handle := 101, result := CURLE_OK }, 0),
         ({ msg := CURLMSG_DONE, easy_handle := 102, result := 7 }, 0)]
        three_registered = .ok s' ∧
      s'.fired = [Trigger.done 1, Trigger.failed 2 "failed"] :=
  ⟨(drain_processes_every_pending_message (fun _ _ => []) (fun _ => "failed")).1 _ _,
   _, rfl, rfl⟩


/-! ## Registering a transfer that is already in the collection

`add_get` does not look the transfer up, so the registry's own calls reach
states in which a transfer is in the collection twice, and from there states
that break the bookkeeping even after the duplicate has gone. -/

/-- C20 as stated fails: with maximum 2, add_get on transfers 1, 2 and 1 again,
then remove_get on 2 and on 1 (libcurl accepting every call) leaves transfer 1
in the collection, not active, with m_active 0 below the maximum 2. -/
theorem double_registration_leaves_queued_below_capacity :
    ∃ s, run_calls [Call.add_get 0 1, Call.add_get 0 2, Call.add_get 0 1,
          Call.remove_get 0 0 2, Call.remove_get 0 0 1]
        (CurlStack.init 2 (fun p => 100 + p)) = .ok s ∧
      s.base = [1] ∧ (s.objs 1).active = false ∧ s.m_active = 0 ∧ s.m_maxActive = 2 ∧
      s.multi = [MultiCall.add_handle 101, MultiCall.add_handle 102,
        MultiCall.remove_handle 102, MultiCall.remove_handle 101] :=
  ⟨_, rfl, rfl, rfl, rfl, rfl, rfl⟩

/-- C26 as stated fails: with maximum 2, add_get on transfers 1, 2 and 1 again,
remove_get on 2 and on 1, then add_get on 2 (libcurl accepting every call)
gives the collection 1, 2 with transfer 1 queued and transfer 2, registered
after it, active. -/
theorem double_registration_puts_queued_before_active :
    ∃ s, run_calls [Call.add_get 0 1, Call.add_get 0 2, Call.add_get 0 1,
          Call.remove_get 0 0 2, Call.remove_get 0 0 1, Call.add_get 0 2]
        (CurlStack.init 2 (fun p => 100 + p)) = .ok s ∧
      s.base = [1, 2] ∧ (s.objs 1).active = false ∧ (s.objs 2).active = true ∧
      ¬ s.base.Pairwise (fun a b => (s.objs b).active = true → (s.objs a).active = true) :=
  ⟨_, rfl, rfl, rfl, rfl, by decide⟩

/-- C4 as stated fails: in the registry reached with maximum 2 by add_get on
transfers 1, 2 and 1 again, remove_get on 2 and on 1, and add_get on 2, the
collection is 1, 2 with transfer 1 queued, transfer 2 active and m_active 1.
remove_get on the active transfer 2 returns, promotes nothing (transfer 1
stays queued, no handle is attached) and m_active drops to 0. -/
theorem remove_get_after_double_registration_promotes_nothing :
    ∃ s s', run_calls [Call.add_get 0 1, Call.add_get 0 2, Call.add_get 0 1,
          Call.remove_get 0 0 2, Call.remove_get 0 0 1, Call.add_get 0 2]
        (CurlStack.init 2 (fun p => 100 + p)) = .ok s ∧
      s.base = [1, 2] ∧ (s.objs 1).active = false ∧ (s.objs 2).active = true ∧
      s.m_active = 1 ∧
      remove_get 0 0 2 s = .ok s' ∧
      s'.base = [1] ∧ (s'.objs 1).active = false ∧ s'.m_active = 0 ∧
      s'.multi = s.multi ++ [MultiCall.remove_handle 102] :=
  ⟨_, _, rfl, rfl, rfl, rfl, rfl, rfl, rfl, rfl, rfl, rfl⟩

end core

namespace rpc

theorem is_command_enabled_eq_true (trusted : Bool) (name : String) :
    RpcManager.is_command_enabled trusted name = true ↔
      (trusted = true ∨ name ∉ untrusted_commands) := by
  unfold RpcManager.is_command_enabled
  rw [Bool.or_eq_true, Option.isNone_iff_eq_none, List.find?_eq_none]
  constructor
  · rintro (h | h)
    · exact Or.inl h
    · right
      intro hmem
      exact h name hmem (by simp)
  · rintro (h | h)
    · exact Or.inl h
    · right
      intro x hx hxe
      have : x = name := by simpa using hxe
      exact h (this ▸ hx)

/-- C19: is_command_enabled(name) is true exactly when the connection is
trusted or name is not a member (exact, case-sensitive) of the
untrusted-command list.  On an untrusted connection it is false for every
listed name, among them "execute", "method.insert", "import", "schedule2" and
"on_finished", and true for every name that is not listed, such as "Execute". -/
theorem is_command_enabled_iff_trusted_or_not_listed :
    (∀ (trusted : Bool) (name : String),
      RpcManager.is_command_enabled trusted name = true ↔
        (trusted = true ∨ name ∉ untrusted_commands)) ∧
    (∀ name, name ∈ untrusted_commands → RpcManager.is_command_enabled false name = false) ∧
    (∀ name, name ∉ untrusted_commands → RpcManager.is_command_enabled false name = true) ∧
    (∀ name, RpcManager.is_command_enabled true name = true) ∧
    (∀ name ∈ ["execute", "method.insert", "import", "schedule2", "on_finished"],
      name ∈ untrusted_commands ∧ RpcManager.is_command_enabled false name = false) ∧
    RpcManager.is_command_enabled false "Execute" = true := by
  refine ⟨is_command_enabled_eq_true, ?_, ?_, ?_, ?_, ?_⟩
  · intro name h
    cases hb : RpcManager.is_command_enabled false name
    · rfl
    · rcases (is_command_enabled_eq_true false name).1 hb with h1 | h1
      · cases h1
      · exact absurd h h1
  · intro name h
    exact (is_command_enabled_eq_true false name).2 (Or.inr h)
  · intro name
    exact (is_command_enabled_eq_true true name).2 (Or.inl rfl)
  · decide
  · decide


/-! ## The dispatcher and the trusted-connection flag -/

/-- C27: for type XML and for type JSON, `dispatch` returns normally and
leaves the thread's trusted-connection flag equal to its `trusted` argument,
whatever the flag held before and whichever branch answered (it is not put back
to true); with `trusted = false` the flag it leaves disables `execute`, and
`set_trusted_connection true` is what enables it again. -/
theorem dispatch_leaves_flag_at_trusted (is_valid : RPCType → Bool)
    (process : RPCType → String → Bool → Bool) (callback : String → Bool)
    (inBuffer : String) (trusted before : Bool) :
    (∃ ret, RpcManager.dispatch is_valid process callback .XML inBuffer trusted before
        = .ok (ret, trusted)) ∧
    (∃ ret, RpcManager.dispatch is_valid process callback .JSON inBuffer trusted before
        = .ok (ret, trusted)) ∧
    (∀ type ret flag,
      RpcManager.dispatch is_valid process callback type inBuffer false before
        = .ok (ret, flag) →
      RpcManager.is_command_enabled flag "execute" = false ∧
      RpcManager.is_command_enabled
        (RpcManager.set_trusted_connection true flag).2 "execute" = true) := by
  refine ⟨?_, ?_, ?_⟩
  · unfold RpcManager.dispatch
    by_cases h : is_valid .XML = true
    · exact ⟨_, by dsimp only; rw [if_pos h]⟩
    · exact ⟨_, by dsimp only; rw [if_neg h]⟩
  · unfold RpcManager.dispatch
    by_cases h : is_valid .JSON = true
    · exact ⟨_, by dsimp only; rw [if_pos h]⟩
    · exact ⟨_, by dsimp only; rw [if_neg h]⟩
  · intro type ret flag h
    have hf : flag = false := by
      unfold RpcManager.dispatch at h
      cases type
      · by_cases hv : is_valid .XML = true
        · simp [hv] at h; exact h.2
        · simp [hv] at h; exact h.2
      · by_cases hv : is_valid .JSON = true
        · simp [hv] at h; exact h.2
        · simp [hv] at h; exact h.2
      · simp at h
    subst hf
    exact ⟨by decide, by decide⟩


/-! ## Closing the inherited descriptors -/

theorem to_int_step (a d : Int) : to_int (to_int a * 10 + d) = to_int (a * 10 + d) := by
  unfold to_int
  omega

theorem to_int_of_fits (z : Int) (h0 : 0 ≤ z) (h1 : z < 2 ^ 31) : to_int z = z := by
  unfold to_int
  omega

theorem is_digit_iff (c : Char) : is_digit c = true ↔ 48 ≤ c.toNat ∧ c.toNat ≤ 57 := by
  unfold is_digit
  rw [Bool.and_eq_true, decide_eq_true_iff, decide_eq_true_iff]
  rfl

/-- On a name made of digits the loop consumes the whole name and leaves the
32-bit reduction of the number accumulated without reduction. -/
theorem scan_digits_all (cs : List Char) (h : ∀ c ∈ cs, is_digit c = true) (a : Int) :
    scan_digits (to_int a) cs =
      (to_int (cs.foldl (fun v c => v * 10 + ((c.toNat : Int) - ('0'.toNat : Int))) a), []) := by
  induction cs generalizing a with
  | nil => rfl
  | cons c cs ih =>
    have hc : is_digit c = true := h c (List.mem_cons_self _ _)
    have hcs : ∀ d ∈ cs, is_digit d = true := fun d hd => h d (List.mem_cons_of_mem _ hd)
    rw [scan_digits, if_pos hc, to_int_step, ih hcs, List.foldl_cons]

/-- The loop stops at the end of the name only when every character passed the
digit test. -/
theorem scan_digits_rest_nil (cs : List Char) (x : Int) (h : (scan_digits x cs).2 = []) :
    ∀ c ∈ cs, is_digit c = true := by
  induction cs generalizing x with
  | nil => intro c hc; cases hc
  | cons c cs ih =>
    by_cases hc : is_digit c = true
    · rw [scan_digits, if_pos hc] at h
      intro d hd
      rcases List.mem_cons.1 hd with rfl | hd
      · exact hc
      · exact ih _ h d hd
    · rw [scan_digits, if_neg hc] at h
      cases h

/-- The accumulation in integers agrees with the number the digits denote. -/
theorem foldl_decimal (cs : List Char) (h : ∀ c ∈ cs, is_digit c = true) (v : Nat) :
    cs.foldl (fun v c => v * 10 + ((c.toNat : Int) - ('0'.toNat : Int))) (v : Int) =
      ((cs.foldl (fun v c => v * 10 + (c.toNat - '0'.toNat)) v : Nat) : Int) := by
  induction cs generalizing v with
  | nil => rfl
  | cons c cs ih =>
    have hc := (is_digit_iff c).1 (h c (List.mem_cons_self _ _))
    have hcs : ∀ d ∈ cs, is_digit d = true := fun d hd => h d (List.mem_cons_of_mem _ hd)
    rw [List.foldl_cons, List.foldl_cons, ← ih hcs]
    congr 1
    have h0 : '0'.toNat = 48 := rfl
    rw [h0]
    push_cast
    omega

/-- What one entry can close. -/
theorem close_entry_some (dir_fd : Int) (name : List Char) (x : Int)
    (h : close_entry dir_fd name = some x) :
    name ≠ [] ∧ (∀ c ∈ name, is_digit c = true) ∧ x = to_int (decimal name) ∧
      ((decimal name : Int) < 2 ^ 31 → x = decimal name) ∧ 2 < x ∧ x ≠ dir_fd := by
  cases name with
  | nil => simp [close_entry] at h
  | cons c cs =>
    unfold close_entry at h
    dsimp only at h
    split_ifs at h with h1 h2
    obtain ⟨hr, hx, hd⟩ := h2
    have hall := scan_digits_rest_nil _ _ hr
    have hs := scan_digits_all (c :: cs) hall 0
    have h0 : to_int 0 = 0 := by decide
    rw [h0] at hs
    have hf := foldl_decimal (c :: cs) hall 0
    rw [Nat.cast_zero] at hf
    rw [hf] at hs
    have hx1 : x = to_int (decimal (c :: cs)) := by
      have := Option.some.inj h
      rw [← this, hs]
      rfl
    refine ⟨List.cons_ne_nil _ _, hall, hx1, ?_, ?_, ?_⟩
    · intro hlt
      rw [hx1]
      exact to_int_of_fits _ (Int.natCast_nonneg _) hlt
    · rw [← Option.some.inj h]; exact hx
    · rw [← Option.some.inj h]; exact hd

/-- An entry whose name holds a character that is not a digit is skipped. -/
theorem close_entry_non_digit (dir_fd : Int) (name : List Char)
    (h : ∃ c ∈ name, is_digit c = false) : close_entry dir_fd name = none := by
  cases hce : close_entry dir_fd name with
  | none => rfl
  | some x =>
    obtain ⟨c, hc, hd⟩ := h
    have := (close_entry_some dir_fd name x hce).2.1 c hc
    rw [hd] at this
    cases this

/-- C30 as stated fails: when `open` returns descriptor 0 for the directory
(descriptor 0 was free, as after the `::close(0)` of `execute`), the listing
with the entries 7 and 0 makes the function close 7 and then, with its final
`::close(dir_fd)`, descriptor 0. -/
theorem close_all_fds_closes_directory_descriptor_zero :
    close_all_fds 0 [['7'], ['0']] = [7, 0] ∧
    close_entry 0 ['0'] = none ∧ close_entry 0 ['7'] = some 7 := by
  decide

/-- C30, amended: the calls of the Linux `close_all_fds` are the closes made
for the entries followed by the final close of the directory's own descriptor
(none at all when the directory cannot be opened).  Every descriptor `x` closed
for an entry comes from a non-empty name made of decimal digits only, is the
32-bit value of the number the name denotes (that number itself when it fits an
`int`), is greater than 2 and differs from the directory's descriptor; so it is
never 0, 1 or 2, also when the accumulation wraps.  An entry whose name holds a
non-digit changes nothing.  A descriptor at or below 2 is closed only as the
directory's own descriptor, and none is when that descriptor is above 2. -/
theorem close_all_fds_closes_only_numbered_entries (dir_fd : Int)
    (names : List (List Char)) :
    (dir_fd = -1 ∧ close_all_fds dir_fd names = [] ∨
      ∃ closed, close_all_fds dir_fd names = closed ++ [dir_fd] ∧
        ∀ x ∈ closed,
          (∃ name ∈ names, name ≠ [] ∧ (∀ c ∈ name, is_digit c = true) ∧
            x = to_int (decimal name) ∧ ((decimal name : Int) < 2 ^ 31 → x = decimal name)) ∧
          2 < x ∧ x ≠ dir_fd ∧ x ≠ 0 ∧ x ≠ 1 ∧ x ≠ 2) ∧
    (∀ pre name post, (∃ c ∈ name, is_digit c = false) →
      close_all_fds dir_fd (pre ++ name :: post) = close_all_fds dir_fd (pre ++ post)) ∧
    (∀ x ∈ close_all_fds dir_fd names, x ≤ 2 → x = dir_fd) ∧
    (2 < dir_fd → ∀ x ∈ close_all_fds dir_fd names, 2 < x) := by
  have hentry : ∀ x ∈ names.filterMap (close_entry dir_fd),
      (∃ name ∈ names, name ≠ [] ∧ (∀ c ∈ name, is_digit c = true) ∧
        x = to_int (decimal name) ∧ ((decimal name : Int) < 2 ^ 31 → x = decimal name)) ∧
      2 < x ∧ x ≠ dir_fd ∧ x ≠ 0 ∧ x ≠ 1 ∧ x ≠ 2 := by
    intro x hx
    obtain ⟨name, hn, he⟩ := List.mem_filterMap.1 hx
    obtain ⟨h1, h2, h3, h4, h5, h6⟩ := close_entry_some dir_fd name x he
    exact ⟨⟨name, hn, h1, h2, h3, h4⟩, h5, h6, by omega, by omega, by omega⟩
  have hall : ∀ x ∈ close_all_fds dir_fd names, x = dir_fd ∨ 2 < x := by
    intro x hx
    unfold close_all_fds at hx
    split_ifs at hx
    · rcases List.mem_append.1 hx with h | h
      · exact Or.inr (hentry x h).2.1
      · exact Or.inl (List.mem_singleton.1 h)
    · cases hx
  refine ⟨?_, ?_, ?_, ?_⟩
  · by_cases hd : dir_fd = -1
    · left
      exact ⟨hd, by unfold close_all_fds; rw [if_neg (not_not.2 hd)]⟩
    · right
      exact ⟨names.filterMap (close_entry dir_fd), by unfold close_all_fds; rw [if_pos hd],
        hentry⟩
  · intro pre name post h
    unfold close_all_fds
    rw [List.filterMap_append, List.filterMap_cons, close_entry_non_digit dir_fd name h,
      List.filterMap_append]
  · intro x hx hle
    rcases hall x hx with h | h
    · exact h
    · omega
  · intro hd x hx
    rcases hall x hx with h | h
    · rw [h]; exact hd
    · exact h

end rpc

namespace display

/-! ## The names shown for the transfers -/

theorem rfind_lt (s : List Char) (ch : Char) (pos i : Nat) (h : rfind s ch pos = some i) :
    i < s.length := by
  unfold rfind at h
  have hm := List.mem_of_find?_eq_some h
  rw [List.mem_reverse, List.mem_range] at hm
  exact lt_of_lt_of_le hm (min_le_right _ _)

/-- The three cuts made after the test for the empty string keep a non-empty
string non-empty and leave at most 30 characters. -/
theorem create_name_cuts (n0 : List Char) (hn : n0 ≠ []) :
    ∃ m,
      (if n0.isEmpty then
          (.error "WindowHttpQueue::create_name(...) made a bad string" :
            Except String (List Char))
        else
          let n := if n0.length > 2 ∧ n0.head? = some '/' then n0.drop 1 else n0
          let n :=
            if n.length > 9 ∧ (n.drop (n.length - 8) = ".torrent".toList ∨
                n.drop (n.length - 8) = ".TORRENT".toList) then n.take (n.length - 8)
            else n
          let n := if n.length > 30 then n.take 30 else n
          .ok n) = .ok m ∧ m ≠ [] ∧ m.length ≤ 30 := by
  have h0 : 0 < n0.length := List.length_pos.2 hn
  have he : n0.isEmpty = false := by
    cases n0 with
    | nil => exact absurd rfl hn
    | cons c cs => rfl
  rw [he]
  refine ⟨_, rfl, ?_, ?_⟩
  · apply List.ne_nil_of_length_pos
    dsimp only
    split_ifs <;> simp only [List.length_take, List.length_drop] at * <;> omega
  · dsimp only
    split_ifs <;> simp only [List.length_take, List.length_drop] at * <;> omega

theorem create_name_example :
    WindowHttpQueue.create_name "http://example.com/file.torrent".toList =
      .ok "file".toList := by
  rfl

/-- C29: for every non-empty URL `create_name` returns a name that is not
empty and has at most 30 characters; for the empty URL it raises the logic
error. -/
theorem create_name_nonempty_at_most_30 (url : List Char) :
    (url ≠ [] →
      ∃ n, WindowHttpQueue.create_name url = .ok n ∧ n ≠ [] ∧ n.length ≤ 30) ∧
    WindowHttpQueue.create_name [] =
      .error "WindowHttpQueue::create_name(...) made a bad string" := by
  refine ⟨?_, rfl⟩
  intro hu
  unfold WindowHttpQueue.create_name
  refine create_name_cuts _ ?_
  cases hp : rfind url '/' (to_size ((url.length : Int) - min 10 (to_int url.length))) with
  | none => exact hu
  | some i =>
    have hi := rfind_lt _ _ _ _ hp
    apply List.ne_nil_of_length_pos
    show 0 < (url.drop i).length
    rw [List.length_drop]
    omega

/-! ## One step of the redistribution without overflow -/

theorem to_uint32_of_lt (n : Nat) (h : n < 2 ^ 32) : to_uint32 (n : Int) = n := by
  unfold to_uint32
  omega

theorem to_int_of_range (z : Int) (h0 : -(2 ^ 31 : Int) ≤ z) (h1 : z < 2 ^ 31) :
    to_int z = z := by
  unfold to_int
  omega

theorem share_le (x k : Nat) (hk : 0 < k) : (x + k - 1) / k ≤ x := by
  apply Nat.lt_succ_iff.1
  rw [Nat.div_lt_iff_lt_mul hk, Nat.succ_mul]
  have h1 : x ≤ x * k := Nat.le_mul_of_pos_right x hk
  omega

theorem share_pos (x k : Nat) (hk : 0 < k) (hx : 0 < x) : 0 < (x + k - 1) / k :=
  Nat.div_pos (by omega) hk

/-- The value of `adjust` when nothing wraps. -/
theorem adjust_of_eq (remaining : Int) (k : Nat) (d : dynamic_type) (hk : 0 < k)
    (hhi : (max remaining 0).toNat + max d.extent d.minExtent < 2 ^ 31) :
    adjust_of remaining k d =
      min (max (((max remaining 0).toNat + k - 1) / k + d.extent) d.minExtent) d.maxExtent := by
  have hs := share_le (max remaining 0).toNat k hk
  unfold adjust_of
  dsimp only
  rw [to_uint32_of_lt _ (by omega)]
  have h2 : (((((max remaining 0).toNat + k - 1) / k : Nat) : Int) + (d.extent : Int)) =
      (((((max remaining 0).toNat + k - 1) / k + d.extent : Nat)) : Int) := by
    push_cast
    rfl
  rw [h2, to_uint32_of_lt _ (by omega)]

/-- One step on an entry when nothing wraps: the extent does not decrease and
stays at or below the maximum, `remaining` loses exactly what the extent gains,
and the two bounds of `no_overflow` do not get worse. -/
theorem step_facts (remaining : Int) (k : Nat) (d : dynamic_type) (hk : 0 < k)
    (hM : d.extent ≤ d.maxExtent)
    (hhi : (max remaining 0).toNat + max d.extent d.minExtent < 2 ^ 31)
    (hlo : -(2 ^ 31 : Int) ≤ min remaining 0 - ((d.minExtent - d.extent : Nat) : Int)) :
    d.extent ≤ adjust_of remaining k d ∧ adjust_of remaining k d ≤ d.maxExtent ∧
    to_int (remaining - to_uint32 ((adjust_of remaining k d : Int) - d.extent)) =
      remaining - ((adjust_of remaining k d : Int) - d.extent) ∧
    (max (remaining - ((adjust_of remaining k d : Int) - d.extent)) 0).toNat +
        max (adjust_of remaining k d) d.minExtent ≤
      (max remaining 0).toNat + max d.extent d.minExtent ∧
    min remaining 0 - ((d.minExtent - d.extent : Nat) : Int) ≤
      min (remaining - ((adjust_of remaining k d : Int) - d.extent)) 0 -
        ((d.minExtent - adjust_of remaining k d : Nat) : Int) := by
  have hs := share_le (max remaining 0).toNat k hk
  have ha := adjust_of_eq remaining k d hk hhi
  generalize adjust_of remaining k d = a at ha ⊢
  generalize ((max remaining 0).toNat + k - 1) / k = a0 at ha hs
  have h1 : d.extent ≤ a := by omega
  have h2 : a ≤ d.maxExtent := by omega
  have h3 : to_uint32 ((a : Int) - d.extent) = a - d.extent := by
    have : ((a : Int) - d.extent) = ((a - d.extent : Nat) : Int) := by omega
    rw [this, to_uint32_of_lt _ (by omega)]
  refine ⟨h1, h2, ?_, ?_, ?_⟩
  · rw [h3, to_int_of_range _ (by omega) (by omega)]
    omega
  · omega
  · omega

/-! ## One pass of the redistribution without overflow -/

theorem extent_sum_cons (d : dynamic_type) (ds : List dynamic_type) :
    extent_sum (d :: ds) = d.extent + extent_sum ds := by
  simp [extent_sum]

theorem claimed_cons (d : dynamic_type) (ds : List dynamic_type) :
    claimed (d :: ds) = max d.extent d.minExtent + claimed ds := by
  simp [claimed]

theorem lacking_cons (d : dynamic_type) (ds : List dynamic_type) :
    lacking (d :: ds) = (d.minExtent - d.extent) + lacking ds := by
  simp [lacking]

theorem pass_cons (remaining : Int) (retry : Bool) (d : dynamic_type)
    (ds : List dynamic_type) :
    pass remaining retry (d :: ds) =
      ((pass (to_int (remaining -
            to_uint32 ((adjust_of remaining (ds.length + 1) d : Int) - d.extent)))
          (retry || decide (d.extent ≠ adjust_of remaining (ds.length + 1) d)) ds).1,
        (pass (to_int (remaining -
            to_uint32 ((adjust_of remaining (ds.length + 1) d : Int) - d.extent)))
          (retry || decide (d.extent ≠ adjust_of remaining (ds.length + 1) d)) ds).2.1,
        { d with extent := adjust_of remaining (ds.length + 1) d } ::
          (pass (to_int (remaining -
            to_uint32 ((adjust_of remaining (ds.length + 1) d : Int) - d.extent)))
          (retry || decide (d.extent ≠ adjust_of remaining (ds.length + 1) d)) ds).2.2) :=
  rfl

/-- A pass started within the bounds of `no_overflow`: every entry is `grown`,
`remaining` loses exactly what the extents gain, the two bounds do not get
worse, and `retry` is set exactly when it was set before or an extent
changed. -/
theorem pass_facts (ds : List dynamic_type) :
    ∀ (remaining : Int) (retry : Bool), no_overflow remaining ds →
      (max (pass remaining retry ds).1 0).toNat + claimed (pass remaining retry ds).2.2 ≤
        (max remaining 0).toNat + claimed ds ∧
      min remaining 0 - lacking ds ≤
        min (pass remaining retry ds).1 0 - lacking (pass remaining retry ds).2.2 ∧
      List.Forall₂ grown ds (pass remaining retry ds).2.2 ∧
      extent_sum ds ≤ extent_sum (pass remaining retry ds).2.2 ∧
      (pass remaining retry ds).1 =
        remaining - ((extent_sum (pass remaining retry ds).2.2 : Int) - extent_sum ds) ∧
      ((pass remaining retry ds).2.1 = true ↔
        (retry = true ∨ extent_sum ds < extent_sum (pass remaining retry ds).2.2)) := by
  induction ds with
  | nil =>
    intro remaining retry _
    refine ⟨le_refl _, le_refl _, List.Forall₂.nil, le_refl _, ?_, ?_⟩
    · show remaining = remaining - ((extent_sum [] : Int) - extent_sum [])
      omega
    · show retry = true ↔ (retry = true ∨ extent_sum [] < extent_sum [])
      simp
  | cons d ds ih =>
    intro remaining retry hno
    obtain ⟨hM, hhi, hlo⟩ := hno
    have hd := hM d (List.mem_cons_self _ _)
    rw [claimed_cons] at hhi
    rw [lacking_cons] at hlo
    push_cast at hlo
    obtain ⟨s1, s2, s3, s4, s5⟩ :=
      step_facts remaining (ds.length + 1) d (Nat.succ_pos _) hd (by omega) (by omega)
    rw [pass_cons]
    dsimp only
    rw [s3]
    generalize adjust_of remaining (ds.length + 1) d = a at s1 s2 s3 s4 s5 ⊢
    have hno1 : no_overflow (remaining - ((a : Int) - d.extent)) ds :=
      ⟨fun e he => hM e (List.mem_cons_of_mem _ he), by omega, by omega⟩
    have ih1 := ih (remaining - ((a : Int) - d.extent))
      (retry || decide (d.extent ≠ a)) hno1
    generalize pass (remaining - ((a : Int) - d.extent))
      (retry || decide (d.extent ≠ a)) ds = r at ih1 ⊢
    obtain ⟨i1, i2, i3, i4, i5, i6⟩ := ih1
    rw [claimed_cons, claimed_cons, lacking_cons, lacking_cons, extent_sum_cons,
      extent_sum_cons]
    dsimp only
    push_cast
    refine ⟨by omega, by omega, List.Forall₂.cons ⟨rfl, rfl, rfl, s1, s2⟩ i3, by omega,
      by omega, ?_⟩
    rw [i6]
    by_cases hc : d.extent = a
    · cases retry <;> simp [hc]
    · have hlt : d.extent < a := lt_of_le_of_ne s1 hc
      cases retry
      · simp [hc]
        omega
      · simp

/-! ## Termination of the redistribution -/

theorem grown_trans {a b c : dynamic_type} (h1 : grown a b) (h2 : grown b c) : grown a c :=
  ⟨h2.1.trans h1.1, h2.2.1.trans h1.2.1, h2.2.2.1.trans h1.2.2.1,
    le_trans h1.2.2.2.1 h2.2.2.2.1, h2.2.2.2.2⟩

theorem grown_list_trans : ∀ {a b c : List dynamic_type},
    List.Forall₂ grown a b → List.Forall₂ grown b c → List.Forall₂ grown a c
  | _, _, _, .nil, .nil => .nil
  | _, _, _, .cons h1 t1, .cons h2 t2 => .cons (grown_trans h1 h2) (grown_list_trans t1 t2)

theorem grown_list_refl (ds : List dynamic_type) (h : ∀ d ∈ ds, d.extent ≤ d.maxExtent) :
    List.Forall₂ grown ds ds := by
  induction ds with
  | nil => exact .nil
  | cons d ds ih =>
    exact .cons ⟨rfl, rfl, rfl, le_refl _, h d (List.mem_cons_self _ _)⟩
      (ih (fun e he => h e (List.mem_cons_of_mem _ he)))

theorem grown_list_le_max {ds ds1 : List dynamic_type} (h : List.Forall₂ grown ds ds1) :
    ∀ d ∈ ds1, d.extent ≤ d.maxExtent := by
  induction h with
  | nil => intro d hd; cases hd
  | cons h1 _ ih =>
    intro d hd
    rcases List.mem_cons.1 hd with rfl | hd
    · exact h1.2.2.2.2
    · exact ih d hd

/-- When the extents of `grown` entries have a larger sum, one entry is
strictly larger. -/
theorem grown_list_strict {ds ds1 : List dynamic_type} (h : List.Forall₂ grown ds ds1)
    (hlt : extent_sum ds < extent_sum ds1) :
    ∃ i d d1, ds.get? i = some d ∧ ds1.get? i = some d1 ∧ d.extent < d1.extent := by
  induction h with
  | nil => exact absurd hlt (lt_irrefl _)
  | @cons d d1 ds ds1 h1 _ ih =>
    rw [extent_sum_cons, extent_sum_cons] at hlt
    by_cases hd : d.extent < d1.extent
    · exact ⟨0, d, d1, rfl, rfl, hd⟩
    · have hle := h1.2.2.2.1
      obtain ⟨i, e, e1, he, he1, hlt1⟩ := ih (by omega)
      exact ⟨i + 1, e, e1, he, he1, hlt1⟩

theorem pass_no_overflow (remaining : Int) (ds : List dynamic_type)
    (h : no_overflow remaining ds) (retry : Bool) :
    no_overflow (pass remaining retry ds).1 (pass remaining retry ds).2.2 := by
  obtain ⟨p1, p2, p3, _, _, _⟩ := pass_facts ds remaining retry h
  obtain ⟨_, hhi, hlo⟩ := h
  exact ⟨grown_list_le_max p3, by omega, by omega⟩

theorem pass_retry_shrinks (remaining : Int) (ds : List dynamic_type)
    (h : no_overflow remaining ds) (hr : (pass remaining false ds).2.1 = true) :
    (pass remaining false ds).1 < remaining ∧
      ∃ i d d1, ds.get? i = some d ∧ (pass remaining false ds).2.2.get? i = some d1 ∧
        d.extent < d1.extent := by
  obtain ⟨_, _, p3, _, p5, p6⟩ := pass_facts ds remaining false h
  have hlt : extent_sum ds < extent_sum (pass remaining false ds).2.2 := by
    rcases p6.1 hr with h0 | h0
    · cases h0
    · exact h0
  exact ⟨by omega, grown_list_strict p3 hlt⟩

theorem redistribute_succ (fuel : Nat) (remaining : Int) (ds : List dynamic_type) :
    redistribute (fuel + 1) remaining ds =
      if (pass remaining false ds).2.1 = true ∧ (pass remaining false ds).1 > 0 then
        redistribute fuel (pass remaining false ds).1 (pass remaining false ds).2.2
      else some ((pass remaining false ds).1, (pass remaining false ds).2.2) :=
  rfl

/-- Within the bounds of `no_overflow` the loop ends after at most
`max(remaining, 0) + 1` passes: every larger amount of fuel gives the same
result. -/
theorem redistribute_total : ∀ (n : Nat) (remaining : Int) (ds : List dynamic_type),
    no_overflow remaining ds → (max remaining 0).toNat < n →
    ∃ r, (∀ fuel, n ≤ fuel → redistribute fuel remaining ds = some r) ∧
      List.Forall₂ grown ds r.2 ∧ r.1 ≤ remaining ∧ no_overflow r.1 r.2 := by
  intro n
  induction n with
  | zero => intro _ _ _ h; exact absurd h (Nat.not_lt_zero _)
  | succ n ih =>
    intro remaining ds hno hn
    obtain ⟨_, _, p3, p4, p5, _⟩ := pass_facts ds remaining false hno
    have hno1 := pass_no_overflow remaining ds hno false
    by_cases hc : (pass remaining false ds).2.1 = true ∧ (pass remaining false ds).1 > 0
    · have hs := (pass_retry_shrinks remaining ds hno hc.1).1
      obtain ⟨r, hr, hg, hle, hnr⟩ :=
        ih (pass remaining false ds).1 (pass remaining false ds).2.2 hno1 (by omega)
      refine ⟨r, ?_, grown_list_trans p3 hg, by omega, hnr⟩
      intro fuel hf
      obtain ⟨f, rfl⟩ : ∃ f, fuel = f + 1 := ⟨fuel - 1, by omega⟩
      rw [redistribute_succ, if_pos hc]
      exact hr f (by omega)
    · refine ⟨((pass remaining false ds).1, (pass remaining false ds).2.2), ?_, p3,
        by dsimp only; omega, hno1⟩
      intro fuel hf
      obtain ⟨f, rfl⟩ : ∃ f, fuel = f + 1 := ⟨fuel - 1, by omega⟩
      rw [redistribute_succ, if_neg hc]

/-- C28: started within the 32-bit bounds of `no_overflow`, the redistribution
loop of `balance_row` and `balance_column` ends: `max(remaining, 0) + 1` passes
or any larger number give a result, whose entries are the starting entries with
extents not smaller and not above their maxima.  Each pass keeps the bounds (so
the same holds for the pass after it), leaves every extent not smaller and not
above its maximum, and when it asks for a retry `remaining` is strictly smaller
and some entry's extent strictly larger than before the pass. -/
theorem redistribution_terminates (remaining : Int) (ds : List dynamic_type)
    (h : no_overflow remaining ds) :
    (∃ r, (∀ fuel, (max remaining 0).toNat + 1 ≤ fuel →
        redistribute fuel remaining ds = some r) ∧
      List.Forall₂ grown ds r.2 ∧ r.1 ≤ remaining) ∧
    no_overflow (pass remaining false ds).1 (pass remaining false ds).2.2 ∧
    List.Forall₂ grown ds (pass remaining false ds).2.2 ∧
    ((pass remaining false ds).2.1 = true →
      (pass remaining false ds).1 < remaining ∧
      ∃ i d d1, ds.get? i = some d ∧ (pass remaining false ds).2.2.get? i = some d1 ∧
        d.extent < d1.extent) := by
  obtain ⟨r, hr, hg, hle, _⟩ :=
    redistribute_total ((max remaining 0).toNat + 1) remaining ds h (Nat.lt_succ_self _)
  exact ⟨⟨r, hr, hg, hle⟩, pass_no_overflow remaining ds h false,
    (pass_facts ds remaining false h).2.2.1, pass_retry_shrinks remaining ds h⟩

theorem redistribution_terminates_witness :
    no_overflow 21 (stable_sort (dynamic_frames 0 three_children)) ∧
    redistribute 22 21 (stable_sort (dynamic_frames 0 three_children)) =
      some (0, [⟨2, 5, 8, 8⟩, ⟨1, 2, 999, 13⟩]) ∧
    ∃ r, (∀ fuel, 22 ≤ fuel →
        redistribute fuel 21 (stable_sort (dynamic_frames 0 three_children)) = some r) ∧
      List.Forall₂ grown (stable_sort (dynamic_frames 0 three_children)) r.2 ∧ r.1 ≤ 21 :=
  ⟨⟨by decide, by decide, by decide⟩, by decide,
    (redistribution_terminates 21 _ ⟨by decide, by decide, by decide⟩).1⟩

/-! ## A row or a column that is short of space -/

/-- With nothing left and extent 0, `adjust` is the minimum cut at the
maximum. -/
theorem adjust_of_short (remaining : Int) (k : Nat) (d : dynamic_type) (hk : 0 < k)
    (hr : remaining ≤ 0) (he : d.extent = 0) :
    adjust_of remaining k d = min d.minExtent d.maxExtent := by
  have h0 : (max remaining 0).toNat = 0 := by omega
  have h1 : (0 + k - 1) / k = 0 := Nat.div_eq_of_lt (by omega)
  unfold adjust_of
  dsimp only
  rw [h0, h1, he]
  have h2 : to_uint32 (((0 : Nat) : Int)) = 0 := by decide
  rw [h2]
  have h3 : to_uint32 ((((0 : Nat) : Int)) + ((0 : Nat) : Int)) = 0 := by decide
  rw [h3, Nat.max_eq_right (Nat.zero_le _)]

/-- A pass over entries of extent 0 that starts with nothing left gives every
entry its minimum cut at its maximum and takes these from `remaining`. -/
theorem pass_short (ds : List dynamic_type) :
    ∀ (remaining : Int) (retry : Bool), (∀ d ∈ ds, d.extent = 0) → remaining ≤ 0 →
      -(2 ^ 31 : Int) ≤
        remaining - ((ds.map (fun d => min d.minExtent d.maxExtent)).sum : Nat) →
      (pass remaining retry ds).1 =
        remaining - ((ds.map (fun d => min d.minExtent d.maxExtent)).sum : Nat) ∧
      (pass remaining retry ds).2.2 =
        ds.map (fun d => { d with extent := min d.minExtent d.maxExtent }) := by
  induction ds with
  | nil =>
    intro remaining retry _ _ _
    exact ⟨by show remaining = remaining - ((0 : Nat) : Int); omega, rfl⟩
  | cons d ds ih =>
    intro remaining retry h0 hr hlo
    have he := h0 d (List.mem_cons_self _ _)
    have ha := adjust_of_short remaining (ds.length + 1) d (Nat.succ_pos _) hr he
    rw [List.map_cons, List.sum_cons, Nat.cast_add] at hlo
    have hu : to_uint32 (((min d.minExtent d.maxExtent : Nat) : Int) - (d.extent : Int)) =
        min d.minExtent d.maxExtent := by
      rw [he]
      have : (((min d.minExtent d.maxExtent : Nat) : Int) - ((0 : Nat) : Int)) =
          ((min d.minExtent d.maxExtent : Nat) : Int) := by omega
      rw [this, to_uint32_of_lt _ (by omega)]
    have hi : to_int (remaining - ((min d.minExtent d.maxExtent : Nat) : Int)) =
        remaining - ((min d.minExtent d.maxExtent : Nat) : Int) :=
      to_int_of_range _ (by omega) (by omega)
    rw [pass_cons]
    dsimp only
    rw [ha, hu, hi]
    obtain ⟨i1, i2⟩ := ih (remaining - ((min d.minExtent d.maxExtent : Nat) : Int))
      (retry || decide (d.extent ≠ min d.minExtent d.maxExtent))
      (fun e he => h0 e (List.mem_cons_of_mem _ he)) (by omega) (by omega)
    rw [i1, i2, List.map_cons, List.map_cons, List.sum_cons, Nat.cast_add]
    exact ⟨by omega, rfl⟩

theorem dynamic_frames_extent (cs : List Side) :
    ∀ (i : Nat), ∀ d ∈ dynamic_frames i cs, d.extent = 0 := by
  induction cs with
  | nil => intro i d hd; cases hd
  | cons c cs ih =>
    intro i d hd
    unfold dynamic_frames at hd
    split_ifs at hd
    · rcases List.mem_cons.1 hd with rfl | hd
      · rfl
      · exact ih _ d hd
    · exact ih _ d hd

theorem dynamic_frames_required (cs : List Side) :
    ∀ (i : Nat),
      ((dynamic_frames i cs).map (fun d => min d.minExtent d.maxExtent)).sum = required cs := by
  induction cs with
  | nil => intro i; rfl
  | cons c cs ih =>
    intro i
    unfold dynamic_frames required
    split_ifs
    · rw [List.map_cons, List.sum_cons, ih]
    · rw [ih, Nat.zero_add]

/-- An entry of `dynamicFrames` carries the bounds of the dynamic child it
names. -/
theorem dynamic_frames_mem (cs : List Side) :
    ∀ (i : Nat), ∀ d ∈ dynamic_frames i cs,
      ∃ j c, d.index = i + j ∧ cs.get? j = some c ∧
        d.minExtent = c.minExtent ∧ d.maxExtent = c.maxExtent := by
  induction cs with
  | nil => intro i d hd; cases hd
  | cons c cs ih =>
    intro i d hd
    have hrest : d ∈ dynamic_frames (i + 1) cs →
        ∃ j c1, d.index = i + j ∧ (c :: cs).get? j = some c1 ∧
          d.minExtent = c1.minExtent ∧ d.maxExtent = c1.maxExtent := by
      intro hd
      obtain ⟨j, c1, h1, h2, h3, h4⟩ := ih (i + 1) d hd
      exact ⟨j + 1, c1, by omega, h2, h3, h4⟩
    unfold dynamic_frames at hd
    split_ifs at hd
    · rcases List.mem_cons.1 hd with rfl | hd
      · exact ⟨0, c, rfl, rfl, rfl, rfl⟩
      · exact hrest hd
    · exact hrest hd

/-- Every dynamic child has its entry in `dynamicFrames`. -/
theorem dynamic_frames_has (cs : List Side) :
    ∀ (i j : Nat) (c : Side), cs.get? j = some c → c.dynamic = true →
      ∃ d ∈ dynamic_frames i cs, d.index = i + j := by
  induction cs with
  | nil => intro i j c h; cases h
  | cons c0 cs ih =>
    intro i j c h hc
    cases j with
    | zero =>
      have : c0 = c := Option.some.inj h
      subst this
      refine ⟨⟨i, c0.minExtent, c0.maxExtent, 0⟩, ?_, rfl⟩
      unfold dynamic_frames
      rw [if_pos hc]
      exact List.mem_cons_self _ _
    | succ j =>
      obtain ⟨d, hd, hi⟩ := ih (i + 1) j c h hc
      refine ⟨d, ?_, by omega⟩
      unfold dynamic_frames
      split_ifs
      · exact List.mem_cons_of_mem _ hd
      · exact hd

theorem m_extents_eq (ds : List dynamic_type) (g : Side → Nat) (cs : List Side) :
    ∀ (i : Nat), (∀ j c, cs.get? j = some c → m_extent ds (i + j) c = g c) →
      m_extents ds i cs = cs.map g := by
  induction cs with
  | nil => intro i _; rfl
  | cons c cs ih =>
    intro i h
    have hc := h 0 c rfl
    rw [Nat.add_zero] at hc
    unfold m_extents
    rw [List.map_cons, hc, ih (i + 1)]
    intro j c1 hj
    have := h (j + 1) c1 hj
    rw [← this]
    congr 1
    omega

/-- The extents read back from the entries that a short pass leaves. -/
theorem m_extent_short (children : List Side) (sorted : List dynamic_type)
    (hp : sorted.Perm (dynamic_frames 0 children)) (j : Nat) (c : Side)
    (hj : children.get? j = some c) :
    m_extent (sorted.map (fun d => { d with extent := min d.minExtent d.maxExtent })) j c =
      short_extent c := by
  unfold m_extent short_extent
  by_cases hc : c.dynamic = true
  · rw [if_pos hc, if_pos hc]
    cases hf : (sorted.map
        (fun d => { d with extent := min d.minExtent d.maxExtent })).find?
        (fun d => d.index == j) with
    | none =>
      exfalso
      obtain ⟨d, hd, hi⟩ := dynamic_frames_has children 0 j c hj hc
      have hm : ({ d with extent := min d.minExtent d.maxExtent } : dynamic_type) ∈
          sorted.map (fun d => { d with extent := min d.minExtent d.maxExtent }) :=
        List.mem_map.2 ⟨d, hp.mem_iff.2 hd, rfl⟩
      have := List.find?_eq_none.1 hf _ hm
      apply this
      show (d.index == j) = true
      rw [hi, Nat.zero_add]
      exact beq_self_eq_true j
    | some e =>
      have he := List.mem_of_find?_eq_some hf
      have hi : (e.index == j) = true :=
        @List.find?_some _ (fun d : dynamic_type => d.index == j) e _ hf
      obtain ⟨d, hd, rfl⟩ := List.mem_map.1 he
      obtain ⟨j1, c1, h1, h2, h3, h4⟩ := dynamic_frames_mem children 0 d (hp.mem_iff.1 hd)
      have hij : d.index = j := by simpa using hi
      have : j1 = j := by omega
      subst this
      rw [hj] at h2
      have : c = c1 := Option.some.inj h2
      subst this
      show min d.minExtent d.maxExtent = min c.minExtent c.maxExtent
      rw [h3, h4]
  · rw [if_neg hc, if_neg hc]

theorem stable_sort_perm (ds : List dynamic_type) : (stable_sort ds).Perm ds :=
  List.perm_insertionSort _ ds

/-- C25: when the space left after the children of fixed extent have taken
their minima is zero or negative (and taking the dynamic children's
requirements from it stays within an `int`), the first two phases assign every
dynamic child its minimum cut at its maximum and every other child its
minimum, in one pass, and `remaining` ends at or below zero.  Rows use this
with heights, columns with widths. -/
theorem short_assigns_each_dynamic_child_its_minimum (fuel extent : Nat)
    (children : List Side)
    (hshort : static_remaining (to_int extent) children ≤ 0)
    (hfit : -(2 ^ 31 : Int) ≤ static_remaining (to_int extent) children - required children) :
    assigned (fuel + 1) extent children =
      some (static_remaining (to_int extent) children - required children,
        children.map short_extent) ∧
    static_remaining (to_int extent) children - required children ≤ 0 := by
  have hp := stable_sort_perm (dynamic_frames 0 children)
  have hsum : ((stable_sort (dynamic_frames 0 children)).map
      (fun d => min d.minExtent d.maxExtent)).sum = required children := by
    rw [← dynamic_frames_required children 0]
    exact (hp.map _).sum_eq
  have h0 : ∀ d ∈ stable_sort (dynamic_frames 0 children), d.extent = 0 :=
    fun d hd => dynamic_frames_extent children 0 d (hp.mem_iff.1 hd)
  obtain ⟨p1, p2⟩ := pass_short (stable_sort (dynamic_frames 0 children))
    (static_remaining (to_int extent) children) false h0 hshort (by rw [hsum]; exact hfit)
  rw [hsum] at p1
  refine ⟨?_, by omega⟩
  unfold assigned
  rw [redistribute_succ, if_neg (by rw [p1]; omega)]
  dsimp only
  rw [p1, p2, m_extents_eq _ short_extent children 0]
  intro j c hj
  rw [Nat.zero_add]
  exact m_extent_short children _ hp j c hj

theorem short_assigns_each_dynamic_child_its_minimum_witness :
    static_remaining (to_int 2) three_children ≤ 0 ∧
    assigned 1 2 three_children = some (-8, [3, 2, 5]) :=
  ⟨by decide,
    (short_assigns_each_dynamic_child_its_minimum 0 2 three_children (by decide)
      (by decide)).1⟩

/-! ## A row or a column that is too small -/

theorem place_cons (remaining : Int) (position extent : Nat) (c : Side) (m : Nat)
    (cs : List (Side × Nat)) :
    place remaining position extent ((c, m) :: cs) =
      (position,
        min (if (decide (remaining > 0) && c.far_frame) = true then
            to_uint32 ((m : Int) + remaining) else m) extent) ::
        place (if (decide (remaining > 0) && c.far_frame) = true then 0 else remaining)
          (to_uint32 ((position : Int) +
            (min (if (decide (remaining > 0) && c.far_frame) = true then
              to_uint32 ((m : Int) + remaining) else m) extent : Nat)))
          (to_uint32 ((extent : Int) -
            (min (if (decide (remaining > 0) && c.far_frame) = true then
              to_uint32 ((m : Int) + remaining) else m) extent : Nat))) cs :=
  rfl

theorem to_uint32_sub (extent handed : Nat) (h1 : handed ≤ extent) (h2 : extent < 2 ^ 32) :
    to_uint32 ((extent : Int) - handed) = extent - handed := by
  unfold to_uint32
  omega

/-- The last loop never hands out more than the extent of the container, and
once the extents handed reach it, every later child is handed 0. -/
theorem place_facts (cs : List (Side × Nat)) :
    ∀ (remaining : Int) (position extent : Nat), extent < 2 ^ 32 →
      (place remaining position extent cs).length = cs.length ∧
      ((place remaining position extent cs).map Prod.snd).sum ≤ extent ∧
      ∀ n, extent ≤ (((place remaining position extent cs).take n).map Prod.snd).sum →
        ∀ c ∈ (place remaining position extent cs).drop n, c.2 = 0 := by
  induction cs with
  | nil =>
    intro remaining position extent _
    refine ⟨rfl, Nat.zero_le _, ?_⟩
    intro n _ c hc
    have : place remaining position extent [] = [] := rfl
    rw [this, List.drop_nil] at hc
    cases hc
  | cons cm cs ih =>
    intro remaining position extent hlt
    obtain ⟨c, m⟩ := cm
    rw [place_cons]
    generalize (if (decide (remaining > 0) && c.far_frame) = true then
      to_uint32 ((m : Int) + remaining) else m) = m1
    generalize (if (decide (remaining > 0) && c.far_frame) = true then (0 : Int)
      else remaining) = remaining1
    have hle : min m1 extent ≤ extent := Nat.min_le_right _ _
    rw [to_uint32_sub extent (min m1 extent) hle hlt]
    generalize to_uint32 ((position : Int) + (min m1 extent : Nat)) = position1
    obtain ⟨i1, i2, i3⟩ := ih remaining1 position1 (extent - min m1 extent) (by omega)
    refine ⟨by rw [List.length_cons, List.length_cons, i1], ?_, ?_⟩
    · rw [List.map_cons, List.sum_cons]
      show min m1 extent + _ ≤ extent
      omega
    · intro n hn x hx
      cases n with
      | zero =>
        rw [List.take_zero, List.map_nil, List.sum_nil] at hn
        have he : extent = 0 := Nat.le_zero.1 hn
        rw [List.drop_zero] at hx
        rcases List.mem_cons.1 hx with rfl | hx
        · show min m1 extent = 0
          rw [he]
          exact Nat.min_zero _
        · exact i3 0 (by omega) x (by rw [List.drop_zero]; exact hx)
      | succ n =>
        rw [List.take_succ_cons, List.map_cons, List.sum_cons] at hn
        rw [List.drop_succ_cons] at hx
        exact i3 n (by omega) x hx

theorem m_extents_length (ds : List dynamic_type) (cs : List Side) :
    ∀ (i : Nat), (m_extents ds i cs).length = cs.length := by
  induction cs with
  | nil => intro i; rfl
  | cons c cs ih =>
    intro i
    unfold m_extents
    rw [List.length_cons, List.length_cons, ih]

/-- What `place_facts` gives for the three phases in one direction. -/
theorem balance_side_facts (fuel position extent : Nat) (children : List Side)
    (hlt : extent < 2 ^ 32) (out : List (Nat × Nat))
    (h : balance_side fuel position extent children = some out) :
    out.length = children.length ∧ (out.map Prod.snd).sum ≤ extent ∧
    ∀ n, extent ≤ ((out.take n).map Prod.snd).sum → ∀ c ∈ out.drop n, c.2 = 0 := by
  unfold balance_side assigned at h
  cases hr : redistribute fuel (static_remaining (to_int extent) children)
      (stable_sort (dynamic_frames 0 children)) with
  | none => rw [hr] at h; cases h
  | some r =>
    rw [hr] at h
    have ho := Option.some.inj h
    obtain ⟨p1, p2, p3⟩ := place_facts (children.zip (m_extents r.2 0 children)) r.1 position
      extent hlt
    rw [← ho]
    refine ⟨?_, p2, p3⟩
    rw [p1, List.length_zip, m_extents_length, Nat.min_self]

/-- With the bounds of `no_overflow` and enough fuel the three phases return. -/
theorem balance_side_returns (fuel position extent : Nat) (children : List Side)
    (hno : no_overflow (static_remaining (to_int extent) children)
      (stable_sort (dynamic_frames 0 children)))
    (hfuel : (max (static_remaining (to_int extent) children) 0).toNat + 1 ≤ fuel) :
    ∃ out, balance_side fuel position extent children = some out := by
  obtain ⟨r, hr, _⟩ := redistribute_total _ _ _ hno (Nat.lt_succ_self _)
  unfold balance_side assigned
  rw [hr fuel hfuel]
  exact ⟨_, rfl⟩

/-- C24: in `balance_row`, whenever the balancing returns, the heights handed
to the children never add up to more than the height of the row, and once the
heights handed to the earlier children reach the height of the row every
remaining child is balanced with height 0, which `balance_window` answers by
setting the window offscreen.  `balance_column` does the same with widths.
Within the bounds of `no_overflow` and with enough fuel for the redistribution
both return. -/
theorem too_small_hands_zero_extent (fuel x y width height : Nat) (children : List Frame)
    (hw : width < 2 ^ 32) (hh : height < 2 ^ 32) :
    (∀ calls, Frame.balance_row fuel x y width height children = some calls →
      calls.length = children.length ∧
      (calls.map Balance.height).sum ≤ height ∧
      ∀ n, height ≤ ((calls.take n).map Balance.height).sum →
        ∀ c ∈ calls.drop n, c.height = 0 ∧
          ∀ is_active, balance_window_offscreen c.width c.height is_active = true) ∧
    (∀ calls, Frame.balance_column fuel x y width height children = some calls →
      calls.length = children.length ∧
      (calls.map Balance.width).sum ≤ width ∧
      ∀ n, width ≤ ((calls.take n).map Balance.width).sum →
        ∀ c ∈ calls.drop n, c.width = 0 ∧
          ∀ is_active, balance_window_offscreen c.width c.height is_active = true) ∧
    (no_overflow (static_remaining (to_int height) (children.map Frame.row_side))
        (stable_sort (dynamic_frames 0 (children.map Frame.row_side))) →
      (max (static_remaining (to_int height) (children.map Frame.row_side)) 0).toNat + 1 ≤
        fuel →
      ∃ calls, Frame.balance_row fuel x y width height children = some calls) ∧
    (no_overflow (static_remaining (to_int width) (children.map Frame.column_side))
        (stable_sort (dynamic_frames 0 (children.map Frame.column_side))) →
      (max (static_remaining (to_int width) (children.map Frame.column_side)) 0).toNat + 1 ≤
        fuel →
      ∃ calls, Frame.balance_column fuel x y width height children = some calls) := by
  refine ⟨?_, ?_, ?_, ?_⟩
  · intro calls h
    unfold Frame.balance_row at h
    cases hb : balance_side fuel y height (children.map Frame.row_side) with
    | none => rw [hb] at h; cases h
    | some out =>
      rw [hb] at h
      have hc := Option.some.inj h
      obtain ⟨p1, p2, p3⟩ := balance_side_facts fuel y height _ hh out hb
      rw [List.length_map] at p1
      rw [← hc]
      refine ⟨by rw [List.length_map, p1], ?_, ?_⟩
      · rw [List.map_map]
        exact p2
      · intro n hn c hcm
        rw [← List.map_take, List.map_map] at hn
        rw [← List.map_drop] at hcm
        obtain ⟨o, ho, rfl⟩ := List.mem_map.1 hcm
        have hz : o.2 = 0 := p3 n hn o ho
        refine ⟨hz, ?_⟩
        intro is_active
        show (width == 0 || o.2 == 0 || !is_active) = true
        rw [hz]
        simp
  · intro calls h
    unfold Frame.balance_column at h
    cases hb : balance_side fuel x width (children.map Frame.column_side) with
    | none => rw [hb] at h; cases h
    | some out =>
      rw [hb] at h
      have hc := Option.some.inj h
      obtain ⟨p1, p2, p3⟩ := balance_side_facts fuel x width _ hw out hb
      rw [List.length_map] at p1
      rw [← hc]
      refine ⟨by rw [List.length_map, p1], ?_, ?_⟩
      · rw [List.map_map]
        exact p2
      · intro n hn c hcm
        rw [← List.map_take, List.map_map] at hn
        rw [← List.map_drop] at hcm
        obtain ⟨o, ho, rfl⟩ := List.mem_map.1 hcm
        have hz : o.2 = 0 := p3 n hn o ho
        refine ⟨hz, ?_⟩
        intro is_active
        show (o.2 == 0 || height == 0 || !is_active) = true
        rw [hz]
        simp
  · intro hno hfuel
    obtain ⟨out, ho⟩ := balance_side_returns fuel y height _ hno hfuel
    unfold Frame.balance_row
    rw [ho]
    exact ⟨_, rfl⟩
  · intro hno hfuel
    obtain ⟨out, ho⟩ := balance_side_returns fuel x width _ hno hfuel
    unfold Frame.balance_column
    rw [ho]
    exact ⟨_, rfl⟩

/-- A row of height 5 with three children of fixed height 3: the heights
handed are 3, 2 and 0, at the positions 0, 3 and 5. -/
theorem short_row_example :
    Frame.balance_row 1 0 0 80 5
        [⟨⟨1, 3, 80, 3⟩, false, false, false, false⟩,
         ⟨⟨1, 3, 80, 3⟩, false, false, false, false⟩,
         ⟨⟨1, 3, 80, 3⟩, false, false, false, false⟩] =
      some [⟨0, 0, 80, 3⟩, ⟨0, 3, 80, 2⟩, ⟨0, 5, 80, 0⟩] ∧
    Frame.balance_column 1 0 0 5 24
        [⟨⟨3, 1, 3, 24⟩, false, false, false, false⟩,
         ⟨⟨3, 1, 3, 24⟩, false, false, false, false⟩,
         ⟨⟨3, 1, 3, 24⟩, false, false, false, false⟩] =
      some [⟨0, 0, 3, 24⟩, ⟨3, 0, 2, 24⟩, ⟨5, 0, 0, 24⟩] := by
  decide

theorem too_small_hands_zero_extent_witness :
    (80 : Nat) < 2 ^ 32 ∧ (5 : Nat) < 2 ^ 32 ∧
    Frame.balance_row 1 0 0 80 5
        [⟨⟨1, 3, 80, 3⟩, false, false, false, false⟩,
         ⟨⟨1, 3, 80, 3⟩, false, false, false, false⟩,
         ⟨⟨1, 3, 80, 3⟩, false, false, false, false⟩] =
      some [⟨0, 0, 80, 3⟩, ⟨0, 3, 80, 2⟩, ⟨0, 5, 80, 0⟩] ∧
    ([⟨0, 0, 80, 3⟩, ⟨0, 3, 80, 2⟩, ⟨0, 5, 80, 0⟩] : List Balance).length = 3 ∧
    (([⟨0, 0, 80, 3⟩, ⟨0, 3, 80, 2⟩, ⟨0, 5, 80, 0⟩] : List Balance).map Balance.height).sum ≤
      5 ∧
    ∀ n, 5 ≤ ((([⟨0, 0, 80, 3⟩, ⟨0, 3, 80, 2⟩, ⟨0, 5, 80, 0⟩] : List Balance).take n).map
        Balance.height).sum →
      ∀ c ∈ ([⟨0, 0, 80, 3⟩, ⟨0, 3, 80, 2⟩, ⟨0, 5, 80, 0⟩] : List Balance).drop n,
        c.height = 0 ∧
          ∀ is_active, balance_window_offscreen c.width c.height is_active = true :=
  ⟨by decide, by decide, by decide,
    (too_small_hands_zero_extent 1 0 0 80 5
      [⟨⟨1, 3, 80, 3⟩, false, false, false, false⟩,
       ⟨⟨1, 3, 80, 3⟩, false, false, false, false⟩,
       ⟨⟨1, 3, 80, 3⟩, false, false, false, false⟩] (by decide) (by decide)).1
      [⟨0, 0, 80, 3⟩, ⟨0, 3, 80, 2⟩, ⟨0, 5, 80, 0⟩] (by decide)⟩

end display
